import Mathlib

/-!
Verification of the thesis-manuscript parsing/formatting pipeline
(projects e1 and e5: `parser.py` / `formatter.py`).

All definitions are shallow embeddings of the corresponding Python
functions, working on `List Char` (Python `str` values) and
`List String` (the line sequence produced by `text.split('\n')`).
-/

namespace Py

/-- Python's whitespace predicate (`Py_UNICODE_ISSPACE`), which is used both
by `str.strip()` and by the regex class `\s` on `str` patterns. -/
def isSpace (c : Char) : Bool :=
  (9 ≤ c.toNat && c.toNat ≤ 13) || (28 ≤ c.toNat && c.toNat ≤ 31) ||
  c.toNat == 32 || c.toNat == 0x85 || c.toNat == 0xA0 || c.toNat == 0x1680 ||
  (0x2000 ≤ c.toNat && c.toNat ≤ 0x200A) || c.toNat == 0x2028 ||
  c.toNat == 0x2029 || c.toNat == 0x202F || c.toNat == 0x205F || c.toNat == 0x3000

/-- ASCII decimal digit, the regex class `\d` restricted to ASCII.
(Python's `str.isdigit` also accepts some non-ASCII digit characters;
the inputs quantified over in the theorems below stay inside the
faithfully modelled alphabet.) -/
def isDigit (c : Char) : Bool :=
  '0' ≤ c && c ≤ '9'

/-- `s.strip()` on a character list. -/
def strip (s : List Char) : List Char :=
  ((s.dropWhile isSpace).reverse.dropWhile isSpace).reverse

/-- Python `str.isdigit()` over the ASCII-digit alphabet: nonempty and
all characters are digits. -/
def isDigitString (s : List Char) : Bool :=
  !s.isEmpty && s.all isDigit

/-- Value of `int(s)` for a string of ASCII digits. -/
def digitsToNat (s : List Char) : Nat :=
  s.foldl (fun acc c => acc * 10 + (c.toNat - '0'.toNat)) 0

/-- `sep.join(parts)` with a single-space separator, as used by
`' '.join(current_paragraph)`. -/
def joinSpace (parts : List (List Char)) : List Char :=
  List.intercalate [' '] parts

/-- `s.split(sep)` for a one-character separator. -/
def splitChar (sep : Char) (s : List Char) : List (List Char) :=
  List.splitOnP (· == sep) s

end Py

namespace E1

/-- The table `self.chinese_numbers` of `E1Parser` (parser.py). -/
def chineseNumbers : List (List Char × Nat) :=
  [("一".data, 1), ("二".data, 2), ("三".data, 3), ("四".data, 4), ("五".data, 5),
   ("六".data, 6), ("七".data, 7), ("八".data, 8), ("九".data, 9), ("十".data, 10),
   ("十一".data, 11), ("十二".data, 12), ("十三".data, 13), ("十四".data, 14), ("十五".data, 15),
   ("十六".data, 16), ("十七".data, 17), ("十八".data, 18), ("十九".data, 19), ("二十".data, 20)]

/-- Lookup in `chinese_numbers` for a single character,
`self.chinese_numbers.get(ch, 0)`. -/
def charValue (c : Char) : Nat :=
  ((chineseNumbers.lookup [c]).getD 0)

/-- `E1Parser._chinese_to_arabic` (parser.py lines 32-67). -/
def chineseToArabic (s : List Char) : Nat :=
  match chineseNumbers.lookup s with
  | some v => v
  | none =>
    if s.take 1 = ['十'] ∧ s.length = 2 then
      10 + charValue (s.getD 1 ' ')
    else if s.getLast? = some '十' then
      charValue (s.headD ' ') * 10
    else if s.contains '十' ∧ s.length = 3 then
      charValue (s.headD ' ') * 10 + charValue (s.getD 2 ' ')
    else
      0

/-- The table `mapping` of `E1Formatter._arabic_to_chinese` (formatter.py). -/
def arabicMapping : List (Nat × List Char) :=
  [(0, "零".data), (1, "一".data), (2, "二".data), (3, "三".data), (4, "四".data),
   (5, "五".data), (6, "六".data), (7, "七".data), (8, "八".data), (9, "九".data),
   (10, "十".data)]

/-- `E1Formatter._arabic_to_chinese` (formatter.py lines 975-986). -/
def arabicToChinese (n : Nat) : List Char :=
  if n ≤ 10 then
    (arabicMapping.lookup n).getD []
  else if n < 20 then
    if n - 10 ≠ 0 then '十' :: ((arabicMapping.lookup (n - 10)).getD []) else ['十']
  else
    let tens := n / 10
    let ones := n % 10
    let tensPart := ((arabicMapping.lookup tens).getD (Nat.repr tens).data) ++ ['十']
    let onesPart := if ones ≠ 0 then (arabicMapping.lookup ones).getD [] else []
    tensPart ++ onesPart

end E1

namespace E5

/-- The table `chinese_map` of `USTCContentParser._chinese_to_arabic`
(parser.py lines 495-498). -/
def chineseMap : List (Char × Nat) :=
  [('一', 1), ('二', 2), ('三', 3), ('四', 4), ('五', 5),
   ('六', 6), ('七', 7), ('八', 8), ('九', 9), ('十', 10)]

/-- `chinese_map.get(ch, 0)` for a single character. -/
def charValue (c : Char) : Nat :=
  (chineseMap.lookup c).getD 0

/-- `chinese_map.get(s, 0)` where the key is a string: the map's keys are
single characters, so only one-character strings can hit. -/
def stringValue (s : List Char) : Nat :=
  match s with
  | [c] => charValue c
  | _ => 0

/-- `USTCContentParser._chinese_to_arabic` (parser.py lines 489-520). -/
def chineseToArabic (s : List Char) : Nat :=
  if Py.isDigitString s then
    Py.digitsToNat s
  else if s.length = 1 ∧ (chineseMap.lookup (s.headD ' ')).isSome then
    charValue (s.headD ' ')
  else if s.contains '十' then
    if s = ['十'] then 10
    else if s.take 1 = ['十'] then 10 + charValue (s.getD 1 ' ')
    else if s.getLast? = some '十' then charValue (s.headD ' ') * 10
    else
      let parts := Py.splitChar '十' s
      stringValue (parts.getD 0 []) * 10 + stringValue (parts.getD 1 [])
  else
    1

end E5

/-- Characters for which the numeral-converter model is checked to agree
with the Python source: ASCII plus the CJK numeral characters appearing in
the converters' tables. -/
def ModelAlphabet (c : Char) : Prop :=
  c.toNat < 128 ∨ c ∈ ['一', '二', '三', '四', '五', '六', '七', '八', '九', '十', '零', '章', '节', '、']

instance : DecidablePred ModelAlphabet := fun c => by
  unfold ModelAlphabet; infer_instance

/-!
Shallow embedding of the two text parsers (`parse_text` in
src/projects/e5/custom/parser.py and src/projects/e1/custom/parser.py).

A document line is a `List Char`.  The Python loop walks an index `i`
over `lines`; here each loop iteration is a step function taking the
current raw line and the list of lines after it, and returning the
updated state together with the lines that remain.  `current_chapter`
in the source is an alias of the last element of `content['chapters']`
(it is assigned only when a freshly created chapter dict is appended),
so appending to the current chapter's content is modelled as modifying
the last chapter, and `current_chapter is not None` as the chapter list
being nonempty.  Filesystem-dependent figure-path resolution
(`_resolve_figure_image_path`) is not part of the text model: the
figure node keeps the text inputs that determine it (number, caption,
source, filename hint).  `str.upper`/`str.lower` are modelled on ASCII
letters; Python's full Unicode case mapping differs only on exotic
letters, which none of the recognised markers contain.  Lines produced
by `text.split('\n')` never contain `'\n'`, so the regex models need
not distinguish `.` from `\n`-matching.
-/

namespace Parse

abbrev Line := List Char

/-- `str.upper` on one ASCII character. -/
def upperChar (c : Char) : Char :=
  if 97 ≤ c.toNat && c.toNat ≤ 122 then Char.ofNat (c.toNat - 32) else c

/-- `str.lower` on one ASCII character. -/
def lowerChar (c : Char) : Char :=
  if 65 ≤ c.toNat && c.toNat ≤ 90 then Char.ofNat (c.toNat + 32) else c

def pyUpper (s : Line) : Line := s.map upperChar

def pyLower (s : Line) : Line := s.map lowerChar

/-- `line.startswith(pat)`. -/
def startsWith (pat s : Line) : Bool := List.isPrefixOf pat s

/-- `s.strip(chars)` for a character predicate. -/
def trimChars (p : Char → Bool) (s : Line) : Line :=
  ((s.dropWhile p).reverse.dropWhile p).reverse

/-- The char set `'[]［］【】():：'` stripped by the e5 header detectors. -/
def hdrTrim (c : Char) : Bool :=
  c == '[' || c == ']' || c == '［' || c == '］' || c == '【' || c == '】' ||
  c == '(' || c == ')' || c == ':' || c == '：'

/-- `s.split(sep, 1)[-1]`: the part after the first `sep`, or `s` itself
when `sep` does not occur. -/
def afterFirst (sep : Char) (s : Line) : Line :=
  match s.dropWhile (fun c => !(c == sep)) with
  | [] => s
  | _ :: t => t

/-- `[k.strip() for k in re.split('[;；]', text) if k.strip()]`. -/
def splitKeywords (s : Line) : List Line :=
  ((List.splitOnP (fun c => c == ';' || c == '；') s).map Py.strip).filter
    (fun k => !k.isEmpty)

/-- `\s+(.+)$` matched at `after`, with the backtracking semantics of the
greedy `\s+`: the whitespace run is maximal, except that when nothing
would remain for `(.+)` it gives back its final character. -/
def tailCapture (after : Line) : Option Line :=
  let ws := after.takeWhile Py.isSpace
  let rem := after.dropWhile Py.isSpace
  if ws.isEmpty then none
  else if rem.isEmpty then
    match after.reverse with
    | c :: _ :: _ => some [c]
    | _ => none
  else some rem

/-- `\s*(.+)$` matched at `after` (same give-back-one semantics). -/
def tailCaptureStar (after : Line) : Option Line :=
  let rem := after.dropWhile Py.isSpace
  if rem.isEmpty then
    match after.reverse with
    | c :: _ => some [c]
    | [] => none
  else some rem

/-- The first character satisfies `p`. -/
def headIs (p : Char → Bool) (s : Line) : Bool :=
  match s with
  | c :: _ => p c
  | [] => false

/-- `re.match(r'\[TAG:([\d\-]+)\]', line)` for a line starting with the
`tagLen`-character opener `[TAG:`: the digit/hyphen run, when the closing
bracket follows it. -/
def numAfter (tagLen : Nat) (t : Line) : Option Line :=
  let r := t.drop tagLen
  let run := r.takeWhile (fun c => Py.isDigit c || c == '-')
  if run.isEmpty then none
  else if (r.dropWhile (fun c => Py.isDigit c || c == '-')).head? == some ']' then
    some run
  else none

/-- The two parsers' section variable (`current_section`). -/
inductive Sec where
  | abstract
  | abstractEn
  | body
  | references
  | acknowledgements
  | appendix
deriving DecidableEq

end Parse

namespace P5

open Parse

/-- A content node of an e5 chapter (`current_chapter['content']`). -/
inductive Node5 where
  | paragraph (text : Line)
  | heading2 (number text : Line)
  | heading3 (number text : Line)
  | figure (number caption : Line) (source imageHint : Option Line)
  | table (number caption : Line) (source : Option Line) (rows : List (List Line))
  | formula (number content : Line)
deriving DecidableEq

structure Chapter5 where
  number : Nat
  title : Line
  content : List Node5
deriving DecidableEq

/-- One entry built by `_build_references_list`. -/
structure RefEntry where
  index : Nat
  originalIndex : Option Nat
  text : Line
  raw : Line
deriving DecidableEq

/-- The mutable state of the e5 `parse_text` loop.  `atLineZero` models
the `i == 0` test of the title branch. -/
structure State5 where
  atLineZero : Bool
  title : Line
  absContent : List Line
  absKeywords : List Line
  absEnContent : List Line
  absEnKeywords : List Line
  chapters : List Chapter5
  acknowledgements : List Line
  appendix : List Line
  currentSection : Option Sec
  currentParagraph : List Line
  refsBuffer : List Line
  curRefLines : List Line
deriving DecidableEq

def init5 : State5 :=
  ⟨true, [], [], [], [], [], [], [], [], none, [], [], []⟩

/-- Append a node to the current (= last) chapter's content. -/
def appendNode5 (chs : List Chapter5) (n : Node5) : List Chapter5 :=
  match chs with
  | [] => []
  | [c] => [{c with content := c.content ++ [n]}]
  | c :: rest => c :: appendNode5 rest n

def paraText (st : State5) : Line := Py.joinSpace st.currentParagraph

/-- The paragraph dispatch of the blank-line branch and the end-of-input
flush (parser.py lines 70-83 and 434-447). -/
def sinkPara5 (st : State5) (t : Line) : State5 :=
  match st.currentSection with
  | some Sec.abstract => {st with absContent := st.absContent ++ [t]}
  | some Sec.abstractEn => {st with absEnContent := st.absEnContent ++ [t]}
  | some Sec.body =>
    if st.chapters.isEmpty then st
    else {st with chapters := appendNode5 st.chapters (.paragraph t)}
  | some Sec.acknowledgements =>
    {st with acknowledgements := st.acknowledgements ++ [t]}
  | some Sec.appendix => {st with appendix := st.appendix ++ [t]}
  | _ => st

/-- Flush `current_reference_lines` into `references_buffer`
(the `if current_reference_lines:` pattern). -/
def flushRefs5 (st : State5) : State5 :=
  if st.curRefLines.isEmpty then st
  else
    {st with
      refsBuffer := st.refsBuffer ++ [Py.strip (Py.joinSpace st.curRefLines)],
      curRefLines := []}

/-- The blank-line branch (parser.py lines 64-86). -/
def blankStep5 (st : State5) : State5 :=
  if st.currentSection == some Sec.references then flushRefs5 st
  else if !st.currentParagraph.isEmpty && st.currentSection.isSome then
    {sinkPara5 st (paraText st) with currentParagraph := []}
  else st

/-- End-of-input paragraph flush (parser.py lines 433-447). -/
def finalPara5 (st : State5) : State5 :=
  if !st.currentParagraph.isEmpty then
    {sinkPara5 st (paraText st) with currentParagraph := []}
  else st

/-- The paragraph dispatch of the acknowledgements/appendix header
branches (parser.py lines 171-182, 200-211): abstract paragraphs are
dropped there. -/
def sinkParaNoAbs5 (st : State5) (t : Line) : State5 :=
  match st.currentSection with
  | some Sec.body =>
    if st.chapters.isEmpty then st
    else {st with chapters := appendNode5 st.chapters (.paragraph t)}
  | some Sec.acknowledgements =>
    {st with acknowledgements := st.acknowledgements ++ [t]}
  | some Sec.appendix => {st with appendix := st.appendix ++ [t]}
  | _ => st

def hdrParaFlush5 (st : State5) : State5 :=
  if !st.currentParagraph.isEmpty then
    {sinkParaNoAbs5 st (paraText st) with currentParagraph := []}
  else st

/-- `if current_paragraph and current_chapter:` flush into the current
chapter (used by the heading/figure/table/formula branches). -/
def flushToChapter5 (st : State5) : State5 :=
  if !st.currentParagraph.isEmpty && !st.chapters.isEmpty then
    {st with
      chapters := appendNode5 st.chapters (.paragraph (paraText st)),
      currentParagraph := []}
  else st

/-- The character class `[一二三四五六七八九十\d]` of the e5 chapter
patterns. -/
def h1Class (c : Char) : Bool :=
  c == '一' || c == '二' || c == '三' || c == '四' || c == '五' || c == '六' ||
  c == '七' || c == '八' || c == '九' || c == '十' || Py.isDigit c

/-- `re.match(r'^第[一二三四五六七八九十\d]+章', line)` as a Boolean test
(parser.py line 125).  The class run is maximal; `'章'` is outside the
class, so no backtracking can succeed otherwise. -/
def h1Test (t : Line) : Bool :=
  match t with
  | c :: r =>
    c == '第' && headIs h1Class r && ((r.dropWhile h1Class).head? == some '章')
  | [] => false

/-- `re.match(r'^第([一二三四五六七八九十\d]+)章\s+(.+)$', line)`
(parser.py line 225). -/
def matchH1 (t : Line) : Option (Line × Line) :=
  match t with
  | c :: r =>
    if c == '第' && headIs h1Class r then
      match r.dropWhile h1Class with
      | z :: after =>
        if z == '章' then
          (tailCapture after).map (fun cap => (r.takeWhile h1Class, cap))
        else none
      | [] => none
    else none
  | [] => none

/-- `re.match(r'^(\d+)\s+(.+)$', line)` (parser.py line 226). -/
def matchNum (t : Line) : Option (Line × Line) :=
  if headIs Py.isDigit t then
    (tailCapture (t.dropWhile Py.isDigit)).map
      (fun cap => (t.takeWhile Py.isDigit, cap))
  else none

/-- `re.match(r'^(\d+\.\d+)\s+(.+)$', line)` (parser.py line 255). -/
def matchH2 (t : Line) : Option (Line × Line) :=
  if headIs Py.isDigit t then
    let d1 := t.takeWhile Py.isDigit
    match t.dropWhile Py.isDigit with
    | '.' :: r2 =>
      if headIs Py.isDigit r2 then
        let d2 := r2.takeWhile Py.isDigit
        (tailCapture (r2.dropWhile Py.isDigit)).map
          (fun cap => (d1 ++ '.' :: d2, cap))
      else none
    | _ => none
  else none

/-- `re.match(r'^(\d+\.\d+\.\d+)\s+(.+)$', line)` (parser.py line 274). -/
def matchH3 (t : Line) : Option (Line × Line) :=
  if headIs Py.isDigit t then
    let d1 := t.takeWhile Py.isDigit
    match t.dropWhile Py.isDigit with
    | '.' :: r2 =>
      if headIs Py.isDigit r2 then
        let d2 := r2.takeWhile Py.isDigit
        match r2.dropWhile Py.isDigit with
        | '.' :: r3 =>
          if headIs Py.isDigit r3 then
            let d3 := r3.takeWhile Py.isDigit
            (tailCapture (r3.dropWhile Py.isDigit)).map
              (fun cap => (d1 ++ '.' :: d2 ++ '.' :: d3, cap))
          else none
        | _ => none
      else none
    | _ => none
  else none

/-- `re.match(r'^\[\d+\]', line)` (`_is_new_reference_entry`). -/
def refStart (t : Line) : Bool :=
  match t with
  | '[' :: r => headIs Py.isDigit r && ((r.dropWhile Py.isDigit).head? == some ']')
  | _ => false

/-- `USTCContentParser._is_new_reference_entry` (parser.py lines 562-568). -/
def isNewReferenceEntry (t : Line) (hasCurrentEntry : Bool) : Bool :=
  if !hasCurrentEntry then true else refStart t

def referenceHeaders : List Line :=
  ["[REFERENCES]".data, "REFERENCES".data, "参考文献".data, "参考文献：".data,
   "［参考文献］".data, "[参考文献]".data, "【参考文献】".data, "参考文献:".data,
   "References".data, "REFERENCES：".data]

/-- `USTCContentParser._is_references_header` (parser.py lines 522-534). -/
def isReferencesHeader (t : Line) : Bool :=
  let normalized := Py.strip t
  referenceHeaders.contains normalized ||
    (let plain := trimChars hdrTrim normalized
     pyUpper plain == "REFERENCES".data || plain == "参考文献".data)

def ackHeaders : List Line :=
  ["[ACKNOWLEDGEMENTS]".data, "ACKNOWLEDGEMENTS".data, "致谢".data, "致  谢".data,
   "致 谢".data, "[致谢]".data, "【致谢】".data]

/-- `USTCContentParser._is_acknowledgements_header` (parser.py 536-547). -/
def isAcknowledgementsHeader (t : Line) : Bool :=
  let normalized := Py.strip t
  ackHeaders.contains normalized ||
    (let plain := trimChars hdrTrim normalized
     pyUpper plain == "ACKNOWLEDGEMENTS".data || plain == "致谢".data)

def appendixHeaders : List Line :=
  ["[APPENDIX]".data, "APPENDIX".data, "附录".data, "附  录".data, "[附录]".data,
   "【附录】".data]

/-- `USTCContentParser._is_appendix_header` (parser.py lines 549-560). -/
def isAppendixHeader (t : Line) : Bool :=
  let normalized := Py.strip t
  appendixHeaders.contains normalized ||
    (let plain := trimChars hdrTrim normalized
     pyUpper plain == "APPENDIX".data || plain == "附录".data)

/-- The figure branch after a valid `[FIGURE:n]` with a current chapter
(parser.py lines 296-332): consume the caption line, append the node,
and skip a following `[/FIGURE]`. -/
def figureStep5 (st : State5) (num : Line) (rest : List Line) :
    State5 × List Line :=
  match rest with
  | [] => (st, [])
  | capRaw :: rest2 =>
    let parts := (Py.splitChar '|' (Py.strip capRaw)).map Py.strip
    let caption := parts.getD 0 []
    let source :=
      if 1 < parts.length ∧ parts.getD 1 [] ≠ [] then some (parts.getD 1 [])
      else none
    let hint :=
      if 2 < parts.length ∧ parts.getD 2 [] ≠ [] then some (parts.getD 2 [])
      else none
    let st' :=
      {st with chapters := appendNode5 st.chapters (.figure num caption source hint)}
    match rest2 with
    | d :: rest3 =>
      if Py.strip d == "[/FIGURE]".data then (st', rest3) else (st', rest2)
    | [] => (st', [])

/-- The table-body loop (parser.py lines 363-369): collect stripped
nonempty lines not starting with `'['` until `[/TABLE]`; the terminator
(consumed by the `i += 1` at line 384) is dropped from the remainder. -/
def tblGo5 : List Line → (List Line × List Line)
  | [] => ([], [])
  | l :: rest =>
    let t := Py.strip l
    if t == "[/TABLE]".data then ([], rest)
    else
      let (acc, rem) := tblGo5 rest
      (if !t.isEmpty && !headIs (fun c => c == '[') t then t :: acc else acc, rem)

/-- The table branch after a valid `[TABLE:n]` with a current chapter
(parser.py lines 341-383). -/
def tableStep5 (st : State5) (num : Line) (rest : List Line) :
    State5 × List Line :=
  match rest with
  | [] =>
    ({st with chapters := appendNode5 st.chapters (.table num [] none [])}, [])
  | capRaw :: rest2 =>
    let parts := Py.splitChar '|' (Py.strip capRaw)
    let caption := parts.getD 0 []
    let source := if 1 < parts.length then some (parts.getD 1 []) else none
    let (tblLines, rem) := tblGo5 rest2
    let rows := tblLines.map (fun l => (Py.splitChar '|' l).map Py.strip)
    ({st with chapters := appendNode5 st.chapters (.table num caption source rows)},
     rem)

/-- The formula-body loop (parser.py lines 402-408). -/
def fmlGo5 : List Line → (List Line × List Line)
  | [] => ([], [])
  | l :: rest =>
    let t := Py.strip l
    if t == "[/FORMULA]".data then ([], rest)
    else
      let (acc, rem) := fmlGo5 rest
      (if !t.isEmpty then t :: acc else acc, rem)

/-- The formula branch after a valid `[FORMULA:n]` with a current chapter
(parser.py lines 391-414). -/
def formulaStep5 (st : State5) (num : Line) (rest : List Line) :
    State5 × List Line :=
  let (fls, rem) := fmlGo5 rest
  ({st with
     chapters := appendNode5 st.chapters (.formula num (List.intercalate ['\n'] fls))},
   rem)

/-- The plain-text fallthrough (parser.py lines 419-428). -/
def defaultStep5 (st : State5) (t : Line) : State5 :=
  match st.currentSection with
  | some Sec.abstract => {st with currentParagraph := st.currentParagraph ++ [t]}
  | some Sec.abstractEn => {st with currentParagraph := st.currentParagraph ++ [t]}
  | some Sec.body =>
    if !st.chapters.isEmpty then
      {st with currentParagraph := st.currentParagraph ++ [t]}
    else st
  | some Sec.acknowledgements =>
    {st with currentParagraph := st.currentParagraph ++ [t]}
  | some Sec.appendix => {st with currentParagraph := st.currentParagraph ++ [t]}
  | _ => st

/-- Heading, figure, table and formula branches (parser.py lines 224-428). -/
def step5d (st : State5) (t : Line) (rest : List Line) : State5 × List Line :=
  match (if !st.chapters.isEmpty then matchH2 t else none) with
  | some (num, cap) =>
    let st1 := flushToChapter5 st
    ({st1 with chapters := appendNode5 st1.chapters (.heading2 num (Py.strip cap))},
     rest)
  | none =>
  match (if !st.chapters.isEmpty then matchH3 t else none) with
  | some (num, cap) =>
    let st1 := flushToChapter5 st
    ({st1 with chapters := appendNode5 st1.chapters (.heading3 num (Py.strip cap))},
     rest)
  | none =>
  if startsWith "[FIGURE:".data t then
    match numAfter 8 t, !st.chapters.isEmpty with
    | some num, true => figureStep5 (flushToChapter5 st) num rest
    | _, _ => (st, rest)
  else if startsWith "[TABLE:".data t then
    match numAfter 7 t, !st.chapters.isEmpty with
    | some num, true => tableStep5 (flushToChapter5 st) num rest
    | _, _ => (st, rest)
  else if startsWith "[FORMULA:".data t then
    match numAfter 9 t, !st.chapters.isEmpty with
    | some num, true => formulaStep5 (flushToChapter5 st) num rest
    | _, _ => (st, rest)
  else
    (defaultStep5 st t, rest)

/-- Chapter-creating branch (parser.py lines 229-252), then `step5d`. -/
def step5c (st : State5) (t : Line) (rest : List Line) : State5 × List Line :=
  match matchH1 t with
  | some (grp, cap) =>
    let st1 := flushToChapter5 st
    ({st1 with chapters := st1.chapters ++ [⟨E5.chineseToArabic grp, Py.strip cap, []⟩]},
     rest)
  | none =>
    match (if st.currentSection == some Sec.body then matchNum t else none) with
    | some (grp, cap) =>
      let st1 := flushToChapter5 st
      ({st1 with chapters := st1.chapters ++ [⟨Py.digitsToNat grp, Py.strip cap, []⟩]},
       rest)
    | none => step5d st t rest

/-- Reference/acknowledgements/appendix branches (parser.py lines
135-222), then `step5c`. -/
def step5b (st : State5) (t : Line) (rest : List Line) : State5 × List Line :=
  if isReferencesHeader t then
    let st1 := if st.currentSection == some Sec.body then flushToChapter5 st else st
    ({st1 with currentSection := some Sec.references, curRefLines := []}, rest)
  else if st.currentSection == some Sec.references then
    if startsWith "[/REFERENCES]".data (pyUpper t) then
      ({flushRefs5 st with currentSection := none}, rest)
    else if isNewReferenceEntry t (!st.curRefLines.isEmpty) then
      ({flushRefs5 st with curRefLines := [t]}, rest)
    else
      ({st with curRefLines := st.curRefLines ++ [t]}, rest)
  else if isAcknowledgementsHeader t then
    ({hdrParaFlush5 (flushRefs5 st) with currentSection := some Sec.acknowledgements},
     rest)
  else if startsWith "[/ACKNOWLEDGEMENTS]".data (pyUpper t) || t == "[/致谢]".data then
    let st1 :=
      if !st.currentParagraph.isEmpty &&
          st.currentSection == some Sec.acknowledgements then
        {st with
          acknowledgements := st.acknowledgements ++ [paraText st],
          currentParagraph := []}
      else st
    ({st1 with currentSection := none}, rest)
  else if isAppendixHeader t then
    ({hdrParaFlush5 (flushRefs5 st) with currentSection := some Sec.appendix}, rest)
  else if startsWith "[/APPENDIX]".data (pyUpper t) || t == "[/附录]".data then
    let st1 :=
      if !st.currentParagraph.isEmpty && st.currentSection == some Sec.appendix then
        {st with appendix := st.appendix ++ [paraText st], currentParagraph := []}
      else st
    ({st1 with currentSection := none}, rest)
  else
    step5c st t rest

/-- One iteration of the e5 `parse_text` while-loop (parser.py lines
60-430), in source branch order. -/
def step5 (st : State5) (l : Line) (rest : List Line) : State5 × List Line :=
  let t := Py.strip l
  let st0 := {st with atLineZero := false}
  if t.isEmpty then (blankStep5 st0, rest)
  else if st.atLineZero && !headIs (fun c => c == '#') t then
    ({st0 with title := t}, rest)
  else if startsWith "[ABSTRACT]".data t || t == "摘要".data then
    ({st0 with currentSection := some Sec.abstract}, rest)
  else if startsWith "关键词：".data t || startsWith "关键词:".data t then
    ({st0 with
       absKeywords := splitKeywords (afterFirst ':' (afterFirst '：' t)),
       currentSection := none}, rest)
  else if startsWith "[ABSTRACT_EN]".data (pyUpper t) || pyUpper t == "ABSTRACT".data then
    ({st0 with currentSection := some Sec.abstractEn}, rest)
  else if startsWith "key words:".data (pyLower t) ||
      startsWith "keywords:".data (pyLower t) then
    ({st0 with
       absEnKeywords := splitKeywords (afterFirst ':' t),
       currentSection := none}, rest)
  else if startsWith "[BODY]".data t then
    ({st0 with currentSection := some Sec.body}, rest)
  else
    let st1 := if h1Test t then {st0 with currentSection := some Sec.body} else st0
    step5b st1 t rest

/-- The e5 `parse_text` while-loop with an explicit iteration budget:
`none` means the budget was exhausted before the index reached the end.
Each iteration consumes at least one line, so a budget of `lines.length`
always suffices (proved below). -/
def parse5Aux : Nat → State5 → List Line → Option State5
  | _, st, [] => some st
  | 0, _, _ :: _ => none
  | fuel + 1, st, l :: rest =>
    let (st', rest') := step5 st l rest
    parse5Aux fuel st' rest'

/-- `re.match(r'^\[(\d+)\]\s*(.+)$', text)` (`_build_references_list`). -/
def refCapture (t : Line) : Option (Line × Line) :=
  match t with
  | '[' :: r =>
    if headIs Py.isDigit r then
      match r.dropWhile Py.isDigit with
      | ']' :: after =>
        (tailCaptureStar after).map (fun cap => (r.takeWhile Py.isDigit, cap))
      | _ => none
    else none
  | _ => none

/-- The `enumerate(references_buffer, 1)` loop of
`_build_references_list` (parser.py lines 570-592): a blank entry is
skipped but still consumes its enumeration index. -/
def buildRefsGo (idx : Nat) : List Line → List RefEntry
  | [] => []
  | e :: rest =>
    let text := Py.strip e
    if text.isEmpty then buildRefsGo (idx + 1) rest
    else
      (match refCapture text with
       | some (n, cap) => ⟨idx, some (Py.digitsToNat n), Py.strip cap, text⟩
       | none => ⟨idx, none, text, text⟩) :: buildRefsGo (idx + 1) rest

def buildReferencesList (buf : List Line) : List RefEntry :=
  buildRefsGo 1 buf

/-- The returned `content` dict of the e5 parser. -/
structure Doc5 where
  title : Line
  absContent : List Line
  absKeywords : List Line
  absEnContent : List Line
  absEnKeywords : List Line
  chapters : List Chapter5
  references : List RefEntry
  acknowledgements : List Line
  appendix : List Line
deriving DecidableEq

/-- End-of-input processing (parser.py lines 432-455). -/
def finalize5 (st : State5) : Doc5 :=
  let st1 := finalPara5 st
  let st2 := flushRefs5 st1
  ⟨st2.title, st2.absContent, st2.absKeywords, st2.absEnContent, st2.absEnKeywords,
   st2.chapters, buildReferencesList st2.refsBuffer, st2.acknowledgements,
   st2.appendix⟩

/-- `USTCContentParser.parse_text` (parser.py lines 30-455).  The `getD`
branch is dead: the iteration budget `lines.length` is proved sufficient
below. -/
def parse_text (text : Line) : Doc5 :=
  let lines := Py.splitChar '\n' text
  finalize5 ((parse5Aux lines.length init5 lines).getD init5)

end P5

namespace P1

open Parse

/-- A content node of an e1 chapter. -/
inductive Node1 where
  | paragraph (text : Line)
  | heading2 (number text chineseNumber : Line)
  | heading3 (number : Nat) (text chineseNumber : Line)
  | heading4 (number text : Line)
  | heading5 (number text : Line)
  | figure (number caption : Line) (source imageHint : Option Line)
  | table (number caption : Line) (source : Option Line) (rows : List (List Line))
  | formula (number content : Line)
deriving DecidableEq

structure Chapter1 where
  number : Nat
  title : Line
  content : List Node1
deriving DecidableEq

/-- The mutable state of the e1 `parse_text` loop. -/
structure State1 where
  atLineZero : Bool
  title : Line
  absContent : List Line
  absKeywords : List Line
  absEnContent : List Line
  absEnKeywords : List Line
  chapters : List Chapter1
  acknowledgements : List Line
  appendix : List Line
  currentSection : Option Sec
  currentParagraph : List Line
  refsBuffer : List Line
  curRefLines : List Line
deriving DecidableEq

def init1 : State1 :=
  ⟨true, [], [], [], [], [], [], [], [], none, [], [], []⟩

def appendNode1 (chs : List Chapter1) (n : Node1) : List Chapter1 :=
  match chs with
  | [] => []
  | [c] => [{c with content := c.content ++ [n]}]
  | c :: rest => c :: appendNode1 rest n

def paraText (st : State1) : Line := Py.joinSpace st.currentParagraph

/-- The paragraph dispatch of the blank-line branch and the end-of-input
flush (parser.py lines 202-215 and 579-590). -/
def sinkPara1 (st : State1) (t : Line) : State1 :=
  match st.currentSection with
  | some Sec.abstract => {st with absContent := st.absContent ++ [t]}
  | some Sec.abstractEn => {st with absEnContent := st.absEnContent ++ [t]}
  | some Sec.body =>
    if st.chapters.isEmpty then st
    else {st with chapters := appendNode1 st.chapters (.paragraph t)}
  | some Sec.acknowledgements =>
    {st with acknowledgements := st.acknowledgements ++ [t]}
  | some Sec.appendix => {st with appendix := st.appendix ++ [t]}
  | _ => st

def flushRefs1 (st : State1) : State1 :=
  if st.curRefLines.isEmpty then st
  else
    {st with
      refsBuffer := st.refsBuffer ++ [Py.strip (Py.joinSpace st.curRefLines)],
      curRefLines := []}

/-- The blank-line branch (parser.py lines 196-217). -/
def blankStep1 (st : State1) : State1 :=
  if st.currentSection == some Sec.references then flushRefs1 st
  else if !st.currentParagraph.isEmpty && st.currentSection.isSome then
    {sinkPara1 st (paraText st) with currentParagraph := []}
  else st

def finalPara1 (st : State1) : State1 :=
  if !st.currentParagraph.isEmpty then
    {sinkPara1 st (paraText st) with currentParagraph := []}
  else st

/-- The paragraph dispatch of the acknowledgements/appendix header
branches (parser.py lines 307-315, 336-344). -/
def sinkParaNoAbs1 (st : State1) (t : Line) : State1 :=
  match st.currentSection with
  | some Sec.body =>
    if st.chapters.isEmpty then st
    else {st with chapters := appendNode1 st.chapters (.paragraph t)}
  | some Sec.acknowledgements =>
    {st with acknowledgements := st.acknowledgements ++ [t]}
  | some Sec.appendix => {st with appendix := st.appendix ++ [t]}
  | _ => st

def hdrParaFlush1 (st : State1) : State1 :=
  if !st.currentParagraph.isEmpty then
    {sinkParaNoAbs1 st (paraText st) with currentParagraph := []}
  else st

def flushToChapter1 (st : State1) : State1 :=
  if !st.currentParagraph.isEmpty && !st.chapters.isEmpty then
    {st with
      chapters := appendNode1 st.chapters (.paragraph (paraText st)),
      currentParagraph := []}
  else st

/-- The class `[一二三四五六七八九十]` of the e1 heading patterns
(digits are not included, unlike e5). -/
def cnClass (c : Char) : Bool :=
  c == '一' || c == '二' || c == '三' || c == '四' || c == '五' || c == '六' ||
  c == '七' || c == '八' || c == '九' || c == '十'

/-- `E1Parser._is_heading1`: `^第([一二三四五六七八九十]+)章\s+(.+)$`. -/
def matchH1 (t : Line) : Option (Line × Line) :=
  match t with
  | c :: r =>
    if c == '第' && headIs cnClass r then
      match r.dropWhile cnClass with
      | z :: after =>
        if z == '章' then
          (tailCapture after).map (fun cap => (r.takeWhile cnClass, cap))
        else none
      | [] => none
    else none
  | [] => none

/-- `E1Parser._is_heading2`: `^第([一二三四五六七八九十]+)节\s+(.+)$`. -/
def matchH2 (t : Line) : Option (Line × Line) :=
  match t with
  | c :: r =>
    if c == '第' && headIs cnClass r then
      match r.dropWhile cnClass with
      | z :: after =>
        if z == '节' then
          (tailCapture after).map (fun cap => (r.takeWhile cnClass, cap))
        else none
      | [] => none
    else none
  | [] => none

/-- `E1Parser._is_heading3`: `^([一二三四五六七八九十]+)、\s*(.*)$`. -/
def matchH3 (t : Line) : Option (Line × Line) :=
  if headIs cnClass t then
    match t.dropWhile cnClass with
    | '、' :: after => some (t.takeWhile cnClass, after.dropWhile Py.isSpace)
    | _ => none
  else none

/-- `E1Parser._is_heading4`: `^(\d+)\.\s+(.+)$`. -/
def matchH4 (t : Line) : Option (Line × Line) :=
  if headIs Py.isDigit t then
    match t.dropWhile Py.isDigit with
    | '.' :: after =>
      (tailCapture after).map (fun cap => (t.takeWhile Py.isDigit, cap))
    | _ => none
  else none

/-- `E1Parser._is_heading5`: `^[（(](\d+)[）)]\s+(.+)$`. -/
def matchH5 (t : Line) : Option (Line × Line) :=
  match t with
  | c :: r =>
    if (c == '（' || c == '(') && headIs Py.isDigit r then
      match r.dropWhile Py.isDigit with
      | z :: after =>
        if z == '）' || z == ')' then
          (tailCapture after).map (fun cap => (r.takeWhile Py.isDigit, cap))
        else none
      | [] => none
    else none
  | [] => none

/-- `E1Parser._is_references_header`. -/
def isReferencesHeader (t : Line) : Bool :=
  t == "参考文献".data || t == "参 考 文 献".data || t == "[REFERENCES]".data

/-- `E1Parser._is_acknowledgements_header`. -/
def isAcknowledgementsHeader (t : Line) : Bool :=
  t == "致谢".data || t == "致 谢".data || t == "[ACKNOWLEDGEMENTS]".data ||
    t == "[致谢]".data

/-- `E1Parser._is_appendix_header`. -/
def isAppendixHeader (t : Line) : Bool :=
  t == "附录".data || t == "附 录".data || t == "[APPENDIX]".data ||
    t == "[附录]".data

/-- `E1Parser._is_new_reference_entry` (the `has_current` argument is
unused in the source): `^\d+\.\s+` or `^\[\d+\]\s+`. -/
def isNewReferenceEntry (t : Line) (hasCurrent : Bool) : Bool :=
  (if headIs Py.isDigit t then
    match t.dropWhile Py.isDigit with
    | '.' :: after => headIs Py.isSpace after
    | _ => false
  else false) ||
  (match t with
   | '[' :: r =>
     headIs Py.isDigit r &&
       (match r.dropWhile Py.isDigit with
        | ']' :: after => headIs Py.isSpace after
        | _ => false)
   | _ => false)

/-- The figure branch (parser.py lines 453-488), identical in shape to
the e5 one. -/
def figureStep1 (st : State1) (num : Line) (rest : List Line) :
    State1 × List Line :=
  match rest with
  | [] => (st, [])
  | capRaw :: rest2 =>
    let parts := (Py.splitChar '|' (Py.strip capRaw)).map Py.strip
    let caption := parts.getD 0 []
    let source :=
      if 1 < parts.length ∧ parts.getD 1 [] ≠ [] then some (parts.getD 1 [])
      else none
    let hint :=
      if 2 < parts.length ∧ parts.getD 2 [] ≠ [] then some (parts.getD 2 [])
      else none
    let st' :=
      {st with chapters := appendNode1 st.chapters (.figure num caption source hint)}
    match rest2 with
    | d :: rest3 =>
      if Py.strip d == "[/FIGURE]".data then (st', rest3) else (st', rest2)
    | [] => (st', [])

/-- The table-body loop (parser.py lines 514-521): blank lines are
skipped, the terminator is consumed inside the loop. -/
def tblGo1 : List Line → (List Line × List Line)
  | [] => ([], [])
  | l :: rest =>
    let t := Py.strip l
    if t == "[/TABLE]".data then ([], rest)
    else
      let (acc, rem) := tblGo1 rest
      (if !t.isEmpty then t :: acc else acc, rem)

/-- The table branch (parser.py lines 491-538): caption parts are
stripped and the source cell is emptiness-checked, unlike e5. -/
def tableStep1 (st : State1) (num : Line) (rest : List Line) :
    State1 × List Line :=
  match rest with
  | [] =>
    ({st with chapters := appendNode1 st.chapters (.table num [] none [])}, [])
  | capRaw :: rest2 =>
    let parts := (Py.splitChar '|' (Py.strip capRaw)).map Py.strip
    let caption := parts.getD 0 []
    let source :=
      if 1 < parts.length ∧ parts.getD 1 [] ≠ [] then some (parts.getD 1 [])
      else none
    let (tblLines, rem) := tblGo1 rest2
    let rows := tblLines.map (fun l => (Py.splitChar '|' l).map Py.strip)
    ({st with chapters := appendNode1 st.chapters (.table num caption source rows)},
     rem)

/-- The formula branch (parser.py lines 541-567): exactly one content
line, then an optional terminator. -/
def formulaStep1 (st : State1) (num : Line) (rest : List Line) :
    State1 × List Line :=
  match rest with
  | [] =>
    ({st with chapters := appendNode1 st.chapters (.formula num [])}, [])
  | c :: rest2 =>
    let st' :=
      {st with chapters := appendNode1 st.chapters (.formula num (Py.strip c))}
    match rest2 with
    | d :: rest3 =>
      if Py.strip d == "[/FORMULA]".data then (st', rest3) else (st', rest2)
    | [] => (st', [])

/-- The plain-text fallthrough (parser.py lines 570-571): any non-`None`
section accumulates, with no chapter requirement. -/
def defaultStep1 (st : State1) (t : Line) : State1 :=
  if st.currentSection.isSome then
    {st with currentParagraph := st.currentParagraph ++ [t]}
  else st

/-- Heading and directive branches (parser.py lines 358-567). -/
def step1d (st : State1) (t : Line) (rest : List Line) : State1 × List Line :=
  match matchH1 t with
  | some (grp, cap) =>
    let st1 := flushToChapter1 st
    ({st1 with chapters := st1.chapters ++ [⟨E1.chineseToArabic grp, Py.strip cap, []⟩]},
     rest)
  | none =>
  match (if !st.chapters.isEmpty then matchH2 t else none) with
  | some (grp, cap) =>
    let st1 := flushToChapter1 st
    let chNum := ((st1.chapters.getLast?).map Chapter1.number).getD 0
    let num := (Nat.repr chNum).data ++ '.' :: (Nat.repr (E1.chineseToArabic grp)).data
    ({st1 with chapters := appendNode1 st1.chapters (.heading2 num (Py.strip cap) grp)},
     rest)
  | none =>
  match (if !st.chapters.isEmpty then matchH3 t else none) with
  | some (grp, cap) =>
    let st1 := flushToChapter1 st
    ({st1 with
       chapters := appendNode1 st1.chapters
         (.heading3 (E1.chineseToArabic grp) (Py.strip cap) grp)}, rest)
  | none =>
  match (if !st.chapters.isEmpty then matchH4 t else none) with
  | some (grp, cap) =>
    let st1 := flushToChapter1 st
    ({st1 with chapters := appendNode1 st1.chapters (.heading4 grp (Py.strip cap))},
     rest)
  | none =>
  match (if !st.chapters.isEmpty then matchH5 t else none) with
  | some (grp, cap) =>
    let st1 := flushToChapter1 st
    ({st1 with chapters := appendNode1 st1.chapters (.heading5 grp (Py.strip cap))},
     rest)
  | none =>
  if startsWith "[FIGURE:".data t then
    match numAfter 8 t, !st.chapters.isEmpty with
    | some num, true => figureStep1 (flushToChapter1 st) num rest
    | _, _ => (st, rest)
  else if startsWith "[TABLE:".data t then
    match numAfter 7 t, !st.chapters.isEmpty with
    | some num, true => tableStep1 (flushToChapter1 st) num rest
    | _, _ => (st, rest)
  else if startsWith "[FORMULA:".data t then
    match numAfter 9 t, !st.chapters.isEmpty with
    | some num, true => formulaStep1 (flushToChapter1 st) num rest
    | _, _ => (st, rest)
  else
    (defaultStep1 st t, rest)

/-- Reference/acknowledgements/appendix branches (parser.py lines
269-356), then `step1d`. -/
def step1b (st : State1) (t : Line) (rest : List Line) : State1 × List Line :=
  if isReferencesHeader t then
    let st1 := if st.currentSection == some Sec.body then flushToChapter1 st else st
    ({st1 with currentSection := some Sec.references, curRefLines := []}, rest)
  else if st.currentSection == some Sec.references then
    if startsWith "[/REFERENCES]".data (pyUpper t) then
      ({flushRefs1 st with currentSection := none}, rest)
    else if isNewReferenceEntry t (!st.curRefLines.isEmpty) then
      ({flushRefs1 st with curRefLines := [t]}, rest)
    else
      ({st with curRefLines := st.curRefLines ++ [t]}, rest)
  else if isAcknowledgementsHeader t then
    ({hdrParaFlush1 (flushRefs1 st) with currentSection := some Sec.acknowledgements},
     rest)
  else if startsWith "[/ACKNOWLEDGEMENTS]".data (pyUpper t) || t == "[/致谢]".data then
    let st1 :=
      if !st.currentParagraph.isEmpty &&
          st.currentSection == some Sec.acknowledgements then
        {st with
          acknowledgements := st.acknowledgements ++ [paraText st],
          currentParagraph := []}
      else st
    ({st1 with currentSection := none}, rest)
  else if isAppendixHeader t then
    ({hdrParaFlush1 (flushRefs1 st) with currentSection := some Sec.appendix}, rest)
  else if startsWith "[/APPENDIX]".data (pyUpper t) || t == "[/附录]".data then
    let st1 :=
      if !st.currentParagraph.isEmpty && st.currentSection == some Sec.appendix then
        {st with appendix := st.appendix ++ [paraText st], currentParagraph := []}
      else st
    ({st1 with currentSection := none}, rest)
  else
    step1d st t rest

/-- One iteration of the e1 `parse_text` while-loop (parser.py lines
192-573), in source branch order. -/
def step1 (st : State1) (l : Line) (rest : List Line) : State1 × List Line :=
  let t := Py.strip l
  let st0 := {st with atLineZero := false}
  if t.isEmpty then (blankStep1 st0, rest)
  else if st.atLineZero && !headIs (fun c => c == '#') t &&
      !headIs (fun c => c == '[') t then
    ({st0 with title := t}, rest)
  else if startsWith "[ABSTRACT]".data t || t == "摘要".data || t == "摘 要".data then
    ({st0 with currentSection := some Sec.abstract}, rest)
  else if startsWith "关键词：".data t || startsWith "关键词:".data t then
    let st1 :=
      if !st0.currentParagraph.isEmpty && st0.currentSection == some Sec.abstract then
        {st0 with
          absContent := st0.absContent ++ [paraText st0],
          currentParagraph := []}
      else st0
    ({st1 with
       absKeywords := splitKeywords (afterFirst ':' (afterFirst '：' t)),
       currentSection := none}, rest)
  else if startsWith "[ABSTRACT_EN]".data (pyUpper t) || pyUpper t == "ABSTRACT".data then
    ({st0 with currentSection := some Sec.abstractEn}, rest)
  else if startsWith "key words:".data (pyLower t) ||
      startsWith "keywords:".data (pyLower t) then
    let st1 :=
      if !st0.currentParagraph.isEmpty && st0.currentSection == some Sec.abstractEn then
        {st0 with
          absEnContent := st0.absEnContent ++ [paraText st0],
          currentParagraph := []}
      else st0
    ({st1 with
       absEnKeywords := splitKeywords (afterFirst ':' t),
       currentSection := none}, rest)
  else if startsWith "[BODY]".data t then
    ({st0 with currentSection := some Sec.body}, rest)
  else
    step1b st0 t rest

/-- The e1 `parse_text` while-loop with an explicit iteration budget. -/
def parse1Aux : Nat → State1 → List Line → Option State1
  | _, st, [] => some st
  | 0, _, _ :: _ => none
  | fuel + 1, st, l :: rest =>
    let (st', rest') := step1 st l rest
    parse1Aux fuel st' rest'

/-- The returned `content` dict of the e1 parser: `references` is the
raw buffer. -/
structure Doc1 where
  title : Line
  absContent : List Line
  absKeywords : List Line
  absEnContent : List Line
  absEnKeywords : List Line
  chapters : List Chapter1
  references : List Line
  acknowledgements : List Line
  appendix : List Line
deriving DecidableEq

/-- End-of-input processing (parser.py lines 575-595): the reference
flush comes before the paragraph flush, unlike e5. -/
def finalize1 (st : State1) : Doc1 :=
  let st1 := flushRefs1 st
  let st2 := finalPara1 st1
  ⟨st2.title, st2.absContent, st2.absKeywords, st2.absEnContent, st2.absEnKeywords,
   st2.chapters, st2.refsBuffer, st2.acknowledgements, st2.appendix⟩

/-- `E1Parser.parse_text` (parser.py lines 164-595). -/
def parse_text (text : Line) : Doc1 :=
  let lines := Py.splitChar '\n' text
  finalize1 ((parse1Aux lines.length init1 lines).getD init1)

end P1

namespace Sanitize

/-- The word-joiner character inserted by `_protect_reference_sequences`. -/
def joiner : Char := '⁠'

/-- The punctuation class `[,.;:?!\)\]\}]` of
`_remove_space_before_punctuation`. -/
def isPunctB (c : Char) : Bool :=
  c == ',' || c == '.' || c == ';' || c == ':' || c == '?' || c == '!' ||
  c == ')' || c == ']' || c == '}'

/-- The punctuation class `[,;:?!\)\]\}]` of the first pattern in
`_ensure_reference_spacing`. -/
def isPunctA (c : Char) : Bool :=
  c == ',' || c == ';' || c == ':' || c == '?' || c == '!' ||
  c == ')' || c == ']' || c == '}'

/-- A character matching the negative lookahead class `[^\s,.;:?!\)\]\}]`
fails this test; spacing is inserted only before such characters. -/
def excludedAfter (c : Char) : Bool :=
  Py.isSpace c || isPunctB c

/-- Case-insensitive matches for the literal letters of `https?://`.
('ſ' folds onto 's' under Python's full case-insensitive matching.) -/
def isH (c : Char) : Bool := c == 'h' || c == 'H'

def isT (c : Char) : Bool := c == 't' || c == 'T'

def isP (c : Char) : Bool := c == 'p' || c == 'P'

def isS (c : Char) : Bool := c == 's' || c == 'S' || c == 'ſ'

/-- After `http` or `https`, match `://` followed by `\S+` (greedy, at least
one non-space character); returns the rest of the input after the match. -/
def afterScheme (s : List Char) : Option (List Char) :=
  match s with
  | ':' :: '/' :: '/' :: rest =>
    if (rest.takeWhile (fun c => !Py.isSpace c)).isEmpty then none
    else some (rest.dropWhile (fun c => !Py.isSpace c))
  | _ => none

/-- Try to match `https?://\S+` (case-insensitively) at the head of the
input; `s?` is greedy, so the `https` alternative is preferred. -/
def urlMatch (s : List Char) : Option (List Char) :=
  match s with
  | c1 :: c2 :: c3 :: c4 :: rest =>
    if isH c1 && isT c2 && isT c3 && isP c4 then
      match rest with
      | c5 :: rest5 =>
        if isS c5 then (afterScheme rest5).orElse (fun _ => afterScheme rest)
        else afterScheme rest
      | [] => none
    else none
  | _ => none

theorem afterScheme_length {s r : List Char} (h : afterScheme s = some r) :
    r.length + 3 ≤ s.length := by
  unfold afterScheme at h
  split at h
  next rest =>
    split at h
    · exact absurd h (by simp)
    · have hr : r = rest.dropWhile (fun c => !Py.isSpace c) := by
        simpa using h.symm
      subst hr
      have hsub : List.Sublist (rest.dropWhile (fun c => !Py.isSpace c)) rest :=
        List.dropWhile_sublist _
      have := hsub.length_le
      simp only [List.length_cons]
      omega
  next => exact absurd h (by simp)

theorem urlMatch_length {s r : List Char} (h : urlMatch s = some r) :
    r.length < s.length := by
  unfold urlMatch at h
  split at h
  next c1 c2 c3 c4 rest =>
    split at h
    · split at h
      next c5 rest5 =>
        split at h
        · cases ha : afterScheme rest5 with
          | some r1 =>
            rw [ha] at h
            simp only [Option.orElse] at h
            have hr : r = r1 := by simpa using h.symm
            subst hr
            have := afterScheme_length ha
            simp only [List.length_cons] at this ⊢
            omega
          | none =>
            rw [ha] at h
            simp only [Option.orElse] at h
            have := afterScheme_length h
            simp only [List.length_cons] at this ⊢
            omega
        · have := afterScheme_length h
          simp only [List.length_cons] at this ⊢
          omega
      next => exact absurd h (by simp)
    · exact absurd h (by simp)
  next => exact absurd h (by simp)

/-- `_remove_reference_urls`: delete every match of `https?://\S+`. -/
def removeUrls (s : List Char) : List Char :=
  match s with
  | [] => []
  | c :: rest =>
    match hm : urlMatch (c :: rest) with
    | some rest' => removeUrls rest'
    | none => c :: removeUrls rest
termination_by s.length
decreasing_by
  · exact urlMatch_length hm
  · simp

/-- `text.replace('……', '...')`: left-to-right, non-overlapping. -/
def replaceEllipsis (s : List Char) : List Char :=
  match s with
  | '…' :: '…' :: rest => '.' :: '.' :: '.' :: replaceEllipsis rest
  | c :: rest => c :: replaceEllipsis rest
  | [] => []

/-- The `punctuation_map` table of `_normalize_reference_punctuation`
(`str.maketrans` argument). -/
def punctTable : List (Char × Char) :=
  [('，', ','), ('。', '.'), ('．', '.'), ('、', ','), ('；', ';'), ('：', ':'),
   ('？', '?'), ('！', '!'), ('（', '('), ('）', ')'), ('【', '['), ('】', ']'),
   ('《', '<'), ('》', '>'), ('“', '"'), ('”', '"'), ('‘', '\''), ('’', '\''),
   ('—', '-'), ('－', '-'), ('～', '~'), ('·', '-'), ('｜', '|')]

/-- One character of `text.translate(...)`: mapped if a key, else kept. -/
def translateChar (c : Char) : Char :=
  (punctTable.lookup c).getD c

/-- `text.translate(...)` over the punctuation table. -/
def translate (s : List Char) : List Char :=
  s.map translateChar

/-- `re.sub(r'\s+(P)', r'\1', text)` for a punctuation class `p`:
delete every maximal whitespace run that is directly followed by a
`p`-character (scanning resumes after that character). `pending` carries
the whitespace run currently being read; it is flushed when the next
character is not in `p` and dropped when it is. -/
def rmsbGo (p : Char → Bool) (pending : List Char) : List Char → List Char
  | [] => pending
  | c :: rest =>
    if Py.isSpace c then rmsbGo p (pending ++ [c]) rest
    else if p c then c :: rmsbGo p [] rest
    else pending ++ (c :: rmsbGo p [] rest)

/-- `re.sub(r'\s+(P)', r'\1', text)`. -/
def rmSpaceBefore (p : Char → Bool) (s : List Char) : List Char :=
  rmsbGo p [] s

/-- `_collapse_reference_whitespace`: `re.sub(r'\s+', ' ', text)`: each
maximal whitespace run becomes one plain space. -/
def collapseWs : List Char → List Char
  | [] => []
  | [c] => if Py.isSpace c then [' '] else [c]
  | c :: d :: rest =>
    if Py.isSpace c then
      if Py.isSpace d then collapseWs (d :: rest)
      else ' ' :: collapseWs (d :: rest)
    else c :: collapseWs (d :: rest)

/-- First pattern of `_ensure_reference_spacing`: insert a space after a
`isPunctA` character whenever the next character is outside
`[\s,.;:?!\)\]\}]`. -/
def ensureSpacingA (s : List Char) : List Char :=
  match s with
  | c :: d :: rest =>
    if isPunctA c && !excludedAfter d then c :: ' ' :: ensureSpacingA (d :: rest)
    else c :: ensureSpacingA (d :: rest)
  | s => s

/-- Second pattern of `_ensure_reference_spacing`: same insertion after a
period. -/
def ensureSpacingDot (s : List Char) : List Char :=
  match s with
  | c :: d :: rest =>
    if c == '.' && !excludedAfter d then c :: ' ' :: ensureSpacingDot (d :: rest)
    else c :: ensureSpacingDot (d :: rest)
  | s => s

/-- `_protect_reference_sequences`: wrap the hyphens of every match of
`\d+(?:-\d+)+` in word joiners (`segment.replace('-', '⁠-⁠')` on each
match). A hyphen lies inside such a match exactly when it has a digit
directly on each side, so the substitution wraps exactly those hyphens. -/
def protectSeq : List Char → List Char
  | a :: b :: c :: rest =>
    if Py.isDigit a && b == '-' && Py.isDigit c then
      a :: joiner :: '-' :: joiner :: protectSeq (c :: rest)
    else a :: protectSeq (b :: c :: rest)
  | s => s

/-- The sanitation pipeline before the final period handling: strip,
URL removal, punctuation normalization, space cleanup around punctuation,
whitespace collapsing, spacing insertion, a second collapse, hyphen
protection, a final strip and the `\s+\.` cleanup, in source order. -/
def sanitizeCore (s : List Char) : List Char :=
  rmSpaceBefore (· == '.')
    (Py.strip
      (protectSeq
        (collapseWs
          (ensureSpacingDot
            (ensureSpacingA
              (collapseWs
                (rmSpaceBefore isPunctB
                  (translate
                    (replaceEllipsis
                      (removeUrls
                        (Py.strip s)))))))))))

/-- `_sanitize_reference_text` (formatter.py, identical in e5 and e1):
the full sanitation pipeline, ending with the terminal-period guarantee. -/
def sanitize (s : List Char) : List Char :=
  if s.isEmpty then []
  else if (sanitizeCore s).isEmpty then sanitizeCore s
  else if (sanitizeCore s).getLast? = some '.' then sanitizeCore s
  else sanitizeCore s ++ ['.']

/-! Invariants satisfied by every output of `sanitize`, and under which every
stage of the pipeline acts as the identity. -/

/-- No adjacent pair of characters matches `bad`. -/
def noPair (bad : Char → Char → Bool) : List Char → Bool
  | [] => true
  | a :: rest => rest.head?.all (fun b => !bad a b) && noPair bad rest

/-- A window of three characters matching digit-hyphen-digit would be a
fresh `\d+(?:-\d+)+` match. -/
def ok3 (a b c : Char) : Bool :=
  !(Py.isDigit a && b == '-' && Py.isDigit c)

/-- No digit-hyphen-digit window anywhere. -/
def noDHD : List Char → Bool
  | [] => true
  | a :: rest =>
    (match rest with
     | b :: c :: _ => ok3 a b c
     | _ => true) && noDHD rest

def wsPunct (a b : Char) : Bool := Py.isSpace a && isPunctB b

def colonSlash (a b : Char) : Bool := a == ':' && b == '/'

def twoEllipsis (a b : Char) : Bool := a == '…' && b == '…'

def punctATight (a b : Char) : Bool := isPunctA a && !excludedAfter b

def dotTight (a b : Char) : Bool := a == '.' && !excludedAfter b

def twoWs (a b : Char) : Bool := Py.isSpace a && Py.isSpace b

/-- Every whitespace character is a plain ASCII space. -/
def plainChar (c : Char) : Bool := !Py.isSpace c || c == ' '

/-- The character is untouched by the punctuation translation. -/
def fixedChar (c : Char) : Bool := translateChar c == c

/-- The sanitizer's fixed points: stripped ends, terminal period,
translated punctuation, single plain spaces, no space before punctuation,
no URL scheme separator, no double ellipsis, spacing after punctuation
already present, and no unprotected digit-hyphen-digit run. -/
def Sanitized (s : List Char) : Bool :=
  s.head?.all (fun c => !Py.isSpace c) &&
  s.getLast?.all (fun c => c == '.') &&
  s.all fixedChar &&
  s.all plainChar &&
  noPair twoWs s &&
  noPair wsPunct s &&
  noPair colonSlash s &&
  noPair twoEllipsis s &&
  noPair punctATight s &&
  noPair dotTight s &&
  noDHD s

theorem noPair_nil {bad : Char → Char → Bool} : noPair bad [] = true := rfl

theorem noPair_cons {bad : Char → Char → Bool} {a : Char} {l : List Char} :
    noPair bad (a :: l) = (l.head?.all (fun b => !bad a b) && noPair bad l) := rfl

theorem noPair_tail {bad : Char → Char → Bool} {a : Char} {l : List Char}
    (h : noPair bad (a :: l) = true) : noPair bad l = true := by
  rw [noPair_cons] at h
  exact (Bool.and_eq_true_iff.mp h).2

theorem noPair_head {bad : Char → Char → Bool} {a b : Char} {l : List Char}
    (h : noPair bad (a :: l) = true) (hb : l.head? = some b) : bad a b = false := by
  rw [noPair_cons, hb] at h
  have := (Bool.and_eq_true_iff.mp h).1
  simpa using this

theorem noPair_pair {bad : Char → Char → Bool} {a b : Char} {l : List Char}
    (h : noPair bad (a :: b :: l) = true) : bad a b = false :=
  noPair_head h rfl

theorem noPair_two {bad : Char → Char → Bool} {a b : Char} {l : List Char}
    (hb : bad a b = false) (h : noPair bad (b :: l) = true) :
    noPair bad (a :: b :: l) = true := by
  rw [noPair_cons]
  simp only [List.head?_cons, Option.all_some, hb, Bool.not_false, Bool.true_and]
  exact h

theorem noPair_one {bad : Char → Char → Bool} {a : Char} : noPair bad [a] = true := by
  simp [noPair]

theorem noPair_dropWhile {bad : Char → Char → Bool} {q : Char → Bool} {l : List Char}
    (h : noPair bad l = true) : noPair bad (l.dropWhile q) = true := by
  induction l with
  | nil => simpa using h
  | cons a rest ih =>
    rw [List.dropWhile_cons]
    by_cases hq : q a = true
    · simp only [hq, if_true]
      exact ih (noPair_tail h)
    · simp only [hq, Bool.false_eq_true, if_false]
      exact h

theorem noPair_mono {bad1 bad2 : Char → Char → Bool}
    (hm : ∀ a b, bad2 a b = true → bad1 a b = true) {l : List Char}
    (h : noPair bad1 l = true) : noPair bad2 l = true := by
  induction l with
  | nil => rfl
  | cons a rest ih =>
    rw [noPair_cons, Bool.and_eq_true_iff]
    refine ⟨?_, ih (noPair_tail h)⟩
    cases hr : rest.head? with
    | none => rfl
    | some b =>
      have h1 := noPair_head h hr
      simp only [Option.all_some, Bool.not_eq_true']
      cases hb2 : bad2 a b with
      | false => rfl
      | true => exact absurd (hm a b hb2) (by simp [h1])

theorem noPair_append {bad : Char → Char → Bool} {l1 l2 : List Char} :
    noPair bad (l1 ++ l2) = true ↔
      noPair bad l1 = true ∧ noPair bad l2 = true ∧
      (∀ a b, l1.getLast? = some a → l2.head? = some b → bad a b = false) := by
  induction l1 with
  | nil => simp [noPair]
  | cons a rest ih =>
    cases rest with
    | nil =>
      cases l2 with
      | nil => simp [noPair]
      | cons b t =>
        simp only [List.nil_append, List.singleton_append, noPair_cons,
          List.head?_cons, Option.all_some, Bool.and_eq_true_iff]
        constructor
        · rintro ⟨h1, h2⟩
          exact ⟨by simp [noPair], ⟨by simpa using h2, by
            intro x y hx hy
            simp only [List.getLast?_singleton, Option.some.injEq] at hx
            simp only [Option.some.injEq] at hy
            subst hx; subst hy
            simpa using h1⟩⟩
        · rintro ⟨-, h2, h3⟩
          refine ⟨by simpa using h3 a b rfl rfl, by simpa using h2⟩
    | cons a2 rest2 =>
      simp only [List.cons_append, noPair_cons, List.head?_cons,
        Option.all_some, Bool.and_eq_true_iff] at *
      constructor
      · rintro ⟨h1, h2⟩
        obtain ⟨h3, h4, h5⟩ := ih.mp h2
        refine ⟨⟨by simpa using h1, h3⟩, h4, ?_⟩
        intro x y hx hy
        apply h5 x y _ hy
        rwa [List.getLast?_cons_cons] at hx
      · rintro ⟨⟨h1, h3⟩, h4, h5⟩
        refine ⟨by simpa using h1, ?_⟩
        apply ih.mpr
        refine ⟨h3, h4, ?_⟩
        intro x y hx hy
        apply h5 x y _ hy
        rwa [List.getLast?_cons_cons]

theorem noPair_infix {bad : Char → Char → Bool} {s t : List Char}
    (hinf : t <:+: s) (h : noPair bad s = true) : noPair bad t = true := by
  obtain ⟨l1, l2, rfl⟩ := hinf
  rw [List.append_assoc] at h
  have h1 := (noPair_append.mp h).2.1
  exact (noPair_append.mp h1).1

theorem noDHD_cons {a : Char} {l : List Char} :
    noDHD (a :: l) =
      ((match l with | b :: c :: _ => ok3 a b c | _ => true) && noDHD l) := rfl

theorem noDHD_tail {a : Char} {l : List Char} (h : noDHD (a :: l) = true) :
    noDHD l = true := by
  rw [noDHD_cons] at h
  exact (Bool.and_eq_true_iff.mp h).2

theorem noDHD_window {a b c : Char} {l : List Char}
    (h : noDHD (a :: b :: c :: l) = true) : ok3 a b c = true := by
  rw [noDHD_cons] at h
  exact (Bool.and_eq_true_iff.mp h).1

theorem noDHD_two {a b : Char} : noDHD [a, b] = true := by simp [noDHD]

theorem noDHD_one {a : Char} : noDHD [a] = true := by simp [noDHD]

theorem noDHD_cons_of {a : Char} {l : List Char}
    (hw : ∀ b c, l.head? = some b → l.tail.head? = some c → ok3 a b c = true)
    (h : noDHD l = true) : noDHD (a :: l) = true := by
  rw [noDHD_cons, Bool.and_eq_true_iff]
  refine ⟨?_, h⟩
  cases l with
  | nil => rfl
  | cons b t =>
    cases t with
    | nil => rfl
    | cons c t2 => exact hw b c rfl rfl

theorem noDHD_dropWhile {q : Char → Bool} {l : List Char}
    (h : noDHD l = true) : noDHD (l.dropWhile q) = true := by
  induction l with
  | nil => simpa using h
  | cons a rest ih =>
    rw [List.dropWhile_cons]
    by_cases hq : q a = true
    · simp only [hq, if_true]
      exact ih (noDHD_tail h)
    · simp only [hq, Bool.false_eq_true, if_false]
      exact h

theorem noDHD_append_left {l1 l2 : List Char}
    (h : noDHD (l1 ++ l2) = true) : noDHD l1 = true := by
  induction l1 with
  | nil => rfl
  | cons a rest ih =>
    rw [List.cons_append] at h
    apply noDHD_cons_of _ (ih (noDHD_tail h))
    intro b c hb hc
    cases rest with
    | nil => simp at hb
    | cons b2 rest2 =>
      cases rest2 with
      | nil => simp at hc
      | cons c2 rest3 =>
        simp only [List.head?_cons, Option.some.injEq] at hb
        simp only [List.tail_cons, List.head?_cons, Option.some.injEq] at hc
        subst hb; subst hc
        exact noDHD_window h

theorem noDHD_append_right {l1 l2 : List Char}
    (h : noDHD (l1 ++ l2) = true) : noDHD l2 = true := by
  induction l1 with
  | nil => simpa using h
  | cons a rest ih => exact ih (noDHD_tail h)

theorem noDHD_infix {s t : List Char} (hinf : t <:+: s)
    (h : noDHD s = true) : noDHD t = true := by
  obtain ⟨l1, l2, rfl⟩ := hinf
  rw [List.append_assoc] at h
  exact noDHD_append_left (noDHD_append_right h)

theorem noDHD_append {l1 l2 : List Char}
    (h1 : noDHD l1 = true) (h2 : noDHD l2 = true)
    (hb1 : ∀ a b c, l1.getLast? = some a → l2.head? = some b →
      l2.tail.head? = some c → ok3 a b c = true)
    (hb2 : ∀ a b c, l1.dropLast.getLast? = some a → l1.getLast? = some b →
      l2.head? = some c → ok3 a b c = true) :
    noDHD (l1 ++ l2) = true := by
  induction l1 with
  | nil => simpa using h2
  | cons a rest ih =>
    rw [List.cons_append]
    have hrest : noDHD (rest ++ l2) = true := by
      cases rest with
      | nil =>
        simpa using h2
      | cons a2 rest2 =>
        apply ih (noDHD_tail h1)
        · intro x y z hx hy hz
          apply hb1 x y z _ hy hz
          rwa [List.getLast?_cons_cons]
        · intro x y z hx hy hz
          cases rest2 with
          | nil =>
            simp only [List.getLast?_singleton, Option.some.injEq] at hy
            simp only [List.dropLast_single, List.getLast?_nil] at hx
            exact absurd hx (by simp)
          | cons a3 rest3 =>
            apply hb2 x y z _ _ hz
            · rw [List.dropLast_cons₂, List.dropLast_cons₂, List.getLast?_cons_cons]
              rw [List.dropLast_cons₂] at hx
              exact hx
            · rwa [List.getLast?_cons_cons]
    apply noDHD_cons_of _ hrest
    intro b c hb hc
    cases rest with
    | nil =>
      simp only [List.nil_append] at hb hc
      exact hb1 a b c rfl hb hc
    | cons a2 rest2 =>
      simp only [List.cons_append, List.head?_cons, Option.some.injEq] at hb
      subst hb
      cases rest2 with
      | nil =>
        simp only [List.cons_append, List.tail_cons, List.nil_append] at hc
        exact hb2 a a2 c rfl rfl hc
      | cons a3 rest3 =>
        simp only [List.cons_append, List.tail_cons, List.head?_cons,
          Option.some.injEq] at hc
        subst hc
        exact noDHD_window h1

/-! Character-class facts. -/

theorem punctB_not_space {c : Char} (h : isPunctB c = true) :
    Py.isSpace c = false := by
  simp only [isPunctB, Bool.or_eq_true, beq_iff_eq] at h
  rcases h with ((((((((h | h) | h) | h) | h) | h) | h) | h) | h) <;> subst h <;> decide

theorem punctA_punctB {c : Char} (h : isPunctA c = true) : isPunctB c = true := by
  simp only [isPunctA, Bool.or_eq_true, beq_iff_eq] at h
  rcases h with (((((((h | h) | h) | h) | h) | h) | h) | h) <;> subst h <;> decide

theorem punctA_not_space {c : Char} (h : isPunctA c = true) :
    Py.isSpace c = false :=
  punctB_not_space (punctA_punctB h)

theorem digit_toNat {c : Char} (h : Py.isDigit c = true) :
    48 ≤ c.toNat ∧ c.toNat ≤ 57 := by
  simp only [Py.isDigit, Bool.and_eq_true, decide_eq_true_eq] at h
  obtain ⟨h1, h2⟩ := h
  exact ⟨h1, h2⟩

theorem digit_not_space {c : Char} (h : Py.isDigit c = true) :
    Py.isSpace c = false := by
  obtain ⟨h1, h2⟩ := digit_toNat h
  cases hs : Py.isSpace c with
  | false => rfl
  | true =>
    exfalso
    simp only [Py.isSpace, Bool.or_eq_true, Bool.and_eq_true,
      decide_eq_true_eq, beq_iff_eq] at hs
    omega

theorem digit_not_punctB {c : Char} (h : Py.isDigit c = true) :
    isPunctB c = false := by
  obtain ⟨h1, h2⟩ := digit_toNat h
  cases hp : isPunctB c with
  | false => rfl
  | true =>
    exfalso
    simp only [isPunctB, Bool.or_eq_true, beq_iff_eq] at hp
    rcases hp with ((((((((e | e) | e) | e) | e) | e) | e) | e) | e) <;>
      subst e <;> simp_all <;> omega

theorem digit_not_punctA {c : Char} (h : Py.isDigit c = true) :
    isPunctA c = false := by
  cases hp : isPunctA c with
  | false => rfl
  | true => exact absurd (punctA_punctB hp) (by simp [digit_not_punctB h])

theorem digit_ne_chars {c : Char} (h : Py.isDigit c = true) :
    c ≠ '-' ∧ c ≠ '.' ∧ c ≠ ':' ∧ c ≠ '…' ∧ c ≠ joiner := by
  refine ⟨?_, ?_, ?_, ?_, ?_⟩ <;> · intro he; subst he; exact absurd h (by decide)

/-! Each pipeline stage is the identity on `Sanitized` strings. -/

theorem dropWhile_eq_self_of_head {p : Char → Bool} {s : List Char}
    (h : s.head?.all (fun c => !p c) = true) : s.dropWhile p = s := by
  cases s with
  | nil => rfl
  | cons a l =>
    simp only [List.head?_cons, Option.all_some, Bool.not_eq_true'] at h
    simp [List.dropWhile_cons, h]

theorem strip_eq_self {s : List Char}
    (h1 : s.head?.all (fun c => !Py.isSpace c) = true)
    (h2 : s.getLast?.all (fun c => !Py.isSpace c) = true) :
    Py.strip s = s := by
  unfold Py.strip
  rw [dropWhile_eq_self_of_head h1]
  rw [dropWhile_eq_self_of_head (by rw [List.head?_reverse]; exact h2),
    List.reverse_reverse]

theorem afterScheme_none {s : List Char} (h : noPair colonSlash s = true) :
    afterScheme s = none := by
  unfold afterScheme
  split
  next rest => exact absurd (noPair_pair h) (by decide)
  next => rfl

theorem urlMatch_none {s : List Char} (h : noPair colonSlash s = true) :
    urlMatch s = none := by
  unfold urlMatch
  split
  next c1 c2 c3 c4 rest =>
    have h4 : noPair colonSlash rest = true :=
      noPair_tail (noPair_tail (noPair_tail (noPair_tail h)))
    split
    · split
      next c5 rest5 =>
        have h5 : noPair colonSlash rest5 = true := noPair_tail h4
        split
        · rw [afterScheme_none h5, afterScheme_none h4]; rfl
        · exact afterScheme_none h4
      next => rfl
    · rfl
  next => rfl

theorem removeUrls_id {s : List Char} (h : noPair colonSlash s = true) :
    removeUrls s = s := by
  induction s using removeUrls.induct with
  | case1 => simp [removeUrls]
  | case2 c rest rest' hm ih =>
    rw [urlMatch_none h] at hm
    exact absurd hm (by simp)
  | case3 c rest hm ih =>
    rw [removeUrls.eq_def]
    split
    next hm2 => exact absurd hm2 (by simp)
    next c2 rest2 heq =>
      obtain ⟨h1, h2⟩ := List.cons.injEq .. |>.mp heq
      subst h1; subst h2
      split
      next rest3 hm2 =>
        rw [hm] at hm2
        exact absurd hm2 (by simp)
      next => rw [ih (noPair_tail h)]

theorem replaceEllipsis_id {s : List Char} (h : noPair twoEllipsis s = true) :
    replaceEllipsis s = s := by
  induction s using replaceEllipsis.induct with
  | case1 rest ih => exact absurd (noPair_pair h) (by decide)
  | case2 c rest hne ih =>
    rw [replaceEllipsis.eq_def]
    split
    next rest1 heq =>
      obtain ⟨hc, hr⟩ := List.cons.injEq .. |>.mp heq
      exact (hne rest1 hc hr).elim
    next c2 rest2 hne2 heq =>
      obtain ⟨hc, hr⟩ := List.cons.injEq .. |>.mp heq
      subst hc; subst hr
      rw [ih (noPair_tail h)]
    next heq => exact absurd heq (by simp)
  | case3 => rfl

theorem translate_id {s : List Char} (h : s.all fixedChar = true) :
    translate s = s := by
  unfold translate
  induction s with
  | nil => rfl
  | cons a rest ih =>
    simp only [List.all_cons, Bool.and_eq_true] at h
    simp only [List.map_cons]
    rw [ih h.2]
    have ha : translateChar a = a := by simpa [fixedChar] using h.1
    rw [ha]

theorem rmsbGo_id {p : Char → Bool} :
    ∀ {s pending : List Char}, pending.all Py.isSpace = true →
      noPair (fun a b => Py.isSpace a && p b) (pending ++ s) = true →
      rmsbGo p pending s = pending ++ s := by
  intro s
  induction s with
  | nil =>
    intro pending _ _
    simp [rmsbGo]
  | cons c rest ih =>
    intro pending hall h
    rw [rmsbGo]
    by_cases hc : Py.isSpace c = true
    · rw [if_pos hc]
      have heq : pending ++ [c] ++ rest = pending ++ c :: rest := by simp
      rw [ih (by simp [List.all_append, hall, hc]) (by rwa [heq]), heq]
    · rw [if_neg hc]
      have hrest : noPair (fun a b => Py.isSpace a && p b) rest = true :=
        noPair_tail (noPair_append.mp h).2.1
      by_cases hp : p c = true
      · rw [if_pos hp]
        have hpend : pending = [] := by
          cases hpe : pending.getLast? with
          | none => exact List.getLast?_eq_none_iff.mp hpe
          | some w =>
            exfalso
            have hw : Py.isSpace w = true := by
              have hmem : w ∈ pending := by
                obtain ⟨hne, hg⟩ := List.mem_getLast?_eq_getLast (by rw [hpe]; rfl)
                exact hg ▸ List.getLast_mem hne
              exact List.all_eq_true.mp hall w hmem
            have := (noPair_append.mp h).2.2 w c hpe rfl
            simp [hw, hp] at this
        subst hpend
        simp only [List.nil_append] at h ⊢
        rw [ih (by simp) (by simpa using hrest)]
        simp
      · rw [if_neg hp]
        rw [ih (by simp) (by simpa using hrest)]
        simp

theorem rmSpaceBefore_id {p : Char → Bool} {s : List Char}
    (h : noPair (fun a b => Py.isSpace a && p b) s = true) :
    rmSpaceBefore p s = s := by
  unfold rmSpaceBefore
  rw [rmsbGo_id (by simp) (by simpa using h)]
  simp

theorem collapseWs_id {s : List Char}
    (h1 : s.all plainChar = true) (h2 : noPair twoWs s = true) :
    collapseWs s = s := by
  induction s with
  | nil => rfl
  | cons c rest ih =>
    have h1' : plainChar c = true ∧ rest.all plainChar = true := by
      simpa only [List.all_cons, Bool.and_eq_true] using h1
    have hc1 : plainChar c = true := h1'.1
    cases rest with
    | nil =>
      by_cases hc : Py.isSpace c = true
      · have hcc : c = ' ' := by simpa [plainChar, hc] using hc1
        simp [collapseWs, hc, hcc]
      · simp [collapseWs, hc]
    | cons d rest2 =>
      have ih2 : collapseWs (d :: rest2) = d :: rest2 :=
        ih h1'.2 (noPair_tail h2)
      by_cases hc : Py.isSpace c = true
      · have hcc : c = ' ' := by simpa [plainChar, hc] using hc1
        have hd : Py.isSpace d = false := by
          have := noPair_pair h2
          simpa [twoWs, hc] using this
        simp only [collapseWs, hc, if_true, hd, Bool.false_eq_true, if_false]
        rw [ih2, hcc]
      · simp only [collapseWs, hc, Bool.false_eq_true, if_false]
        rw [ih2]

theorem ensureSpacingA_id {s : List Char} (h : noPair punctATight s = true) :
    ensureSpacingA s = s := by
  induction s with
  | nil => rfl
  | cons c rest ih =>
    cases rest with
    | nil => rfl
    | cons d rest2 =>
      have hcond : (isPunctA c && !excludedAfter d) = false := by
        simpa [punctATight] using noPair_pair h
      simp only [ensureSpacingA, hcond, Bool.false_eq_true, if_false]
      rw [ih (noPair_tail h)]

theorem ensureSpacingDot_id {s : List Char} (h : noPair dotTight s = true) :
    ensureSpacingDot s = s := by
  induction s with
  | nil => rfl
  | cons c rest ih =>
    cases rest with
    | nil => rfl
    | cons d rest2 =>
      have hcond : (c == '.' && !excludedAfter d) = false := by
        simpa [dotTight] using noPair_pair h
      simp only [ensureSpacingDot, hcond, Bool.false_eq_true, if_false]
      rw [ih (noPair_tail h)]

theorem protectSeq_id {s : List Char} (h : noDHD s = true) :
    protectSeq s = s := by
  induction s with
  | nil => rfl
  | cons a rest ih =>
    cases rest with
    | nil => rfl
    | cons b rest2 =>
      cases rest2 with
      | nil => rfl
      | cons c rest3 =>
        have hw : ok3 a b c = true := noDHD_window h
        have hcond : (Py.isDigit a && b == '-' && Py.isDigit c) = false := by
          simpa only [ok3, Bool.not_eq_true'] using hw
        simp only [protectSeq, hcond, Bool.false_eq_true, if_false]
        rw [ih (noDHD_tail h)]

/-- Every invariant of `Sanitized` together: the sanitizer is the identity
on sanitized strings. -/
theorem sanitizeCore_id {s : List Char} (h : Sanitized s = true) :
    sanitizeCore s = s := by
  rw [Sanitized] at h
  obtain ⟨⟨⟨⟨⟨⟨⟨⟨⟨⟨hHE, hLE⟩, hF⟩, hPl⟩, hWW⟩, hWP⟩, hCS⟩, hEE⟩, hTA⟩, hTD⟩, hDHD⟩ :
      ((((((((((_ ∧ _) ∧ _) ∧ _) ∧ _) ∧ _) ∧ _) ∧ _) ∧ _) ∧ _) ∧ _) := by
    simpa only [Bool.and_eq_true] using h
  have hLE' : s.getLast?.all (fun c => !Py.isSpace c) = true := by
    cases hgl : s.getLast? with
    | none => rfl
    | some c =>
      rw [hgl] at hLE
      have hc : c = '.' := by simpa using hLE
      subst hc; rfl
  have hWPdot : noPair (fun a b => Py.isSpace a && (b == '.')) s = true := by
    apply noPair_mono _ hWP
    intro a b hb
    simp only [Bool.and_eq_true, beq_iff_eq] at hb
    simp [wsPunct, hb.1, hb.2, isPunctB]
  unfold sanitizeCore
  rw [strip_eq_self hHE hLE', removeUrls_id hCS, replaceEllipsis_id hEE,
    translate_id hF, rmSpaceBefore_id hWP, collapseWs_id hPl hWW,
    ensureSpacingA_id hTA, ensureSpacingDot_id hTD, collapseWs_id hPl hWW,
    protectSeq_id hDHD, strip_eq_self hHE hLE', rmSpaceBefore_id hWPdot]

/-! Every output of the pipeline satisfies the `Sanitized` invariants. -/

theorem lookup_mem {α β : Type} [BEq α] [LawfulBEq α] {l : List (α × β)} {a : α} {b : β}
    (h : l.lookup a = some b) : (a, b) ∈ l := by
  induction l with
  | nil => simp [List.lookup] at h
  | cons p rest ih =>
    rw [List.lookup] at h
    cases hp : (a == p.1) with
    | true =>
      simp only [hp] at h
      have ha : a = p.1 := by simpa using hp
      have hb : p.2 = b := by simpa using h
      have hab : (a, b) = p := by rw [ha, ← hb]
      rw [hab]
      exact List.mem_cons_self ..
    | false =>
      simp only [hp] at h
      exact List.mem_cons_of_mem _ (ih h)

theorem punctTable_values_fixed :
    ∀ p ∈ punctTable, punctTable.lookup p.2 = none := by decide

theorem translateChar_fixed (c : Char) : fixedChar (translateChar c) = true := by
  cases hlk : punctTable.lookup c with
  | none => simp [fixedChar, translateChar, hlk]
  | some v =>
    have hv : punctTable.lookup v = none :=
      punctTable_values_fixed (c, v) (lookup_mem hlk)
    simp [fixedChar, translateChar, hlk, hv]

theorem translate_all_fixed (s : List Char) : (translate s).all fixedChar = true := by
  unfold translate
  rw [List.all_eq_true]
  intro x hx
  obtain ⟨c, -, rfl⟩ := List.mem_map.mp hx
  exact translateChar_fixed c

theorem translateChar_ellipsis {c : Char} (h : translateChar c = '…') : c = '…' := by
  unfold translateChar at h
  cases hlk : punctTable.lookup c with
  | none => rw [hlk] at h; simpa using h
  | some v =>
    rw [hlk] at h
    simp only [Option.getD_some] at h
    subst h
    have hm := lookup_mem hlk
    simp [punctTable, Prod.ext_iff] at hm

theorem replaceEllipsis_head {s : List Char} {x : Char}
    (h : (replaceEllipsis s).head? = some x) : x = '.' ∨ s.head? = some x := by
  induction s using replaceEllipsis.induct with
  | case1 rest ih =>
    left
    simpa [replaceEllipsis] using h.symm
  | case2 c rest hne ih =>
    right
    rw [replaceEllipsis.eq_def] at h
    split at h
    next rest1 heq =>
      obtain ⟨hc, hr⟩ := List.cons.injEq .. |>.mp heq
      exact (hne rest1 hc hr).elim
    next c2 rest2 hne2 heq =>
      obtain ⟨hc, hr⟩ := List.cons.injEq .. |>.mp heq
      subst hc; subst hr
      simpa using h
    next heq => simp at heq
  | case3 => simp [replaceEllipsis] at h

theorem rmsbGo_head {p : Char → Bool} :
    ∀ {t pending : List Char} {x : Char},
      (rmsbGo p pending t).head? = some x →
      (pending ++ t).head? = some x ∨ p x = true := by
  intro t
  induction t with
  | nil =>
    intro pending x h
    rw [rmsbGo] at h
    left
    simpa using h
  | cons c rest ih =>
    intro pending x h
    rw [rmsbGo] at h
    by_cases hc : Py.isSpace c = true
    · rw [if_pos hc] at h
      rcases ih h with h1 | h1
      · left
        cases pending with
        | nil => simpa using h1
        | cons a t2 => simpa using h1
      · right; exact h1
    · rw [if_neg hc] at h
      by_cases hp : p c = true
      · rw [if_pos hp] at h
        right
        simp only [List.head?_cons, Option.some.injEq] at h
        rw [← h]; exact hp
      · rw [if_neg hp] at h
        left
        cases pending with
        | nil => simpa using h
        | cons a t2 => simpa using h

theorem collapseWs_head (s : List Char) :
    (collapseWs s).head? = s.head?.map (fun c => if Py.isSpace c then ' ' else c) := by
  induction s with
  | nil => rfl
  | cons c rest ih =>
    cases rest with
    | nil =>
      by_cases hc : Py.isSpace c = true <;> simp [collapseWs, hc]
    | cons d rest2 =>
      by_cases hc : Py.isSpace c = true
      · by_cases hd : Py.isSpace d = true
        · simp only [collapseWs, hc, if_true, hd]
          rw [ih]
          simp [hd, hc]
        · simp [collapseWs, hc, hd]
      · simp [collapseWs, hc]

theorem ensureSpacingA_head (s : List Char) :
    (ensureSpacingA s).head? = s.head? := by
  cases s with
  | nil => rfl
  | cons c rest =>
    cases rest with
    | nil => rfl
    | cons d rest2 =>
      by_cases hcd : (isPunctA c && !excludedAfter d) = true <;>
        simp [ensureSpacingA, hcd]

theorem ensureSpacingDot_head (s : List Char) :
    (ensureSpacingDot s).head? = s.head? := by
  cases s with
  | nil => rfl
  | cons c rest =>
    cases rest with
    | nil => rfl
    | cons d rest2 =>
      by_cases hcd : (c == '.' && !excludedAfter d) = true <;>
        simp [ensureSpacingDot, hcd]

theorem protectSeq_head (s : List Char) :
    (protectSeq s).head? = s.head? := by
  cases s with
  | nil => rfl
  | cons a rest =>
    cases rest with
    | nil => rfl
    | cons b rest2 =>
      cases rest2 with
      | nil => rfl
      | cons c rest3 =>
        by_cases hcond : (Py.isDigit a && b == '-' && Py.isDigit c) = true <;>
          simp [protectSeq, hcond]

theorem protectSeq_second (s : List Char) :
    (protectSeq s).tail.head? = s.tail.head? ∨
      (protectSeq s).tail.head? = some joiner := by
  cases s with
  | nil => left; rfl
  | cons a rest =>
    cases rest with
    | nil => left; rfl
    | cons b rest2 =>
      cases rest2 with
      | nil => left; rfl
      | cons c rest3 =>
        by_cases hcond : (Py.isDigit a && b == '-' && Py.isDigit c) = true
        · right; simp [protectSeq, hcond]
        · left
          simp only [protectSeq, hcond, Bool.false_eq_true, if_false]
          simp [protectSeq_head (b :: c :: rest3)]

theorem rmsbGo_sublist {p : Char → Bool} :
    ∀ {t pending : List Char}, List.Sublist (rmsbGo p pending t) (pending ++ t) := by
  intro t
  induction t with
  | nil =>
    intro pending
    rw [rmsbGo]
    simp
  | cons c rest ih =>
    intro pending
    rw [rmsbGo]
    by_cases hc : Py.isSpace c = true
    · rw [if_pos hc]
      have h1 : List.Sublist (rmsbGo p (pending ++ [c]) rest)
          ((pending ++ [c]) ++ rest) := ih
      simpa using h1
    · rw [if_neg hc]
      have h0 : List.Sublist (rmsbGo p [] rest) ([] ++ rest) := ih
      have h1 : List.Sublist (rmsbGo p [] rest) rest := by simpa using h0
      by_cases hp : p c = true
      · rw [if_pos hp]
        have h2 : List.Sublist (c :: rmsbGo p [] rest) (c :: rest) :=
          List.Sublist.cons₂ c h1
        exact h2.trans (List.sublist_append_right ..)
      · rw [if_neg hp]
        apply List.Sublist.append_left
        exact List.Sublist.cons₂ c h1

theorem collapseWs_all {pr : Char → Bool} (hsp : pr ' ' = true) :
    ∀ {s : List Char}, s.all pr = true → (collapseWs s).all pr = true := by
  intro s
  induction s with
  | nil => intro h; exact h
  | cons c rest ih =>
    intro h
    have h' : pr c = true ∧ rest.all pr = true := by
      simpa only [List.all_cons, Bool.and_eq_true] using h
    cases rest with
    | nil =>
      by_cases hc : Py.isSpace c = true <;> simp [collapseWs, hc, hsp, h'.1]
    | cons d rest2 =>
      by_cases hc : Py.isSpace c = true
      · by_cases hd : Py.isSpace d = true
        · simp only [collapseWs, hc, if_true, hd]
          exact ih h'.2
        · simp only [collapseWs, hc, if_true, hd, Bool.false_eq_true, if_false,
            List.all_cons, Bool.and_eq_true]
          exact ⟨hsp, ih h'.2⟩
      · simp only [collapseWs, hc, Bool.false_eq_true, if_false,
          List.all_cons, Bool.and_eq_true]
        exact ⟨h'.1, ih h'.2⟩

theorem ensureSpacingA_all {pr : Char → Bool} (hsp : pr ' ' = true) :
    ∀ {s : List Char}, s.all pr = true → (ensureSpacingA s).all pr = true := by
  intro s
  induction s with
  | nil => intro h; exact h
  | cons c rest ih =>
    intro h
    have h' : pr c = true ∧ rest.all pr = true := by
      simpa only [List.all_cons, Bool.and_eq_true] using h
    cases rest with
    | nil => exact h
    | cons d rest2 =>
      by_cases hcd : (isPunctA c && !excludedAfter d) = true <;>
        · simp only [ensureSpacingA, hcd, Bool.false_eq_true, if_false, if_true,
            List.all_cons, Bool.and_eq_true]
          first
          | exact ⟨h'.1, hsp, by simpa using ih h'.2⟩
          | exact ⟨h'.1, by simpa using ih h'.2⟩

theorem ensureSpacingDot_all {pr : Char → Bool} (hsp : pr ' ' = true) :
    ∀ {s : List Char}, s.all pr = true → (ensureSpacingDot s).all pr = true := by
  intro s
  induction s with
  | nil => intro h; exact h
  | cons c rest ih =>
    intro h
    have h' : pr c = true ∧ rest.all pr = true := by
      simpa only [List.all_cons, Bool.and_eq_true] using h
    cases rest with
    | nil => exact h
    | cons d rest2 =>
      by_cases hcd : (c == '.' && !excludedAfter d) = true <;>
        · simp only [ensureSpacingDot, hcd, Bool.false_eq_true, if_false, if_true,
            List.all_cons, Bool.and_eq_true]
          first
          | exact ⟨h'.1, hsp, by simpa using ih h'.2⟩
          | exact ⟨h'.1, by simpa using ih h'.2⟩

theorem protectSeq_all {pr : Char → Bool} (hj : pr joiner = true) :
    ∀ {s : List Char}, s.all pr = true → (protectSeq s).all pr = true := by
  intro s
  induction s using protectSeq.induct with
  | case1 a b c rest hcond ih =>
    intro h
    have h' : pr a = true ∧ pr b = true ∧ pr c = true ∧ rest.all pr = true := by
      simpa only [List.all_cons, Bool.and_eq_true, and_assoc] using h
    have hb : b = '-' := by
      simp only [Bool.and_eq_true, beq_iff_eq] at hcond
      exact hcond.1.2
    simp only [protectSeq, hcond, if_true, List.all_cons, Bool.and_eq_true]
    refine ⟨h'.1, hj, ?_, hj, ?_⟩
    · rw [← hb]; exact h'.2.1
    · exact ih (by simp [List.all_cons, h'.2.2.1, h'.2.2.2])
  | case2 a b c rest hcond ih =>
    intro h
    have h' : pr a = true ∧ (b :: c :: rest).all pr = true := by
      simpa only [List.all_cons, Bool.and_eq_true, and_assoc] using h
    simp only [protectSeq, hcond, Bool.false_eq_true, if_false,
      List.all_cons, Bool.and_eq_true]
    refine ⟨h'.1, ?_⟩
    have := ih h'.2
    simpa only [List.all_cons, Bool.and_eq_true] using this
  | case3 s hs =>
    intro h
    cases s with
    | nil => exact h
    | cons a rest =>
      cases rest with
      | nil => exact h
      | cons b rest2 =>
        cases rest2 with
        | nil => exact h
        | cons c rest3 => exact (hs a b c rest3 rfl).elim

theorem noPair_of_forall {bad : Char → Char → Bool} {l : List Char}
    (h : ∀ a ∈ l, ∀ b ∈ l, bad a b = false) : noPair bad l = true := by
  induction l with
  | nil => rfl
  | cons a rest ih =>
    rw [noPair_cons, Bool.and_eq_true]
    refine ⟨?_, ih (fun x hx b hb =>
      h x (List.mem_cons_of_mem a hx) b (List.mem_cons_of_mem a hb))⟩
    cases hr : rest.head? with
    | none => rfl
    | some b =>
      have hb : b ∈ rest := List.mem_of_mem_head? (hr ▸ rfl)
      simp [h a (List.mem_cons_self ..) b (List.mem_cons_of_mem a hb)]

theorem translate_noPair_EE {s : List Char} (h : noPair twoEllipsis s = true) :
    noPair twoEllipsis (translate s) = true := by
  induction s with
  | nil => rfl
  | cons a rest ih =>
    rw [translate, List.map_cons, noPair_cons, Bool.and_eq_true]
    refine ⟨?_, ih (noPair_tail h)⟩
    rw [← translate]
    cases hr : (translate rest).head? with
    | none => rfl
    | some y =>
      simp only [Option.all_some, Bool.not_eq_true']
      cases hb : twoEllipsis (translateChar a) y with
      | false => rfl
      | true =>
        exfalso
        simp only [twoEllipsis, Bool.and_eq_true, beq_iff_eq] at hb
        have ha : a = '…' := translateChar_ellipsis hb.1
        rw [translate, List.head?_map] at hr
        cases hbr : rest.head? with
        | none => rw [hbr] at hr; simp at hr
        | some b =>
          rw [hbr] at hr
          simp only [Option.map_some', Option.some.injEq] at hr
          have hbe : b = '…' := translateChar_ellipsis (hr ▸ hb.2)
          have := noPair_head h hbr
          rw [ha, hbe] at this
          simp [twoEllipsis] at this

theorem rmsbGo_noPair {p : Char → Bool} {bad : Char → Char → Bool}
    (hcond : ∀ a b, p b = true → bad a b = false) :
    ∀ {t pending : List Char}, noPair bad (pending ++ t) = true →
      noPair bad (rmsbGo p pending t) = true := by
  intro t
  induction t with
  | nil =>
    intro pending h
    rw [rmsbGo]
    exact (noPair_append.mp h).1
  | cons c rest ih =>
    intro pending h
    have hcg : noPair bad (c :: rmsbGo p [] rest) = true := by
      have hrt : noPair bad (c :: rest) = true := (noPair_append.mp h).2.1
      rw [noPair_cons, Bool.and_eq_true]
      have hih : noPair bad ([] ++ rest) = true → noPair bad (rmsbGo p [] rest) = true := ih
      refine ⟨?_, hih (noPair_tail hrt)⟩
      cases hy : (rmsbGo p [] rest).head? with
      | none => rfl
      | some y =>
        simp only [Option.all_some, Bool.not_eq_true']
        rcases rmsbGo_head hy with h1 | h1
        · exact noPair_head hrt (by simpa using h1)
        · exact hcond c y h1
    rw [rmsbGo]
    by_cases hc : Py.isSpace c = true
    · rw [if_pos hc]
      exact ih (by simpa [List.append_assoc] using h)
    · rw [if_neg hc]
      by_cases hp : p c = true
      · rw [if_pos hp]
        exact hcg
      · rw [if_neg hp]
        apply noPair_append.mpr
        refine ⟨(noPair_append.mp h).1, hcg, ?_⟩
        intro a b ha hb
        simp only [List.head?_cons, Option.some.injEq] at hb
        subst hb
        exact (noPair_append.mp h).2.2 a c ha rfl

theorem rmsbGo_establish {p : Char → Bool}
    (hp : ∀ w, Py.isSpace w = true → p w = false) :
    ∀ {t pending : List Char}, pending.all Py.isSpace = true →
      noPair (fun a b => Py.isSpace a && p b) (rmsbGo p pending t) = true := by
  intro t
  induction t with
  | nil =>
    intro pending hall
    rw [rmsbGo]
    apply noPair_of_forall
    intro a ha b hb
    have hw := List.all_eq_true.mp hall b hb
    simp [hp b hw]
  | cons c rest ih =>
    intro pending hall
    rw [rmsbGo]
    by_cases hc : Py.isSpace c = true
    · rw [if_pos hc]
      exact ih (by simp [List.all_append, hall, hc])
    · rw [if_neg hc]
      have hcg : noPair (fun a b => Py.isSpace a && p b) (c :: rmsbGo p [] rest) = true := by
        rw [noPair_cons, Bool.and_eq_true]
        have hih : ([] : List Char).all Py.isSpace = true →
            noPair (fun a b => Py.isSpace a && p b) (rmsbGo p [] rest) = true := ih
        refine ⟨?_, hih rfl⟩
        cases hy : (rmsbGo p [] rest).head? with
        | none => rfl
        | some y => simp [hc]
      by_cases hpc : p c = true
      · rw [if_pos hpc]
        exact hcg
      · rw [if_neg hpc]
        apply noPair_append.mpr
        refine ⟨?_, hcg, ?_⟩
        · apply noPair_of_forall
          intro a ha b hb
          have hw := List.all_eq_true.mp hall b hb
          simp [hp b hw]
        · intro a b ha hb
          simp only [List.head?_cons, Option.some.injEq] at hb
          subst hb
          simp [hpc]

theorem collapseWs_noPair {bad : Char → Char → Bool}
    (hA : ∀ x, bad ' ' x = false) (hB : ∀ a, bad a ' ' = false) :
    ∀ {s : List Char}, noPair bad s = true → noPair bad (collapseWs s) = true := by
  intro s
  induction s with
  | nil => intro h; exact h
  | cons c rest ih =>
    intro h
    cases rest with
    | nil =>
      by_cases hc : Py.isSpace c = true <;> simp [collapseWs, hc, noPair_one]
    | cons d rest2 =>
      have hrec := ih (noPair_tail h)
      have hhd : ∀ y, (collapseWs (d :: rest2)).head? = some y →
          y = ' ' ∨ y = d := by
        intro y hy
        rw [collapseWs_head] at hy
        simp only [List.head?_cons, Option.map_some', Option.some.injEq] at hy
        by_cases hd : Py.isSpace d = true
        · left; rw [← hy]; simp [hd]
        · right; rw [← hy]; simp [hd]
      by_cases hc : Py.isSpace c = true
      · by_cases hd : Py.isSpace d = true
        · simp only [collapseWs, hc, if_true, hd]
          exact hrec
        · simp only [collapseWs, hc, if_true, hd, Bool.false_eq_true, if_false]
          rw [noPair_cons, Bool.and_eq_true]
          refine ⟨?_, hrec⟩
          cases hy : (collapseWs (d :: rest2)).head? with
          | none => rfl
          | some y => simp [hA y]
      · simp only [collapseWs, hc, Bool.false_eq_true, if_false]
        rw [noPair_cons, Bool.and_eq_true]
        refine ⟨?_, hrec⟩
        cases hy : (collapseWs (d :: rest2)).head? with
        | none => rfl
        | some y =>
          simp only [Option.all_some, Bool.not_eq_true']
          rcases hhd y hy with h1 | h1
          · rw [h1]; exact hB c
          · rw [h1]; exact noPair_pair h

theorem collapseWs_noPair_wsPunct :
    ∀ {s : List Char}, noPair wsPunct s = true →
      noPair wsPunct (collapseWs s) = true := by
  intro s
  induction s with
  | nil => intro h; exact h
  | cons c rest ih =>
    intro h
    cases rest with
    | nil =>
      by_cases hc : Py.isSpace c = true <;> simp [collapseWs, hc, noPair_one]
    | cons d rest2 =>
      have hrec := ih (noPair_tail h)
      by_cases hc : Py.isSpace c = true
      · by_cases hd : Py.isSpace d = true
        · simp only [collapseWs, hc, if_true, hd]
          exact hrec
        · simp only [collapseWs, hc, if_true, hd, Bool.false_eq_true, if_false]
          rw [noPair_cons, Bool.and_eq_true]
          refine ⟨?_, hrec⟩
          cases hy : (collapseWs (d :: rest2)).head? with
          | none => rfl
          | some y =>
            rw [collapseWs_head] at hy
            simp only [List.head?_cons, Option.map_some', Option.some.injEq, hd,
              Bool.false_eq_true, if_false] at hy
            subst hy
            have horig := noPair_pair h
            simp only [wsPunct, hc, Bool.true_and] at horig
            simp [wsPunct, horig]
      · simp only [collapseWs, hc, Bool.false_eq_true, if_false]
        rw [noPair_cons, Bool.and_eq_true]
        refine ⟨?_, hrec⟩
        cases hy : (collapseWs (d :: rest2)).head? with
        | none => rfl
        | some y => simp [wsPunct, hc]

theorem collapseWs_plain (s : List Char) : (collapseWs s).all plainChar = true := by
  induction s with
  | nil => rfl
  | cons c rest ih =>
    cases rest with
    | nil =>
      by_cases hc : Py.isSpace c = true <;> simp [collapseWs, hc, plainChar]
    | cons d rest2 =>
      by_cases hc : Py.isSpace c = true
      · by_cases hd : Py.isSpace d = true
        · simpa only [collapseWs, hc, if_true, hd] using ih
        · simp only [collapseWs, hc, if_true, hd, Bool.false_eq_true, if_false,
            List.all_cons, Bool.and_eq_true]
          exact ⟨by simp [plainChar], ih⟩
      · simp only [collapseWs, hc, Bool.false_eq_true, if_false,
          List.all_cons, Bool.and_eq_true]
        exact ⟨by simp [plainChar, hc], ih⟩

theorem collapseWs_twoWs (s : List Char) :
    noPair twoWs (collapseWs s) = true := by
  induction s with
  | nil => rfl
  | cons c rest ih =>
    cases rest with
    | nil =>
      by_cases hc : Py.isSpace c = true <;> simp [collapseWs, hc, noPair_one]
    | cons d rest2 =>
      by_cases hc : Py.isSpace c = true
      · by_cases hd : Py.isSpace d = true
        · simpa only [collapseWs, hc, if_true, hd] using ih
        · simp only [collapseWs, hc, if_true, hd, Bool.false_eq_true, if_false]
          rw [noPair_cons, Bool.and_eq_true]
          refine ⟨?_, ih⟩
          cases hy : (collapseWs (d :: rest2)).head? with
          | none => rfl
          | some y =>
            rw [collapseWs_head] at hy
            simp only [List.head?_cons, Option.map_some', Option.some.injEq, hd,
              Bool.false_eq_true, if_false] at hy
            subst hy
            simp [twoWs, hd]
      · simp only [collapseWs, hc, Bool.false_eq_true, if_false]
        rw [noPair_cons, Bool.and_eq_true]
        refine ⟨?_, ih⟩
        cases hy : (collapseWs (d :: rest2)).head? with
        | none => rfl
        | some y => simp [twoWs, hc]

theorem replaceEllipsis_EE (s : List Char) :
    noPair twoEllipsis (replaceEllipsis s) = true := by
  induction s using replaceEllipsis.induct with
  | case1 rest ih =>
    rw [replaceEllipsis]
    refine noPair_two (by decide) (noPair_two (by decide) ?_)
    rw [noPair_cons, Bool.and_eq_true]
    refine ⟨?_, ih⟩
    cases hy : (replaceEllipsis rest).head? with
    | none => rfl
    | some y => simp [twoEllipsis]
  | case2 c rest hne ih =>
    have heq : replaceEllipsis (c :: rest) = c :: replaceEllipsis rest := by
      rw [replaceEllipsis.eq_def]
      split
      next rest1 heq2 =>
        obtain ⟨hc, hr⟩ := List.cons.injEq .. |>.mp heq2
        exact (hne rest1 hc hr).elim
      next c2 rest2 hne2 heq2 =>
        obtain ⟨hc, hr⟩ := List.cons.injEq .. |>.mp heq2
        subst hc; subst hr
        rfl
      next heq2 => simp at heq2
    rw [heq, noPair_cons, Bool.and_eq_true]
    refine ⟨?_, ih⟩
    cases hy : (replaceEllipsis rest).head? with
    | none => rfl
    | some y =>
      simp only [Option.all_some, Bool.not_eq_true']
      cases hb : twoEllipsis c y with
      | false => rfl
      | true =>
        exfalso
        simp only [twoEllipsis, Bool.and_eq_true, beq_iff_eq] at hb
        rcases replaceEllipsis_head hy with h1 | h1
        · rw [h1] at hb
          exact absurd hb.2 (by decide)
        · cases rest with
          | nil => simp at h1
          | cons r rest2 =>
            simp only [List.head?_cons, Option.some.injEq] at h1
            exact hne rest2 hb.1 (by rw [h1, hb.2])
  | case3 => rfl

theorem ensureSpacingA_noPair {bad : Char → Char → Bool}
    (h1 : ∀ c, isPunctA c = true → bad c ' ' = false)
    (h2 : ∀ d, excludedAfter d = false → bad ' ' d = false) :
    ∀ {s : List Char}, noPair bad s = true →
      noPair bad (ensureSpacingA s) = true := by
  intro s
  induction s with
  | nil => intro h; exact h
  | cons c rest ih =>
    intro h
    cases rest with
    | nil => exact h
    | cons d rest2 =>
      have hrec := ih (noPair_tail h)
      have hhd : (ensureSpacingA (d :: rest2)).head? = some d := by
        rw [ensureSpacingA_head]; rfl
      by_cases hcd : (isPunctA c && !excludedAfter d) = true
      · have hca : isPunctA c = true := by
          simp only [Bool.and_eq_true] at hcd; exact hcd.1
        have hde : excludedAfter d = false := by
          simp only [Bool.and_eq_true, Bool.not_eq_true'] at hcd; exact hcd.2
        simp only [ensureSpacingA, hcd, if_true]
        refine noPair_two (h1 c hca) ?_
        rw [noPair_cons, Bool.and_eq_true]
        refine ⟨?_, hrec⟩
        rw [hhd]
        simp [h2 d hde]
      · simp only [ensureSpacingA, hcd, Bool.false_eq_true, if_false]
        rw [noPair_cons, Bool.and_eq_true]
        refine ⟨?_, hrec⟩
        rw [hhd]
        simp [noPair_pair h]

theorem ensureSpacingDot_noPair {bad : Char → Char → Bool}
    (h1 : bad '.' ' ' = false)
    (h2 : ∀ d, excludedAfter d = false → bad ' ' d = false) :
    ∀ {s : List Char}, noPair bad s = true →
      noPair bad (ensureSpacingDot s) = true := by
  intro s
  induction s with
  | nil => intro h; exact h
  | cons c rest ih =>
    intro h
    cases rest with
    | nil => exact h
    | cons d rest2 =>
      have hrec := ih (noPair_tail h)
      have hhd : (ensureSpacingDot (d :: rest2)).head? = some d := by
        rw [ensureSpacingDot_head]; rfl
      by_cases hcd : (c == '.' && !excludedAfter d) = true
      · have hca : c = '.' := by
          simp only [Bool.and_eq_true, beq_iff_eq] at hcd; exact hcd.1
        have hde : excludedAfter d = false := by
          simp only [Bool.and_eq_true, Bool.not_eq_true'] at hcd; exact hcd.2
        simp only [ensureSpacingDot, hcd, if_true]
        refine noPair_two (by rw [hca]; exact h1) ?_
        rw [noPair_cons, Bool.and_eq_true]
        refine ⟨?_, hrec⟩
        rw [hhd]
        simp [h2 d hde]
      · simp only [ensureSpacingDot, hcd, Bool.false_eq_true, if_false]
        rw [noPair_cons, Bool.and_eq_true]
        refine ⟨?_, hrec⟩
        rw [hhd]
        simp [noPair_pair h]

theorem ensureSpacingA_TA (s : List Char) :
    noPair punctATight (ensureSpacingA s) = true := by
  induction s with
  | nil => rfl
  | cons c rest ih =>
    cases rest with
    | nil => exact noPair_one
    | cons d rest2 =>
      have hhd : (ensureSpacingA (d :: rest2)).head? = some d := by
        rw [ensureSpacingA_head]; rfl
      by_cases hcd : (isPunctA c && !excludedAfter d) = true
      · simp only [ensureSpacingA, hcd, if_true]
        refine noPair_two ?_ ?_
        · have hsp : excludedAfter ' ' = true := by decide
          simp [punctATight, hsp]
        rw [noPair_cons, Bool.and_eq_true]
        refine ⟨?_, ih⟩
        rw [hhd]
        simp [punctATight, isPunctA]
      · simp only [ensureSpacingA, hcd, Bool.false_eq_true, if_false]
        rw [noPair_cons, Bool.and_eq_true]
        refine ⟨?_, ih⟩
        rw [hhd]
        simp only [Option.all_some, Bool.not_eq_true']
        simpa [punctATight] using hcd

theorem ensureSpacingA_CS (s : List Char) :
    noPair colonSlash (ensureSpacingA s) = true := by
  induction s with
  | nil => rfl
  | cons c rest ih =>
    cases rest with
    | nil => exact noPair_one
    | cons d rest2 =>
      have hhd : (ensureSpacingA (d :: rest2)).head? = some d := by
        rw [ensureSpacingA_head]; rfl
      by_cases hcd : (isPunctA c && !excludedAfter d) = true
      · simp only [ensureSpacingA, hcd, if_true]
        refine noPair_two (by simp [colonSlash]) ?_
        rw [noPair_cons, Bool.and_eq_true]
        refine ⟨?_, ih⟩
        rw [hhd]
        simp [colonSlash]
      · simp only [ensureSpacingA, hcd, Bool.false_eq_true, if_false]
        rw [noPair_cons, Bool.and_eq_true]
        refine ⟨?_, ih⟩
        rw [hhd]
        simp only [Option.all_some, Bool.not_eq_true']
        cases hcs : colonSlash c d with
        | false => rfl
        | true =>
          exfalso
          simp only [colonSlash, Bool.and_eq_true, beq_iff_eq] at hcs
          rw [hcs.1, hcs.2] at hcd
          exact hcd (by decide)

theorem ensureSpacingDot_TD (s : List Char) :
    noPair dotTight (ensureSpacingDot s) = true := by
  induction s with
  | nil => rfl
  | cons c rest ih =>
    cases rest with
    | nil => exact noPair_one
    | cons d rest2 =>
      have hhd : (ensureSpacingDot (d :: rest2)).head? = some d := by
        rw [ensureSpacingDot_head]; rfl
      by_cases hcd : (c == '.' && !excludedAfter d) = true
      · simp only [ensureSpacingDot, hcd, if_true]
        refine noPair_two ?_ ?_
        · have hsp : excludedAfter ' ' = true := by decide
          simp [dotTight, hsp]
        rw [noPair_cons, Bool.and_eq_true]
        refine ⟨?_, ih⟩
        rw [hhd]
        simp [dotTight]
      · simp only [ensureSpacingDot, hcd, Bool.false_eq_true, if_false]
        rw [noPair_cons, Bool.and_eq_true]
        refine ⟨?_, ih⟩
        rw [hhd]
        simp only [Option.all_some, Bool.not_eq_true']
        simpa [dotTight] using hcd

theorem protectSeq_noPair {bad : Char → Char → Bool}
    (hdj : ∀ a, Py.isDigit a = true → bad a joiner = false)
    (hjd : ∀ b, Py.isDigit b = true → bad joiner b = false)
    (hjm : bad joiner '-' = false) (hmj : bad '-' joiner = false) :
    ∀ {s : List Char}, noPair bad s = true →
      noPair bad (protectSeq s) = true := by
  intro s
  induction s using protectSeq.induct with
  | case1 a b c rest hcond ih =>
    intro h
    have hda : Py.isDigit a = true := by
      simp only [Bool.and_eq_true] at hcond; exact hcond.1.1
    have hdc : Py.isDigit c = true := by
      simp only [Bool.and_eq_true] at hcond; exact hcond.2
    simp only [protectSeq, hcond, if_true]
    refine noPair_two (hdj a hda) (noPair_two hjm (noPair_two hmj ?_))
    rw [noPair_cons, Bool.and_eq_true]
    refine ⟨?_, ih (noPair_tail (noPair_tail h))⟩
    rw [protectSeq_head]
    simp only [List.head?_cons, Option.all_some, Bool.not_eq_true']
    exact hjd c hdc
  | case2 a b c rest hcond ih =>
    intro h
    simp only [protectSeq, hcond, Bool.false_eq_true, if_false]
    rw [noPair_cons, Bool.and_eq_true]
    refine ⟨?_, ih (noPair_tail h)⟩
    rw [protectSeq_head]
    simp only [List.head?_cons, Option.all_some, Bool.not_eq_true']
    exact noPair_pair h
  | case3 s hs =>
    intro h
    cases s with
    | nil => exact h
    | cons a rest =>
      cases rest with
      | nil => exact h
      | cons b rest2 =>
        cases rest2 with
        | nil => exact h
        | cons c rest3 => exact (hs a b c rest3 rfl).elim

theorem protectSeq_DHD (s : List Char) : noDHD (protectSeq s) = true := by
  induction s using protectSeq.induct with
  | case1 a b c rest hcond ih =>
    simp only [protectSeq, hcond, if_true]
    apply noDHD_cons_of
    · intro y z hy hz
      simp only [List.head?_cons, List.tail_cons, Option.some.injEq] at hy hz
      subst hy; subst hz
      have hj : (joiner == '-') = false := by decide
      simp [ok3, hj]
    apply noDHD_cons_of
    · intro y z hy hz
      simp only [List.head?_cons, List.tail_cons, Option.some.injEq] at hy hz
      subst hy; subst hz
      decide
    apply noDHD_cons_of
    · intro y z hy hz
      simp only [List.head?_cons, List.tail_cons, Option.some.injEq] at hy
      subst hy
      have hd : Py.isDigit '-' = false := by decide
      simp [ok3, hd]
    apply noDHD_cons_of
    · intro y z hy hz
      have hd : Py.isDigit joiner = false := by decide
      simp [ok3, hd]
    exact ih
  | case2 a b c rest hcond ih =>
    simp only [protectSeq, hcond, Bool.false_eq_true, if_false]
    apply noDHD_cons_of _ ih
    intro y z hy hz
    rw [protectSeq_head] at hy
    simp only [List.head?_cons, Option.some.injEq] at hy
    subst hy
    rcases protectSeq_second (b :: c :: rest) with h2 | h2
    · rw [hz] at h2
      simp only [List.tail_cons, List.head?_cons] at h2
      have hz2 : z = c := by simpa using h2
      have hc2 : (Py.isDigit a && b == '-' && Py.isDigit c) = false :=
        Bool.eq_false_iff.mpr hcond
      rw [hz2]
      simp [ok3, hc2]
    · rw [hz] at h2
      have hz2 : z = joiner := by simpa using h2
      subst hz2
      have hd : Py.isDigit joiner = false := by decide
      simp [ok3, hd]
  | case3 s hs =>
    cases s with
    | nil => rfl
    | cons a rest =>
      cases rest with
      | nil => exact noDHD_one
      | cons b rest2 =>
        cases rest2 with
        | nil => exact noDHD_two
        | cons c rest3 => exact (hs a b c rest3 rfl).elim

theorem dropWhile_head_not {p : Char → Bool} {l : List Char} :
    (l.dropWhile p).head?.all (fun c => !p c) = true := by
  induction l with
  | nil => rfl
  | cons a rest ih =>
    rw [List.dropWhile_cons]
    by_cases ha : p a = true
    · simp only [ha, if_true]
      exact ih
    · simp [ha]

theorem prefix_head {l1 l2 : List Char} {x : Char}
    (hp : List.IsPrefix l1 l2) (h : l1.head? = some x) : l2.head? = some x := by
  obtain ⟨t, rfl⟩ := hp
  cases l1 with
  | nil => simp at h
  | cons a r => simpa using h

theorem strip_prefix_dropWhile (s : List Char) :
    List.IsPrefix (Py.strip s) (s.dropWhile Py.isSpace) := by
  unfold Py.strip
  rw [← List.reverse_reverse (s.dropWhile Py.isSpace)]
  apply List.reverse_prefix.mpr
  rw [List.reverse_reverse]
  exact List.dropWhile_suffix _

theorem strip_within (s : List Char) : List.IsInfix (Py.strip s) s := by
  have h1 := strip_prefix_dropWhile s
  have h2 : List.IsSuffix (s.dropWhile Py.isSpace) s := List.dropWhile_suffix _
  exact h1.isInfix.trans h2.isInfix

theorem strip_head (s : List Char) :
    (Py.strip s).head?.all (fun c => !Py.isSpace c) = true := by
  cases h : (Py.strip s).head? with
  | none => rfl
  | some x =>
    have h2 := prefix_head (strip_prefix_dropWhile s) h
    have h3 : (s.dropWhile Py.isSpace).head?.all (fun c => !Py.isSpace c) = true :=
      dropWhile_head_not
    rw [h2] at h3
    simpa using h3

theorem strip_last (s : List Char) :
    (Py.strip s).getLast?.all (fun c => !Py.isSpace c) = true := by
  unfold Py.strip
  rw [List.getLast?_reverse]
  exact dropWhile_head_not

theorem noDHD_snoc {s : List Char} {c : Char} (hc : Py.isDigit c = false)
    (h : noDHD s = true) : noDHD (s ++ [c]) = true := by
  induction s with
  | nil => rfl
  | cons a rest ih =>
    rw [List.cons_append]
    apply noDHD_cons_of _ (ih (noDHD_tail h))
    intro y z hy hz
    cases rest with
    | nil =>
      simp only [List.nil_append, List.head?_cons, Option.some.injEq] at hy
      simp at hz
    | cons b rest2 =>
      simp only [List.cons_append, List.head?_cons, Option.some.injEq] at hy
      subst hy
      cases rest2 with
      | nil =>
        simp only [List.cons_append, List.tail_cons, List.nil_append,
          List.head?_cons, Option.some.injEq] at hz
        subst hz
        simp [ok3, hc]
      | cons d rest3 =>
        simp only [List.cons_append, List.tail_cons, List.head?_cons,
          Option.some.injEq] at hz
        subst hz
        exact noDHD_window h

theorem sanitized_fixed {s : List Char} (h : Sanitized s = true) :
    sanitize s = s := by
  by_cases hs : s = []
  · subst hs; simp [sanitize]
  · have hLE : s.getLast?.all (fun c => c == '.') = true := by
      rw [Sanitized] at h
      simp only [Bool.and_eq_true] at h
      exact h.1.1.1.1.1.1.1.1.1.2
    have hdot : s.getLast? = some '.' := by
      cases hgl : s.getLast? with
      | none => exact absurd (List.getLast?_eq_none_iff.mp hgl) hs
      | some c =>
        rw [hgl] at hLE
        have hc : c = '.' := by simpa using hLE
        rw [hc]
    unfold sanitize
    rw [sanitizeCore_id h]
    rw [if_neg (by simp [hs]), if_neg (by simp [hs]), if_pos hdot]

end Sanitize

/-- C6: on 1..99 the e1 pair of converters round-trips. -/
theorem c6_roundtrip_bounded (n : Nat) (h1 : 1 ≤ n) (h2 : n ≤ 99) :
    E1.chineseToArabic (E1.arabicToChinese n) = n := by
  have hall : ∀ m ∈ Finset.Icc 1 99, E1.chineseToArabic (E1.arabicToChinese m) = m := by decide
  exact hall n (Finset.mem_Icc.mpr ⟨h1, h2⟩)

/-- Witness for C6 at a concrete input. -/
theorem c6_roundtrip_bounded_witness :
    E1.chineseToArabic (E1.arabicToChinese 47) = 47 :=
  c6_roundtrip_bounded 47 (by decide) (by decide)

/-- C8 counterexample: the claim says every unrecognized token converts to 1,
but the e1 converter returns 0 on the unrecognized token "x", and the e5
converter returns 0 (not 1) on the unrecognized token "a十b". -/
theorem c8_counterexample :
    E1.chineseToArabic "x".data = 0 ∧ E5.chineseToArabic "a十b".data = 0 := by
  constructor <;> decide

/-- C8 amended: over the modelled alphabet, the e5 converter defaults to 1
exactly for unrecognized tokens that do not contain '十', while the e1
converter defaults to 0 for every token outside its table that does not
contain '十'. -/
theorem c8_amended_defaults :
    (∀ s : List Char, (∀ c ∈ s, ModelAlphabet c) →
      Py.isDigitString s = false →
      ¬ (s.length = 1 ∧ (E5.chineseMap.lookup (s.headD ' ')).isSome) →
      s.contains '十' = false →
      E5.chineseToArabic s = 1) ∧
    (∀ s : List Char, E1.chineseNumbers.lookup s = none →
      s.contains '十' = false →
      E1.chineseToArabic s = 0) := by
  constructor
  · intro s _ hdig hmap hten
    have hten' : ¬ '十' ∈ s := by simpa using hten
    unfold E5.chineseToArabic
    rw [if_neg (by simp [hdig]), if_neg hmap, if_neg (by simpa using hten')]
  · intro s hlook hten
    have hten' : ¬ '十' ∈ s := by simpa using hten
    have h1 : ¬ (s.take 1 = ['十'] ∧ s.length = 2) := by
      rintro ⟨h, -⟩
      apply hten'
      cases s with
      | nil => simp [List.take] at h
      | cons a t => simp [List.take] at h; simp [h]
    have h2 : ¬ s.getLast? = some '十' := by
      intro h
      have hmem : '十' ∈ s.getLast? := by rw [h]; rfl
      obtain ⟨hne, heq⟩ := List.mem_getLast?_eq_getLast hmem
      exact hten' (heq ▸ List.getLast_mem hne)
    have h3 : ¬ (s.contains '十' ∧ s.length = 3) := by
      rintro ⟨h, -⟩; rw [hten] at h; exact Bool.false_ne_true h
    unfold E1.chineseToArabic
    rw [hlook]
    simp only [h1, h2, h3, if_false]

/-- Witness for the C8 amended theorem at concrete inputs. -/
theorem c8_amended_defaults_witness :
    E5.chineseToArabic "xy".data = 1 ∧ E1.chineseToArabic "xy".data = 0 :=
  ⟨c8_amended_defaults.1 "xy".data (by decide) (by decide) (by decide) (by decide),
   c8_amended_defaults.2 "xy".data (by decide) (by decide)⟩

/-! The sanitizer's output always satisfies `Sanitized`. -/

namespace Sanitize

theorem all_infix {pr : Char → Bool} {s t : List Char} (h : t <:+: s)
    (ha : s.all pr = true) : t.all pr = true := by
  rw [List.all_eq_true] at ha ⊢
  intro y hy
  exact ha y (h.sublist.subset hy)

theorem sanitizeCore_good (x : List Char) :
    (sanitizeCore x).head?.all (fun c => !Py.isSpace c) = true ∧
    (sanitizeCore x).getLast?.all (fun c => !Py.isSpace c) = true ∧
    (sanitizeCore x).all fixedChar = true ∧
    (sanitizeCore x).all plainChar = true ∧
    noPair twoWs (sanitizeCore x) = true ∧
    noPair wsPunct (sanitizeCore x) = true ∧
    noPair colonSlash (sanitizeCore x) = true ∧
    noPair twoEllipsis (sanitizeCore x) = true ∧
    noPair punctATight (sanitizeCore x) = true ∧
    noPair dotTight (sanitizeCore x) = true ∧
    noDHD (sanitizeCore x) = true := by
  have hsp : excludedAfter ' ' = true := by decide
  have hjNotSpace : Py.isSpace joiner = false := by decide
  have hjNotPunctB : isPunctB joiner = false := by decide
  have hjNotPunctA : isPunctA joiner = false := by decide
  have hEEsp1 : ∀ y, twoEllipsis ' ' y = false := by
    intro y
    have h0 : (' ' == '…') = false := by decide
    simp [twoEllipsis, h0]
  have hEEsp2 : ∀ a, twoEllipsis a ' ' = false := by
    intro a
    have h0 : (' ' == '…') = false := by decide
    simp [twoEllipsis, h0]
  have hCSsp1 : ∀ y, colonSlash ' ' y = false := by
    intro y
    have h0 : (' ' == ':') = false := by decide
    simp [colonSlash, h0]
  have hCSsp2 : ∀ a, colonSlash a ' ' = false := by
    intro a
    have h0 : (' ' == '/') = false := by decide
    simp [colonSlash, h0]
  have hTAsp1 : ∀ y, punctATight ' ' y = false := by
    intro y
    have h0 : isPunctA ' ' = false := by decide
    simp [punctATight, h0]
  have hTAsp2 : ∀ a, punctATight a ' ' = false := by
    intro a
    simp [punctATight, hsp]
  have hTDsp1 : ∀ y, dotTight ' ' y = false := by
    intro y
    have h0 : (' ' == '.') = false := by decide
    simp [dotTight, h0]
  have hTDsp2 : ∀ a, dotTight a ' ' = false := by
    intro a
    simp [dotTight, hsp]
  have hWPsp2 : ∀ a, wsPunct a ' ' = false := by
    intro a
    have h0 : isPunctB ' ' = false := by decide
    simp [wsPunct, h0]
  have hWPens2 : ∀ d, excludedAfter d = false → wsPunct ' ' d = false := by
    intro d hd
    have hpb : isPunctB d = false := by
      cases hx2 : isPunctB d with
      | false => rfl
      | true =>
        rw [excludedAfter, hx2, Bool.or_true] at hd
        exact absurd hd (by simp)
    simp [wsPunct, hpb]
  set s2 := removeUrls (Py.strip x) with hs2
  set s3 := replaceEllipsis s2 with hs3
  set s4 := translate s3 with hs4
  set s5 := rmSpaceBefore isPunctB s4 with hs5
  set s6 := collapseWs s5 with hs6
  set s7 := ensureSpacingA s6 with hs7
  set s8 := ensureSpacingDot s7 with hs8
  set s9 := collapseWs s8 with hs9
  set s10 := protectSeq s9 with hs10
  set s11 := Py.strip s10 with hs11
  have EE3 : noPair twoEllipsis s3 = true := by
    rw [hs3]; exact replaceEllipsis_EE s2
  have EE4 : noPair twoEllipsis s4 = true := by
    rw [hs4]; exact translate_noPair_EE EE3
  have hEEpb : ∀ a b, isPunctB b = true → twoEllipsis a b = false := by
    intro a b hb
    cases hbe : (b == '…') with
    | false => simp [twoEllipsis, hbe]
    | true =>
      have hb2 : b = '…' := by simpa using hbe
      subst hb2
      exact absurd hb (by decide)
  have EE5 : noPair twoEllipsis s5 = true := by
    rw [hs5]
    unfold rmSpaceBefore
    exact rmsbGo_noPair hEEpb (by simpa using EE4)
  have EE6 : noPair twoEllipsis s6 = true := by
    rw [hs6]; exact collapseWs_noPair hEEsp1 hEEsp2 EE5
  have EE7 : noPair twoEllipsis s7 = true := by
    rw [hs7]
    exact ensureSpacingA_noPair (fun c _ => hEEsp2 c) (fun d _ => hEEsp1 d) EE6
  have EE8 : noPair twoEllipsis s8 = true := by
    rw [hs8]
    exact ensureSpacingDot_noPair (hEEsp2 '.') (fun d _ => hEEsp1 d) EE7
  have EE9 : noPair twoEllipsis s9 = true := by
    rw [hs9]; exact collapseWs_noPair hEEsp1 hEEsp2 EE8
  have EE10 : noPair twoEllipsis s10 = true := by
    rw [hs10]
    refine protectSeq_noPair ?_ ?_ (by decide) (by decide) EE9
    · intro a _
      have h0 : (joiner == '…') = false := by decide
      simp [twoEllipsis, h0]
    · intro b _
      have h0 : (joiner == '…') = false := by decide
      simp [twoEllipsis, h0]
  have EE11 : noPair twoEllipsis s11 = true := by
    rw [hs11]; exact noPair_infix (strip_within s10) EE10
  have F4 : s4.all fixedChar = true := by
    rw [hs4]; exact translate_all_fixed s3
  have F5 : s5.all fixedChar = true := by
    rw [hs5]
    unfold rmSpaceBefore
    rw [List.all_eq_true]
    intro y hy
    exact List.all_eq_true.mp F4 y (by simpa using rmsbGo_sublist.subset hy)
  have hFsp : fixedChar ' ' = true := by decide
  have F6 : s6.all fixedChar = true := by rw [hs6]; exact collapseWs_all hFsp F5
  have F7 : s7.all fixedChar = true := by rw [hs7]; exact ensureSpacingA_all hFsp F6
  have F8 : s8.all fixedChar = true := by rw [hs8]; exact ensureSpacingDot_all hFsp F7
  have F9 : s9.all fixedChar = true := by rw [hs9]; exact collapseWs_all hFsp F8
  have F10 : s10.all fixedChar = true := by
    rw [hs10]; exact protectSeq_all (by decide) F9
  have F11 : s11.all fixedChar = true := by
    rw [hs11]; exact all_infix (strip_within s10) F10
  have hwsp : ∀ w, Py.isSpace w = true → isPunctB w = false := by
    intro w hw
    cases hp : isPunctB w with
    | false => rfl
    | true => rw [punctB_not_space hp] at hw; exact absurd hw (by simp)
  have hest : noPair (fun a b => Py.isSpace a && isPunctB b)
      (rmsbGo isPunctB [] s4) = true :=
    rmsbGo_establish hwsp rfl
  have WP5 : noPair wsPunct s5 = true := by
    rw [hs5]
    unfold rmSpaceBefore
    exact noPair_mono (fun a b h => h) hest
  have WP6 : noPair wsPunct s6 = true := by
    rw [hs6]; exact collapseWs_noPair_wsPunct WP5
  have WP7 : noPair wsPunct s7 = true := by
    rw [hs7]
    exact ensureSpacingA_noPair (fun c _ => hWPsp2 c) hWPens2 WP6
  have WP8 : noPair wsPunct s8 = true := by
    rw [hs8]
    exact ensureSpacingDot_noPair (hWPsp2 '.') hWPens2 WP7
  have WP9 : noPair wsPunct s9 = true := by
    rw [hs9]; exact collapseWs_noPair_wsPunct WP8
  have WP10 : noPair wsPunct s10 = true := by
    rw [hs10]
    refine protectSeq_noPair ?_ ?_ (by decide) (by decide) WP9
    · intro a _
      simp [wsPunct, hjNotPunctB]
    · intro b _
      simp [wsPunct, hjNotSpace]
  have WP11 : noPair wsPunct s11 = true := by
    rw [hs11]; exact noPair_infix (strip_within s10) WP10
  have CS7 : noPair colonSlash s7 = true := by
    rw [hs7]; exact ensureSpacingA_CS s6
  have CS8 : noPair colonSlash s8 = true := by
    rw [hs8]
    exact ensureSpacingDot_noPair (hCSsp2 '.') (fun d _ => hCSsp1 d) CS7
  have CS9 : noPair colonSlash s9 = true := by
    rw [hs9]; exact collapseWs_noPair hCSsp1 hCSsp2 CS8
  have CS10 : noPair colonSlash s10 = true := by
    rw [hs10]
    refine protectSeq_noPair ?_ ?_ (by decide) (by decide) CS9
    · intro a _
      have h0 : (joiner == '/') = false := by decide
      simp [colonSlash, h0]
    · intro b _
      have h0 : (joiner == ':') = false := by decide
      simp [colonSlash, h0]
  have CS11 : noPair colonSlash s11 = true := by
    rw [hs11]; exact noPair_infix (strip_within s10) CS10
  have TA7 : noPair punctATight s7 = true := by
    rw [hs7]; exact ensureSpacingA_TA s6
  have TA8 : noPair punctATight s8 = true := by
    rw [hs8]
    exact ensureSpacingDot_noPair (by decide) (fun d _ => hTAsp1 d) TA7
  have TA9 : noPair punctATight s9 = true := by
    rw [hs9]; exact collapseWs_noPair hTAsp1 hTAsp2 TA8
  have TA10 : noPair punctATight s10 = true := by
    rw [hs10]
    refine protectSeq_noPair ?_ ?_ (by decide) (by decide) TA9
    · intro a ha
      simp [punctATight, digit_not_punctA ha]
    · intro b _
      simp [punctATight, hjNotPunctA]
  have TA11 : noPair punctATight s11 = true := by
    rw [hs11]; exact noPair_infix (strip_within s10) TA10
  have TD8 : noPair dotTight s8 = true := by
    rw [hs8]; exact ensureSpacingDot_TD s7
  have TD9 : noPair dotTight s9 = true := by
    rw [hs9]; exact collapseWs_noPair hTDsp1 hTDsp2 TD8
  have TD10 : noPair dotTight s10 = true := by
    rw [hs10]
    refine protectSeq_noPair ?_ ?_ (by decide) (by decide) TD9
    · intro a ha
      have hne : (a == '.') = false := by
        cases hbe : (a == '.') with
        | false => rfl
        | true => exact absurd (by simpa using hbe) (digit_ne_chars ha).2.1
      simp [dotTight, hne]
    · intro b _
      have h0 : (joiner == '.') = false := by decide
      simp [dotTight, h0]
  have TD11 : noPair dotTight s11 = true := by
    rw [hs11]; exact noPair_infix (strip_within s10) TD10
  have WW9 : noPair twoWs s9 = true := by rw [hs9]; exact collapseWs_twoWs s8
  have Pl9 : s9.all plainChar = true := by rw [hs9]; exact collapseWs_plain s8
  have WW10 : noPair twoWs s10 = true := by
    rw [hs10]
    refine protectSeq_noPair ?_ ?_ (by decide) (by decide) WW9
    · intro a _
      simp [twoWs, hjNotSpace]
    · intro b _
      simp [twoWs, hjNotSpace]
  have Pl10 : s10.all plainChar = true := by
    rw [hs10]; exact protectSeq_all (by decide) Pl9
  have WW11 : noPair twoWs s11 = true := by
    rw [hs11]; exact noPair_infix (strip_within s10) WW10
  have Pl11 : s11.all plainChar = true := by
    rw [hs11]; exact all_infix (strip_within s10) Pl10
  have DHD10 : noDHD s10 = true := by rw [hs10]; exact protectSeq_DHD s9
  have DHD11 : noDHD s11 = true := by
    rw [hs11]; exact noDHD_infix (strip_within s10) DHD10
  have HE11 : s11.head?.all (fun c => !Py.isSpace c) = true := by
    rw [hs11]; exact strip_head s10
  have LS11 : s11.getLast?.all (fun c => !Py.isSpace c) = true := by
    rw [hs11]; exact strip_last s10
  have hcore : sanitizeCore x = s11 := by
    have hrm : rmSpaceBefore (· == '.') s11 = s11 := by
      apply rmSpaceBefore_id
      refine noPair_mono ?_ WP11
      intro a b hb
      simp only [Bool.and_eq_true, beq_iff_eq] at hb
      obtain ⟨h1, h2⟩ := hb
      subst h2
      simp only [wsPunct]
      rw [h1]
      decide
    have hunf : sanitizeCore x = rmSpaceBefore (· == '.') s11 := by
      rw [hs11, hs10, hs9, hs8, hs7, hs6, hs5, hs4, hs3, hs2]
      rfl
    rw [hunf, hrm]
  rw [hcore]
  exact ⟨HE11, LS11, F11, Pl11, WW11, WP11, CS11, EE11, TA11, TD11, DHD11⟩

theorem sanitize_sanitized (x : List Char) : Sanitized (sanitize x) = true := by
  by_cases hx : x.isEmpty = true
  · rw [sanitize, if_pos hx]; rfl
  · rw [sanitize, if_neg hx]
    obtain ⟨HE, LNS, F, Pl, WW, WP, CS, EE, TA, TD, DHD⟩ := sanitizeCore_good x
    by_cases h0 : (sanitizeCore x).isEmpty = true
    · rw [if_pos h0]
      have hnil : sanitizeCore x = [] := by
        cases hc : sanitizeCore x with
        | nil => rfl
        | cons a t => rw [hc] at h0; exact absurd h0 (by simp)
      rw [hnil]
      rfl
    · rw [if_neg h0]
      have hne : sanitizeCore x ≠ [] := by
        intro h
        rw [h] at h0
        exact h0 rfl
      by_cases hdot : (sanitizeCore x).getLast? = some '.'
      · rw [if_pos hdot]
        rw [Sanitized]
        simp only [Bool.and_eq_true]
        refine ⟨⟨⟨⟨⟨⟨⟨⟨⟨⟨HE, ?_⟩, F⟩, Pl⟩, WW⟩, WP⟩, CS⟩, EE⟩, TA⟩, TD⟩, DHD⟩
        rw [hdot]
        rfl
      · rw [if_neg hdot]
        have hH : (sanitizeCore x ++ ['.']).head? = (sanitizeCore x).head? := by
          cases hc : sanitizeCore x with
          | nil => exact absurd hc hne
          | cons a t => rfl
        rw [Sanitized]
        simp only [Bool.and_eq_true]
        refine ⟨⟨⟨⟨⟨⟨⟨⟨⟨⟨?_, ?_⟩, ?_⟩, ?_⟩, ?_⟩, ?_⟩, ?_⟩, ?_⟩, ?_⟩, ?_⟩, ?_⟩
        · rw [hH]; exact HE
        · rw [List.getLast?_concat]; rfl
        · rw [List.all_append, F]; decide
        · rw [List.all_append, Pl]; decide
        · refine noPair_append.mpr ⟨WW, noPair_one, ?_⟩
          intro a b hla hb
          simp only [List.head?_cons, Option.some.injEq] at hb
          subst hb
          have h1 : Py.isSpace '.' = false := by decide
          simp [twoWs, h1]
        · refine noPair_append.mpr ⟨WP, noPair_one, ?_⟩
          intro a b hla hb
          simp only [List.head?_cons, Option.some.injEq] at hb
          subst hb
          rw [hla] at LNS
          have hsa : Py.isSpace a = false := by simpa using LNS
          simp [wsPunct, hsa]
        · refine noPair_append.mpr ⟨CS, noPair_one, ?_⟩
          intro a b hla hb
          simp only [List.head?_cons, Option.some.injEq] at hb
          subst hb
          have h1 : ('.' == '/') = false := by decide
          simp [colonSlash, h1]
        · refine noPair_append.mpr ⟨EE, noPair_one, ?_⟩
          intro a b hla hb
          simp only [List.head?_cons, Option.some.injEq] at hb
          subst hb
          have h1 : ('.' == '…') = false := by decide
          simp [twoEllipsis, h1]
        · refine noPair_append.mpr ⟨TA, noPair_one, ?_⟩
          intro a b hla hb
          simp only [List.head?_cons, Option.some.injEq] at hb
          subst hb
          have h1 : excludedAfter '.' = true := by decide
          simp [punctATight, h1]
        · refine noPair_append.mpr ⟨TD, noPair_one, ?_⟩
          intro a b hla hb
          simp only [List.head?_cons, Option.some.injEq] at hb
          subst hb
          have h1 : excludedAfter '.' = true := by decide
          simp [dotTight, h1]
        · exact noDHD_snoc (by decide) DHD

end Sanitize

/-- C7: the reference text sanitizer `_sanitize_reference_text` (identical in
the e5 and e1 formatters) is idempotent: for every input string `x`,
`sanitize (sanitize x) = sanitize x`. -/
theorem c7_sanitize_idempotent (x : List Char) :
    Sanitize.sanitize (Sanitize.sanitize x) = Sanitize.sanitize x :=
  Sanitize.sanitized_fixed (Sanitize.sanitize_sanitized x)

/-! Termination and title/reference invariants of the two parsers. -/

namespace P5

open Parse

theorem tblGo5_suffix (ls : List Line) : (tblGo5 ls).2 <:+ ls := by
  induction ls with
  | nil => exact List.suffix_rfl
  | cons l rest ih =>
    rw [tblGo5]
    split
    · exact (List.suffix_cons l rest)
    · exact ih.trans (List.suffix_cons l rest)

theorem fmlGo5_suffix (ls : List Line) : (fmlGo5 ls).2 <:+ ls := by
  induction ls with
  | nil => exact List.suffix_rfl
  | cons l rest ih =>
    rw [fmlGo5]
    split
    · exact (List.suffix_cons l rest)
    · exact ih.trans (List.suffix_cons l rest)

theorem figureStep5_suffix (st : State5) (num : Line) (rest : List Line) :
    (figureStep5 st num rest).2 <:+ rest := by
  unfold figureStep5
  split
  · exact List.suffix_rfl
  next capRaw rest2 =>
    split
    next d rest3 =>
      split
      · exact (List.suffix_cons d rest3).trans (List.suffix_cons capRaw _)
      · exact List.suffix_cons capRaw _
    next => exact List.suffix_cons capRaw _

theorem tableStep5_suffix (st : State5) (num : Line) (rest : List Line) :
    (tableStep5 st num rest).2 <:+ rest := by
  unfold tableStep5
  split
  · exact List.suffix_rfl
  next capRaw rest2 =>
    have h := tblGo5_suffix rest2
    exact h.trans (List.suffix_cons capRaw _)

theorem formulaStep5_suffix (st : State5) (num : Line) (rest : List Line) :
    (formulaStep5 st num rest).2 <:+ rest := by
  unfold formulaStep5
  exact fmlGo5_suffix rest

theorem step5d_suffix (st : State5) (t : Line) (rest : List Line) :
    (step5d st t rest).2 <:+ rest := by
  unfold step5d
  split
  · exact List.suffix_rfl
  split
  · exact List.suffix_rfl
  split
  · split
    · exact figureStep5_suffix _ _ _
    · exact List.suffix_rfl
  split
  · split
    · exact tableStep5_suffix _ _ _
    · exact List.suffix_rfl
  split
  · split
    · exact formulaStep5_suffix _ _ _
    · exact List.suffix_rfl
  · exact List.suffix_rfl

theorem step5c_suffix (st : State5) (t : Line) (rest : List Line) :
    (step5c st t rest).2 <:+ rest := by
  unfold step5c
  split
  · exact List.suffix_rfl
  split
  · exact List.suffix_rfl
  · exact step5d_suffix _ _ _

theorem step5b_suffix (st : State5) (t : Line) (rest : List Line) :
    (step5b st t rest).2 <:+ rest := by
  unfold step5b
  split_ifs <;> first
    | exact List.suffix_rfl
    | exact step5c_suffix _ _ _

theorem step5_suffix (st : State5) (l : Line) (rest : List Line) :
    (step5 st l rest).2 <:+ rest := by
  unfold step5
  dsimp only
  split_ifs <;> first
    | exact List.suffix_rfl
    | exact step5b_suffix _ _ _

theorem parse5Aux_fuel :
    ∀ (g : Nat) (st : State5) (ls : List Line), ls.length ≤ g →
      parse5Aux g st ls = parse5Aux ls.length st ls ∧
        (parse5Aux ls.length st ls).isSome = true := by
  intro g
  induction g using Nat.strong_induction_on with
  | _ g IH =>
    intro st ls hlen
    cases ls with
    | nil =>
      constructor
      · cases g <;> rfl
      · rfl
    | cons l rest =>
      cases g with
      | zero => simp at hlen
      | succ g' =>
        have hr' : (step5 st l rest).2.length ≤ rest.length :=
          (step5_suffix st l rest).length_le
        have hlen' : rest.length ≤ g' := by
          simpa [List.length_cons] using hlen
        have h1 := IH g' (by omega) (step5 st l rest).1 (step5 st l rest).2
          (by omega)
        have h2 := IH rest.length (by omega) (step5 st l rest).1
          (step5 st l rest).2 hr'
        have e1 : parse5Aux (g' + 1) st (l :: rest) =
            parse5Aux g' (step5 st l rest).1 (step5 st l rest).2 := rfl
        have e2 : parse5Aux (l :: rest).length st (l :: rest) =
            parse5Aux rest.length (step5 st l rest).1 (step5 st l rest).2 := rfl
        refine ⟨?_, ?_⟩
        · rw [e1, e2, h1.1, h2.1]
        · rw [e2, h2.1]
          exact (IH (step5 st l rest).2.length (by omega) (step5 st l rest).1
            (step5 st l rest).2 le_rfl).2

end P5

namespace P1

open Parse

theorem tblGo1_suffix (ls : List Line) : (tblGo1 ls).2 <:+ ls := by
  induction ls with
  | nil => exact List.suffix_rfl
  | cons l rest ih =>
    rw [tblGo1]
    split
    · exact (List.suffix_cons l rest)
    · exact ih.trans (List.suffix_cons l rest)

theorem figureStep1_suffix (st : State1) (num : Line) (rest : List Line) :
    (figureStep1 st num rest).2 <:+ rest := by
  unfold figureStep1
  split
  · exact List.suffix_rfl
  next capRaw rest2 =>
    split
    next d rest3 =>
      split
      · exact (List.suffix_cons d rest3).trans (List.suffix_cons capRaw _)
      · exact List.suffix_cons capRaw _
    next => exact List.suffix_cons capRaw _

theorem tableStep1_suffix (st : State1) (num : Line) (rest : List Line) :
    (tableStep1 st num rest).2 <:+ rest := by
  unfold tableStep1
  split
  · exact List.suffix_rfl
  next capRaw rest2 =>
    have h := tblGo1_suffix rest2
    exact h.trans (List.suffix_cons capRaw _)

theorem formulaStep1_suffix (st : State1) (num : Line) (rest : List Line) :
    (formulaStep1 st num rest).2 <:+ rest := by
  unfold formulaStep1
  split
  · exact List.suffix_rfl
  next c rest2 =>
    split
    next d rest3 =>
      split
      · exact (List.suffix_cons d rest3).trans (List.suffix_cons c _)
      · exact List.suffix_cons c _
    next => exact List.suffix_cons c _

theorem step1d_suffix (st : State1) (t : Line) (rest : List Line) :
    (step1d st t rest).2 <:+ rest := by
  unfold step1d
  split
  · exact List.suffix_rfl
  split
  · exact List.suffix_rfl
  split
  · exact List.suffix_rfl
  split
  · exact List.suffix_rfl
  split
  · exact List.suffix_rfl
  split
  · split
    · exact figureStep1_suffix _ _ _
    · exact List.suffix_rfl
  split
  · split
    · exact tableStep1_suffix _ _ _
    · exact List.suffix_rfl
  split
  · split
    · exact formulaStep1_suffix _ _ _
    · exact List.suffix_rfl
  · exact List.suffix_rfl

theorem step1b_suffix (st : State1) (t : Line) (rest : List Line) :
    (step1b st t rest).2 <:+ rest := by
  unfold step1b
  split_ifs <;> first
    | exact List.suffix_rfl
    | exact step1d_suffix _ _ _

theorem step1_suffix (st : State1) (l : Line) (rest : List Line) :
    (step1 st l rest).2 <:+ rest := by
  unfold step1
  dsimp only
  split_ifs <;> first
    | exact List.suffix_rfl
    | exact step1b_suffix _ _ _

theorem parse1Aux_fuel :
    ∀ (g : Nat) (st : State1) (ls : List Line), ls.length ≤ g →
      parse1Aux g st ls = parse1Aux ls.length st ls ∧
        (parse1Aux ls.length st ls).isSome = true := by
  intro g
  induction g using Nat.strong_induction_on with
  | _ g IH =>
    intro st ls hlen
    cases ls with
    | nil =>
      constructor
      · cases g <;> rfl
      · rfl
    | cons l rest =>
      cases g with
      | zero => simp at hlen
      | succ g' =>
        have hr' : (step1 st l rest).2.length ≤ rest.length :=
          (step1_suffix st l rest).length_le
        have hlen' : rest.length ≤ g' := by
          simpa [List.length_cons] using hlen
        have h1 := IH g' (by omega) (step1 st l rest).1 (step1 st l rest).2
          (by omega)
        have h2 := IH rest.length (by omega) (step1 st l rest).1
          (step1 st l rest).2 hr'
        have e1 : parse1Aux (g' + 1) st (l :: rest) =
            parse1Aux g' (step1 st l rest).1 (step1 st l rest).2 := rfl
        have e2 : parse1Aux (l :: rest).length st (l :: rest) =
            parse1Aux rest.length (step1 st l rest).1 (step1 st l rest).2 := rfl
        refine ⟨?_, ?_⟩
        · rw [e1, e2, h1.1, h2.1]
        · rw [e2, h2.1]
          exact (IH (step1 st l rest).2.length (by omega) (step1 st l rest).1
            (step1 st l rest).2 le_rfl).2

end P1

namespace P5

open Parse

theorem fmlGo5_noTerm (ls : List Line)
    (h : ∀ l ∈ ls, Py.strip l ≠ "[/FORMULA]".data) :
    fmlGo5 ls = ((ls.map Py.strip).filter (fun t => !t.isEmpty), []) := by
  induction ls with
  | nil => rfl
  | cons l rest ih =>
    have hl : (Py.strip l == "[/FORMULA]".data) = false := by
      simpa using h l (by simp)
    rw [fmlGo5, hl]
    simp only [Bool.false_eq_true, if_false]
    rw [ih (fun x hx => h x (by simp [hx]))]
    simp only [List.map_cons, List.filter_cons]

theorem tblGo5_noTerm (ls : List Line)
    (h : ∀ l ∈ ls, Py.strip l ≠ "[/TABLE]".data) :
    (tblGo5 ls).2 = [] := by
  induction ls with
  | nil => rfl
  | cons l rest ih =>
    have hl : (Py.strip l == "[/TABLE]".data) = false := by
      simpa using h l (by simp)
    rw [tblGo5, hl]
    simp only [Bool.false_eq_true, if_false]
    exact ih (fun x hx => h x (by simp [hx]))

end P5

namespace P1

open Parse

theorem tblGo1_noTerm (ls : List Line)
    (h : ∀ l ∈ ls, Py.strip l ≠ "[/TABLE]".data) :
    (tblGo1 ls).2 = [] := by
  induction ls with
  | nil => rfl
  | cons l rest ih =>
    have hl : (Py.strip l == "[/TABLE]".data) = false := by
      simpa using h l (by simp)
    rw [tblGo1, hl]
    simp only [Bool.false_eq_true, if_false]
    exact ih (fun x hx => h x (by simp [hx]))

end P1

/-- C9: for every line sequence (including malformed input with
unterminated block directives and unmatched heading patterns), both
parsers' loops terminate within `lines.length` iterations from any
state — any iteration budget of at least `lines.length` produces the
same defined (`some`) result — and unterminated formula/table
directives are closed implicitly at end of input: with no terminator
ahead, the block consumers drain the whole remainder (the formula body
collecting every nonempty stripped line) instead of failing. -/
theorem c9_parse_terminates :
    (∀ (ls : List Parse.Line) (st : P5.State5) (f : Nat), ls.length ≤ f →
        P5.parse5Aux f st ls = P5.parse5Aux ls.length st ls ∧
          (P5.parse5Aux ls.length st ls).isSome = true) ∧
    (∀ (ls : List Parse.Line) (st : P1.State1) (f : Nat), ls.length ≤ f →
        P1.parse1Aux f st ls = P1.parse1Aux ls.length st ls ∧
          (P1.parse1Aux ls.length st ls).isSome = true) ∧
    (∀ ls : List Parse.Line, (∀ l ∈ ls, Py.strip l ≠ "[/FORMULA]".data) →
        P5.fmlGo5 ls = ((ls.map Py.strip).filter (fun t => !t.isEmpty), [])) ∧
    (∀ ls : List Parse.Line, (∀ l ∈ ls, Py.strip l ≠ "[/TABLE]".data) →
        (P5.tblGo5 ls).2 = [] ∧ (P1.tblGo1 ls).2 = []) :=
  ⟨fun ls st f h => P5.parse5Aux_fuel f st ls h,
   fun ls st f h => P1.parse1Aux_fuel f st ls h,
   fun ls h => P5.fmlGo5_noTerm ls h,
   fun ls h => ⟨P5.tblGo5_noTerm ls h, P1.tblGo1_noTerm ls h⟩⟩

theorem c9_parse_terminates_witness :
    (P5.parse5Aux 10 P5.init5 ["第一章 A".data, "[FORMULA:1-1]".data, "x=y".data] =
        P5.parse5Aux 3 P5.init5 ["第一章 A".data, "[FORMULA:1-1]".data, "x=y".data] ∧
      (P5.parse5Aux 3 P5.init5
        ["第一章 A".data, "[FORMULA:1-1]".data, "x=y".data]).isSome = true) ∧
    (P1.parse1Aux 9 P1.init1 ["T".data] =
        P1.parse1Aux 1 P1.init1 ["T".data] ∧
      (P1.parse1Aux 1 P1.init1 ["T".data]).isSome = true) ∧
    P5.fmlGo5 ["x+y".data, " ".data] =
      (((["x+y".data, " ".data] : List Parse.Line).map Py.strip).filter
        (fun t => !t.isEmpty), []) ∧
    ((P5.tblGo5 ["a|b".data]).2 = [] ∧ (P1.tblGo1 ["a|b".data]).2 = []) :=
  ⟨c9_parse_terminates.1 ["第一章 A".data, "[FORMULA:1-1]".data, "x=y".data]
      P5.init5 10 (by decide),
   c9_parse_terminates.2.1 ["T".data] P1.init1 9 (by decide),
   c9_parse_terminates.2.2.1 ["x+y".data, " ".data] (by decide),
   c9_parse_terminates.2.2.2 ["a|b".data] (by decide)⟩

namespace P5

open Parse

@[simp] theorem flushRefs5_title (st : State5) : (flushRefs5 st).title = st.title := by
  unfold flushRefs5; split_ifs <;> rfl

@[simp] theorem flushRefs5_zero (st : State5) :
    (flushRefs5 st).atLineZero = st.atLineZero := by
  unfold flushRefs5; split_ifs <;> rfl

@[simp] theorem sinkPara5_title (st : State5) (t : Line) :
    (sinkPara5 st t).title = st.title := by
  unfold sinkPara5
  split <;> first | rfl | (split_ifs <;> rfl)

@[simp] theorem sinkPara5_zero (st : State5) (t : Line) :
    (sinkPara5 st t).atLineZero = st.atLineZero := by
  unfold sinkPara5
  split <;> first | rfl | (split_ifs <;> rfl)

@[simp] theorem blankStep5_title (st : State5) : (blankStep5 st).title = st.title := by
  unfold blankStep5; split_ifs <;> simp

@[simp] theorem blankStep5_zero (st : State5) :
    (blankStep5 st).atLineZero = st.atLineZero := by
  unfold blankStep5; split_ifs <;> simp

@[simp] theorem finalPara5_title (st : State5) : (finalPara5 st).title = st.title := by
  unfold finalPara5; split_ifs <;> simp

@[simp] theorem sinkParaNoAbs5_title (st : State5) (t : Line) :
    (sinkParaNoAbs5 st t).title = st.title := by
  unfold sinkParaNoAbs5
  split <;> first | rfl | (split_ifs <;> rfl)

@[simp] theorem sinkParaNoAbs5_zero (st : State5) (t : Line) :
    (sinkParaNoAbs5 st t).atLineZero = st.atLineZero := by
  unfold sinkParaNoAbs5
  split <;> first | rfl | (split_ifs <;> rfl)

@[simp] theorem hdrParaFlush5_title (st : State5) :
    (hdrParaFlush5 st).title = st.title := by
  unfold hdrParaFlush5; split_ifs <;> simp

@[simp] theorem hdrParaFlush5_zero (st : State5) :
    (hdrParaFlush5 st).atLineZero = st.atLineZero := by
  unfold hdrParaFlush5; split_ifs <;> simp

@[simp] theorem flushToChapter5_title (st : State5) :
    (flushToChapter5 st).title = st.title := by
  unfold flushToChapter5; split_ifs <;> rfl

@[simp] theorem flushToChapter5_zero (st : State5) :
    (flushToChapter5 st).atLineZero = st.atLineZero := by
  unfold flushToChapter5; split_ifs <;> rfl

@[simp] theorem figureStep5_title (st : State5) (num : Line) (rest : List Line) :
    (figureStep5 st num rest).1.title = st.title := by
  unfold figureStep5
  cases rest with
  | nil => rfl
  | cons c r2 =>
    dsimp only
    cases r2 with
    | nil => rfl
    | cons d r3 =>
      dsimp only
      split_ifs <;> rfl

@[simp] theorem figureStep5_zero (st : State5) (num : Line) (rest : List Line) :
    (figureStep5 st num rest).1.atLineZero = st.atLineZero := by
  unfold figureStep5
  cases rest with
  | nil => rfl
  | cons c r2 =>
    dsimp only
    cases r2 with
    | nil => rfl
    | cons d r3 =>
      dsimp only
      split_ifs <;> rfl

@[simp] theorem tableStep5_title (st : State5) (num : Line) (rest : List Line) :
    (tableStep5 st num rest).1.title = st.title := by
  unfold tableStep5
  cases rest <;> rfl

@[simp] theorem tableStep5_zero (st : State5) (num : Line) (rest : List Line) :
    (tableStep5 st num rest).1.atLineZero = st.atLineZero := by
  unfold tableStep5
  cases rest <;> rfl

@[simp] theorem formulaStep5_title (st : State5) (num : Line) (rest : List Line) :
    (formulaStep5 st num rest).1.title = st.title := rfl

@[simp] theorem formulaStep5_zero (st : State5) (num : Line) (rest : List Line) :
    (formulaStep5 st num rest).1.atLineZero = st.atLineZero := rfl

@[simp] theorem defaultStep5_title (st : State5) (t : Line) :
    (defaultStep5 st t).title = st.title := by
  unfold defaultStep5
  split <;> first | rfl | (split_ifs <;> rfl)

@[simp] theorem defaultStep5_zero (st : State5) (t : Line) :
    (defaultStep5 st t).atLineZero = st.atLineZero := by
  unfold defaultStep5
  split <;> first | rfl | (split_ifs <;> rfl)

@[simp] theorem step5d_title (st : State5) (t : Line) (rest : List Line) :
    (step5d st t rest).1.title = st.title := by
  unfold step5d
  split
  · simp
  split
  · simp
  split
  · split <;> simp
  split
  · split <;> simp
  split
  · split <;> simp
  · simp

@[simp] theorem step5d_zero (st : State5) (t : Line) (rest : List Line) :
    (step5d st t rest).1.atLineZero = st.atLineZero := by
  unfold step5d
  split
  · simp
  split
  · simp
  split
  · split <;> simp
  split
  · split <;> simp
  split
  · split <;> simp
  · simp

@[simp] theorem step5c_title (st : State5) (t : Line) (rest : List Line) :
    (step5c st t rest).1.title = st.title := by
  unfold step5c
  split
  · simp
  split
  · simp
  · simp

@[simp] theorem step5c_zero (st : State5) (t : Line) (rest : List Line) :
    (step5c st t rest).1.atLineZero = st.atLineZero := by
  unfold step5c
  split
  · simp
  split
  · simp
  · simp

@[simp] theorem step5b_title (st : State5) (t : Line) (rest : List Line) :
    (step5b st t rest).1.title = st.title := by
  unfold step5b
  split_ifs <;> simp

@[simp] theorem step5b_zero (st : State5) (t : Line) (rest : List Line) :
    (step5b st t rest).1.atLineZero = st.atLineZero := by
  unfold step5b
  split_ifs <;> simp

theorem step5_title_of_not (st : State5) (l : Line) (rest : List Line)
    (h : (st.atLineZero && !headIs (fun c => c == '#') (Py.strip l)) = false) :
    (step5 st l rest).1.title = st.title := by
  unfold step5
  dsimp only
  split_ifs with h1 h2
  · simp
  · simp [h] at h2
  all_goals simp

theorem step5_title_keep (st : State5) (l : Line) (rest : List Line)
    (h : st.atLineZero = false) : (step5 st l rest).1.title = st.title :=
  step5_title_of_not st l rest (by simp [h])

theorem step5_zero (st : State5) (l : Line) (rest : List Line) :
    (step5 st l rest).1.atLineZero = false := by
  unfold step5
  dsimp only
  split_ifs <;> simp

theorem step5_init_title (l : Line) (rest : List Line) :
    (step5 init5 l rest).1.title =
      (if (Py.strip l).isEmpty || headIs (fun c => c == '#') (Py.strip l) then []
       else Py.strip l) := by
  by_cases he : (Py.strip l).isEmpty = true
  · have h0 : ((Py.strip l).isEmpty ||
        headIs (fun c => c == '#') (Py.strip l)) = true := by simp [he]
    rw [h0, if_pos rfl]
    unfold step5
    dsimp only
    rw [if_pos he]
    simp [init5]
  · by_cases hh : headIs (fun c => c == '#') (Py.strip l) = true
    · have h0 : ((Py.strip l).isEmpty ||
          headIs (fun c => c == '#') (Py.strip l)) = true := by simp [hh]
      rw [h0, if_pos rfl]
      rw [step5_title_of_not init5 l rest (by simp [hh])]
      rfl
    · have h0 : ((Py.strip l).isEmpty ||
          headIs (fun c => c == '#') (Py.strip l)) = false := by simp [he, hh]
      rw [h0]
      simp only [Bool.false_eq_true, if_false]
      have hc : (init5.atLineZero && !headIs (fun c => c == '#') (Py.strip l)) = true := by
        simp [init5, hh]
      unfold step5
      dsimp only
      rw [if_neg he, if_pos hc]

theorem parse5Aux_title :
    ∀ (fuel : Nat) (st : State5) (ls : List Line) (st' : State5),
      st.atLineZero = false → parse5Aux fuel st ls = some st' →
      st'.title = st.title := by
  intro fuel
  induction fuel with
  | zero =>
    intro st ls st' hz h
    cases ls with
    | nil =>
      simp only [parse5Aux, Option.some.injEq] at h
      rw [← h]
    | cons l rest => simp [parse5Aux] at h
  | succ f ih =>
    intro st ls st' hz h
    cases ls with
    | nil =>
      simp only [parse5Aux, Option.some.injEq] at h
      rw [← h]
    | cons l rest =>
      have h2 : parse5Aux f (step5 st l rest).1 (step5 st l rest).2 = some st' := h
      have := ih (step5 st l rest).1 (step5 st l rest).2 st'
        (step5_zero st l rest) h2
      rw [this, step5_title_keep st l rest hz]

theorem finalize5_title (st : State5) : (finalize5 st).title = st.title := by
  unfold finalize5
  simp

end P5

namespace P1

open Parse

@[simp] theorem flushRefs1_title (st : State1) : (flushRefs1 st).title = st.title := by
  unfold flushRefs1; split_ifs <;> rfl

@[simp] theorem flushRefs1_zero (st : State1) :
    (flushRefs1 st).atLineZero = st.atLineZero := by
  unfold flushRefs1; split_ifs <;> rfl

@[simp] theorem sinkPara1_title (st : State1) (t : Line) :
    (sinkPara1 st t).title = st.title := by
  unfold sinkPara1
  split <;> first | rfl | (split_ifs <;> rfl)

@[simp] theorem sinkPara1_zero (st : State1) (t : Line) :
    (sinkPara1 st t).atLineZero = st.atLineZero := by
  unfold sinkPara1
  split <;> first | rfl | (split_ifs <;> rfl)

@[simp] theorem blankStep1_title (st : State1) : (blankStep1 st).title = st.title := by
  unfold blankStep1; split_ifs <;> simp

@[simp] theorem blankStep1_zero (st : State1) :
    (blankStep1 st).atLineZero = st.atLineZero := by
  unfold blankStep1; split_ifs <;> simp

@[simp] theorem finalPara1_title (st : State1) : (finalPara1 st).title = st.title := by
  unfold finalPara1; split_ifs <;> simp

@[simp] theorem sinkParaNoAbs1_title (st : State1) (t : Line) :
    (sinkParaNoAbs1 st t).title = st.title := by
  unfold sinkParaNoAbs1
  split <;> first | rfl | (split_ifs <;> rfl)

@[simp] theorem sinkParaNoAbs1_zero (st : State1) (t : Line) :
    (sinkParaNoAbs1 st t).atLineZero = st.atLineZero := by
  unfold sinkParaNoAbs1
  split <;> first | rfl | (split_ifs <;> rfl)

@[simp] theorem hdrParaFlush1_title (st : State1) :
    (hdrParaFlush1 st).title = st.title := by
  unfold hdrParaFlush1; split_ifs <;> simp

@[simp] theorem hdrParaFlush1_zero (st : State1) :
    (hdrParaFlush1 st).atLineZero = st.atLineZero := by
  unfold hdrParaFlush1; split_ifs <;> simp

@[simp] theorem flushToChapter1_title (st : State1) :
    (flushToChapter1 st).title = st.title := by
  unfold flushToChapter1; split_ifs <;> rfl

@[simp] theorem flushToChapter1_zero (st : State1) :
    (flushToChapter1 st).atLineZero = st.atLineZero := by
  unfold flushToChapter1; split_ifs <;> rfl

@[simp] theorem figureStep1_title (st : State1) (num : Line) (rest : List Line) :
    (figureStep1 st num rest).1.title = st.title := by
  unfold figureStep1
  cases rest with
  | nil => rfl
  | cons c r2 =>
    dsimp only
    cases r2 with
    | nil => rfl
    | cons d r3 =>
      dsimp only
      split_ifs <;> rfl

@[simp] theorem figureStep1_zero (st : State1) (num : Line) (rest : List Line) :
    (figureStep1 st num rest).1.atLineZero = st.atLineZero := by
  unfold figureStep1
  cases rest with
  | nil => rfl
  | cons c r2 =>
    dsimp only
    cases r2 with
    | nil => rfl
    | cons d r3 =>
      dsimp only
      split_ifs <;> rfl

@[simp] theorem tableStep1_title (st : State1) (num : Line) (rest : List Line) :
    (tableStep1 st num rest).1.title = st.title := by
  unfold tableStep1
  cases rest <;> rfl

@[simp] theorem tableStep1_zero (st : State1) (num : Line) (rest : List Line) :
    (tableStep1 st num rest).1.atLineZero = st.atLineZero := by
  unfold tableStep1
  cases rest <;> rfl

@[simp] theorem formulaStep1_title (st : State1) (num : Line) (rest : List Line) :
    (formulaStep1 st num rest).1.title = st.title := by
  unfold formulaStep1
  cases rest with
  | nil => rfl
  | cons c r2 =>
    dsimp only
    cases r2 with
    | nil => rfl
    | cons d r3 =>
      dsimp only
      split_ifs <;> rfl

@[simp] theorem formulaStep1_zero (st : State1) (num : Line) (rest : List Line) :
    (formulaStep1 st num rest).1.atLineZero = st.atLineZero := by
  unfold formulaStep1
  cases rest with
  | nil => rfl
  | cons c r2 =>
    dsimp only
    cases r2 with
    | nil => rfl
    | cons d r3 =>
      dsimp only
      split_ifs <;> rfl

@[simp] theorem defaultStep1_title (st : State1) (t : Line) :
    (defaultStep1 st t).title = st.title := by
  unfold defaultStep1; split_ifs <;> rfl

@[simp] theorem defaultStep1_zero (st : State1) (t : Line) :
    (defaultStep1 st t).atLineZero = st.atLineZero := by
  unfold defaultStep1; split_ifs <;> rfl

@[simp] theorem step1d_title (st : State1) (t : Line) (rest : List Line) :
    (step1d st t rest).1.title = st.title := by
  unfold step1d
  split
  · simp
  split
  · simp
  split
  · simp
  split
  · simp
  split
  · simp
  split
  · split <;> simp
  split
  · split <;> simp
  split
  · split <;> simp
  · simp

@[simp] theorem step1d_zero (st : State1) (t : Line) (rest : List Line) :
    (step1d st t rest).1.atLineZero = st.atLineZero := by
  unfold step1d
  split
  · simp
  split
  · simp
  split
  · simp
  split
  · simp
  split
  · simp
  split
  · split <;> simp
  split
  · split <;> simp
  split
  · split <;> simp
  · simp

@[simp] theorem step1b_title (st : State1) (t : Line) (rest : List Line) :
    (step1b st t rest).1.title = st.title := by
  unfold step1b
  split_ifs <;> simp

@[simp] theorem step1b_zero (st : State1) (t : Line) (rest : List Line) :
    (step1b st t rest).1.atLineZero = st.atLineZero := by
  unfold step1b
  split_ifs <;> simp

theorem step1_title_of_not (st : State1) (l : Line) (rest : List Line)
    (h : (st.atLineZero && !headIs (fun c => c == '#') (Py.strip l) &&
        !headIs (fun c => c == '[') (Py.strip l)) = false) :
    (step1 st l rest).1.title = st.title := by
  unfold step1
  dsimp only
  split_ifs with h1 h2
  · simp
  · simp [h] at h2
  all_goals simp

theorem step1_title_keep (st : State1) (l : Line) (rest : List Line)
    (h : st.atLineZero = false) : (step1 st l rest).1.title = st.title :=
  step1_title_of_not st l rest (by simp [h])

theorem step1_zero (st : State1) (l : Line) (rest : List Line) :
    (step1 st l rest).1.atLineZero = false := by
  unfold step1
  dsimp only
  split_ifs <;> simp

theorem step1_init_title (l : Line) (rest : List Line) :
    (step1 init1 l rest).1.title =
      (if (Py.strip l).isEmpty || headIs (fun c => c == '#') (Py.strip l) ||
          headIs (fun c => c == '[') (Py.strip l) then []
       else Py.strip l) := by
  by_cases he : (Py.strip l).isEmpty = true
  · have h0 : ((Py.strip l).isEmpty || headIs (fun c => c == '#') (Py.strip l) ||
        headIs (fun c => c == '[') (Py.strip l)) = true := by simp [he]
    rw [h0, if_pos rfl]
    unfold step1
    dsimp only
    rw [if_pos he]
    simp [init1]
  · by_cases hh : (headIs (fun c => c == '#') (Py.strip l) ||
        headIs (fun c => c == '[') (Py.strip l)) = true
    · have h0 : ((Py.strip l).isEmpty || headIs (fun c => c == '#') (Py.strip l) ||
          headIs (fun c => c == '[') (Py.strip l)) = true := by
        simp only [Bool.or_eq_true] at hh ⊢
        tauto
      rw [h0, if_pos rfl]
      rw [step1_title_of_not init1 l rest ?_]
      · rfl
      · simp only [Bool.or_eq_true] at hh
        rcases hh with hh | hh <;> simp [hh]
    · have hns : headIs (fun c => c == '#') (Py.strip l) = false := by
        simp only [Bool.or_eq_true, not_or] at hh
        simpa using hh.1
      have hnb : headIs (fun c => c == '[') (Py.strip l) = false := by
        simp only [Bool.or_eq_true, not_or] at hh
        simpa using hh.2
      have h0 : ((Py.strip l).isEmpty || headIs (fun c => c == '#') (Py.strip l) ||
          headIs (fun c => c == '[') (Py.strip l)) = false := by
        simp [he, hns, hnb]
      rw [h0]
      simp only [Bool.false_eq_true, if_false]
      have hc : (init1.atLineZero && !headIs (fun c => c == '#') (Py.strip l) &&
          !headIs (fun c => c == '[') (Py.strip l)) = true := by
        simp [init1, hns, hnb]
      unfold step1
      dsimp only
      rw [if_neg he, if_pos hc]

theorem parse1Aux_title :
    ∀ (fuel : Nat) (st : State1) (ls : List Line) (st' : State1),
      st.atLineZero = false → parse1Aux fuel st ls = some st' →
      st'.title = st.title := by
  intro fuel
  induction fuel with
  | zero =>
    intro st ls st' hz h
    cases ls with
    | nil =>
      simp only [parse1Aux, Option.some.injEq] at h
      rw [← h]
    | cons l rest => simp [parse1Aux] at h
  | succ f ih =>
    intro st ls st' hz h
    cases ls with
    | nil =>
      simp only [parse1Aux, Option.some.injEq] at h
      rw [← h]
    | cons l rest =>
      have h2 : parse1Aux f (step1 st l rest).1 (step1 st l rest).2 = some st' := h
      have := ih (step1 st l rest).1 (step1 st l rest).2 st'
        (step1_zero st l rest) h2
      rw [this, step1_title_keep st l rest hz]

theorem finalize1_title (st : State1) : (finalize1 st).title = st.title := by
  unfold finalize1
  simp

end P1

theorem splitChar_ne_nil (sep : Char) (s : List Char) :
    Py.splitChar sep s ≠ [] := by
  unfold Py.splitChar
  exact List.splitOnP_ne_nil _ s

/-- C10: the document title is assigned only from line 0 of the input.
In the e5 parser the title is the stripped first line unless it is blank
or starts with `'#'`; in the e1 parser also a leading `'['` excludes it.
In the excluded cases the title is the empty string, and no later line
ever becomes the title. -/
theorem c10_title_only_line0 :
    (∀ text : Parse.Line,
        (P5.parse_text text).title =
          (let t := Py.strip ((Py.splitChar '\n' text).headD []);
           if t.isEmpty || Parse.headIs (fun c => c == '#') t then [] else t)) ∧
    (∀ text : Parse.Line,
        (P1.parse_text text).title =
          (let t := Py.strip ((Py.splitChar '\n' text).headD []);
           if t.isEmpty || Parse.headIs (fun c => c == '#') t ||
               Parse.headIs (fun c => c == '[') t then [] else t)) := by
  constructor
  · intro text
    obtain ⟨l0, rest, hl⟩ : ∃ l0 rest, Py.splitChar '\n' text = l0 :: rest := by
      cases h : Py.splitChar '\n' text with
      | nil => exact absurd h (splitChar_ne_nil '\n' text)
      | cons a b => exact ⟨a, b, rfl⟩
    unfold P5.parse_text
    rw [hl]
    dsimp only
    have hstep : P5.parse5Aux (l0 :: rest).length P5.init5 (l0 :: rest) =
        P5.parse5Aux rest.length (P5.step5 P5.init5 l0 rest).1
          (P5.step5 P5.init5 l0 rest).2 := rfl
    have hfl := P5.parse5Aux_fuel rest.length (P5.step5 P5.init5 l0 rest).1
      (P5.step5 P5.init5 l0 rest).2 (P5.step5_suffix P5.init5 l0 rest).length_le
    have hsome : (P5.parse5Aux rest.length (P5.step5 P5.init5 l0 rest).1
        (P5.step5 P5.init5 l0 rest).2).isSome = true := by
      rw [hfl.1]
      exact hfl.2
    obtain ⟨st', hst'⟩ := Option.isSome_iff_exists.mp hsome
    rw [hstep, hst']
    simp only [Option.getD_some, List.headD_cons]
    rw [P5.finalize5_title]
    have := P5.parse5Aux_title rest.length (P5.step5 P5.init5 l0 rest).1
      (P5.step5 P5.init5 l0 rest).2 st' (P5.step5_zero P5.init5 l0 rest) hst'
    rw [this, P5.step5_init_title]
  · intro text
    obtain ⟨l0, rest, hl⟩ : ∃ l0 rest, Py.splitChar '\n' text = l0 :: rest := by
      cases h : Py.splitChar '\n' text with
      | nil => exact absurd h (splitChar_ne_nil '\n' text)
      | cons a b => exact ⟨a, b, rfl⟩
    unfold P1.parse_text
    rw [hl]
    dsimp only
    have hstep : P1.parse1Aux (l0 :: rest).length P1.init1 (l0 :: rest) =
        P1.parse1Aux rest.length (P1.step1 P1.init1 l0 rest).1
          (P1.step1 P1.init1 l0 rest).2 := rfl
    have hfl := P1.parse1Aux_fuel rest.length (P1.step1 P1.init1 l0 rest).1
      (P1.step1 P1.init1 l0 rest).2 (P1.step1_suffix P1.init1 l0 rest).length_le
    have hsome : (P1.parse1Aux rest.length (P1.step1 P1.init1 l0 rest).1
        (P1.step1 P1.init1 l0 rest).2).isSome = true := by
      rw [hfl.1]
      exact hfl.2
    obtain ⟨st', hst'⟩ := Option.isSome_iff_exists.mp hsome
    rw [hstep, hst']
    simp only [Option.getD_some, List.headD_cons]
    rw [P1.finalize1_title]
    have := P1.parse1Aux_title rest.length (P1.step1 P1.init1 l0 rest).1
      (P1.step1 P1.init1 l0 rest).2 st' (P1.step1_zero P1.init1 l0 rest) hst'
    rw [this, P1.step1_init_title]

namespace P5

open Parse

theorem joinSpace_cons2 (x y : List Char) (zs : List (List Char)) :
    Py.joinSpace (x :: y :: zs) = x ++ [' '] ++ Py.joinSpace (y :: zs) := by
  simp [Py.joinSpace, List.intercalate, List.intersperse]

theorem joinSpace_one (x : List Char) : Py.joinSpace [x] = x := by
  simp [Py.joinSpace, List.intercalate, List.intersperse]

theorem mem_joinSpace :
    ∀ (parts : List (List Char)) (x : List Char), x ∈ parts →
      ∀ c ∈ x, c ∈ Py.joinSpace parts := by
  intro parts
  induction parts with
  | nil =>
    intro x hx
    simp at hx
  | cons p ps ih =>
    intro x hx c hc
    cases ps with
    | nil =>
      rw [joinSpace_one]
      simp only [List.mem_singleton] at hx
      rw [← hx]
      exact hc
    | cons q qs =>
      rw [joinSpace_cons2]
      rcases List.mem_cons.mp hx with h | h
      · subst h
        simp [hc]
      · simp [ih x h c hc]

theorem strip_nil_all_space {s : List Char} (h : Py.strip s = []) :
    ∀ c ∈ s, Py.isSpace c = true := by
  unfold Py.strip at h
  rw [List.reverse_eq_nil_iff, List.dropWhile_eq_nil_iff] at h
  intro c hc
  have hsplit : List.takeWhile Py.isSpace s ++ List.dropWhile Py.isSpace s = s :=
    List.takeWhile_append_dropWhile Py.isSpace s
  rw [← hsplit] at hc
  rcases List.mem_append.mp hc with h1 | h1
  · exact List.mem_takeWhile_imp h1
  · exact h c (List.mem_reverse.mpr h1)

theorem strip_has_nonws {s : List Char}
    (h : ∃ c ∈ s, Py.isSpace c = false) :
    ∃ c ∈ Py.strip s, Py.isSpace c = false := by
  obtain ⟨c, hc, hw⟩ := h
  cases hs : Py.strip s with
  | nil =>
    rw [strip_nil_all_space hs c hc] at hw
    exact absurd hw (by simp)
  | cons a t =>
    have hh := Sanitize.strip_head s
    rw [hs] at hh
    simp only [List.head?_cons, Option.all_some, Bool.not_eq_true'] at hh
    exact ⟨a, by simp, hh⟩

/-- Every buffered reference entry (and pending entry line) contains a
non-whitespace character. -/
def goodBuf (l : List Line) : Prop :=
  ∀ e ∈ l, ∃ c ∈ e, Py.isSpace c = false

def goodRefs (st : State5) : Prop :=
  goodBuf st.refsBuffer ∧ goodBuf st.curRefLines

theorem goodBuf_nil : goodBuf [] := by
  intro e he
  simp at he

theorem goodBuf_append {l1 l2 : List Line} (h1 : goodBuf l1) (h2 : goodBuf l2) :
    goodBuf (l1 ++ l2) := by
  intro e he
  rcases List.mem_append.mp he with h | h
  · exact h1 e h
  · exact h2 e h

theorem flushRefs5_good {st : State5} (h : goodRefs st) :
    goodRefs (flushRefs5 st) := by
  unfold flushRefs5
  split_ifs with hcur
  · exact h
  · refine ⟨goodBuf_append h.1 ?_, goodBuf_nil⟩
    intro e he
    simp only [List.mem_singleton] at he
    subst he
    apply strip_has_nonws
    cases hc : st.curRefLines with
    | nil => simp [hc] at hcur
    | cons x xs =>
      obtain ⟨c, hcx, hw⟩ := h.2 x (by rw [hc]; simp)
      exact ⟨c, mem_joinSpace (x :: xs) x (by simp) c hcx, hw⟩

@[simp] theorem sinkPara5_refs (st : State5) (t : Line) :
    (sinkPara5 st t).refsBuffer = st.refsBuffer ∧
      (sinkPara5 st t).curRefLines = st.curRefLines := by
  unfold sinkPara5
  split <;> first | exact ⟨rfl, rfl⟩ | (split_ifs <;> exact ⟨rfl, rfl⟩)

@[simp] theorem sinkParaNoAbs5_refs (st : State5) (t : Line) :
    (sinkParaNoAbs5 st t).refsBuffer = st.refsBuffer ∧
      (sinkParaNoAbs5 st t).curRefLines = st.curRefLines := by
  unfold sinkParaNoAbs5
  split <;> first | exact ⟨rfl, rfl⟩ | (split_ifs <;> exact ⟨rfl, rfl⟩)

theorem blankStep5_good {st : State5} (h : goodRefs st) :
    goodRefs (blankStep5 st) := by
  unfold blankStep5
  split_ifs
  · exact flushRefs5_good h
  · constructor
    · show goodBuf (sinkPara5 st (paraText st)).refsBuffer
      rw [(sinkPara5_refs st (paraText st)).1]
      exact h.1
    · show goodBuf (sinkPara5 st (paraText st)).curRefLines
      rw [(sinkPara5_refs st (paraText st)).2]
      exact h.2
  · exact h

theorem hdrParaFlush5_good {st : State5} (h : goodRefs st) :
    goodRefs (hdrParaFlush5 st) := by
  unfold hdrParaFlush5
  split_ifs
  · constructor
    · show goodBuf (sinkParaNoAbs5 st (paraText st)).refsBuffer
      rw [(sinkParaNoAbs5_refs st (paraText st)).1]
      exact h.1
    · show goodBuf (sinkParaNoAbs5 st (paraText st)).curRefLines
      rw [(sinkParaNoAbs5_refs st (paraText st)).2]
      exact h.2
  · exact h

@[simp] theorem flushToChapter5_refs (st : State5) :
    (flushToChapter5 st).refsBuffer = st.refsBuffer ∧
      (flushToChapter5 st).curRefLines = st.curRefLines := by
  unfold flushToChapter5
  split_ifs <;> exact ⟨rfl, rfl⟩

theorem flushToChapter5_good {st : State5} (h : goodRefs st) :
    goodRefs (flushToChapter5 st) := by
  constructor
  · rw [(flushToChapter5_refs st).1]; exact h.1
  · rw [(flushToChapter5_refs st).2]; exact h.2

theorem figureStep5_refs (st : State5) (num : Line) (rest : List Line) :
    (figureStep5 st num rest).1.refsBuffer = st.refsBuffer ∧
      (figureStep5 st num rest).1.curRefLines = st.curRefLines := by
  unfold figureStep5
  cases rest with
  | nil => exact ⟨rfl, rfl⟩
  | cons c r2 =>
    dsimp only
    cases r2 with
    | nil => exact ⟨rfl, rfl⟩
    | cons d r3 =>
      dsimp only
      split_ifs <;> exact ⟨rfl, rfl⟩

theorem tableStep5_refs (st : State5) (num : Line) (rest : List Line) :
    (tableStep5 st num rest).1.refsBuffer = st.refsBuffer ∧
      (tableStep5 st num rest).1.curRefLines = st.curRefLines := by
  unfold tableStep5
  cases rest <;> exact ⟨rfl, rfl⟩

theorem formulaStep5_refs (st : State5) (num : Line) (rest : List Line) :
    (formulaStep5 st num rest).1.refsBuffer = st.refsBuffer ∧
      (formulaStep5 st num rest).1.curRefLines = st.curRefLines := by
  unfold formulaStep5
  exact ⟨rfl, rfl⟩

theorem defaultStep5_refs (st : State5) (t : Line) :
    (defaultStep5 st t).refsBuffer = st.refsBuffer ∧
      (defaultStep5 st t).curRefLines = st.curRefLines := by
  unfold defaultStep5
  split <;> first | exact ⟨rfl, rfl⟩ | (split_ifs <;> exact ⟨rfl, rfl⟩)

theorem step5d_refs (st : State5) (t : Line) (rest : List Line) :
    (step5d st t rest).1.refsBuffer = st.refsBuffer ∧
      (step5d st t rest).1.curRefLines = st.curRefLines := by
  unfold step5d
  split
  · exact ⟨(flushToChapter5_refs st).1, (flushToChapter5_refs st).2⟩
  split
  · exact ⟨(flushToChapter5_refs st).1, (flushToChapter5_refs st).2⟩
  split
  · split
    · refine ⟨?_, ?_⟩
      · rw [(figureStep5_refs _ _ _).1, (flushToChapter5_refs st).1]
      · rw [(figureStep5_refs _ _ _).2, (flushToChapter5_refs st).2]
    · exact ⟨rfl, rfl⟩
  split
  · split
    · refine ⟨?_, ?_⟩
      · rw [(tableStep5_refs _ _ _).1, (flushToChapter5_refs st).1]
      · rw [(tableStep5_refs _ _ _).2, (flushToChapter5_refs st).2]
    · exact ⟨rfl, rfl⟩
  split
  · split
    · refine ⟨?_, ?_⟩
      · rw [(formulaStep5_refs _ _ _).1, (flushToChapter5_refs st).1]
      · rw [(formulaStep5_refs _ _ _).2, (flushToChapter5_refs st).2]
    · exact ⟨rfl, rfl⟩
  · exact defaultStep5_refs st t

theorem step5c_refs (st : State5) (t : Line) (rest : List Line) :
    (step5c st t rest).1.refsBuffer = st.refsBuffer ∧
      (step5c st t rest).1.curRefLines = st.curRefLines := by
  unfold step5c
  split
  · exact ⟨(flushToChapter5_refs st).1, (flushToChapter5_refs st).2⟩
  split
  · exact ⟨(flushToChapter5_refs st).1, (flushToChapter5_refs st).2⟩
  · exact step5d_refs st t rest

theorem step5b_good {st : State5} (t : Line) (rest : List Line)
    (h : goodRefs st) (ht : ∃ c ∈ t, Py.isSpace c = false) :
    goodRefs (step5b st t rest).1 := by
  unfold step5b
  by_cases h1 : isReferencesHeader t = true
  · rw [if_pos h1]
    dsimp only
    by_cases hb : (st.currentSection == some Sec.body) = true
    · rw [if_pos hb]
      exact ⟨(flushToChapter5_good h).1, goodBuf_nil⟩
    · rw [if_neg hb]
      exact ⟨h.1, goodBuf_nil⟩
  · rw [if_neg h1]
    by_cases h2 : (st.currentSection == some Sec.references) = true
    · rw [if_pos h2]
      by_cases h3 : startsWith "[/REFERENCES]".data (pyUpper t) = true
      · rw [if_pos h3]
        exact ⟨(flushRefs5_good h).1, (flushRefs5_good h).2⟩
      · rw [if_neg h3]
        by_cases h4 : isNewReferenceEntry t (!st.curRefLines.isEmpty) = true
        · rw [if_pos h4]
          refine ⟨(flushRefs5_good h).1, ?_⟩
          intro e he
          have he2 : e = t := by simpa using he
          subst he2
          exact ht
        · rw [if_neg h4]
          refine ⟨h.1, goodBuf_append h.2 ?_⟩
          intro e he
          have he2 : e = t := by simpa using he
          subst he2
          exact ht
    · rw [if_neg h2]
      by_cases h5 : isAcknowledgementsHeader t = true
      · rw [if_pos h5]
        exact ⟨(hdrParaFlush5_good (flushRefs5_good h)).1,
               (hdrParaFlush5_good (flushRefs5_good h)).2⟩
      · rw [if_neg h5]
        by_cases h6 : (startsWith "[/ACKNOWLEDGEMENTS]".data (pyUpper t) ||
            t == "[/致谢]".data) = true
        · rw [if_pos h6]
          dsimp only
          by_cases h7 : (!st.currentParagraph.isEmpty &&
              st.currentSection == some Sec.acknowledgements) = true
          · rw [if_pos h7]
            exact ⟨h.1, h.2⟩
          · rw [if_neg h7]
            exact ⟨h.1, h.2⟩
        · rw [if_neg h6]
          by_cases h8 : isAppendixHeader t = true
          · rw [if_pos h8]
            exact ⟨(hdrParaFlush5_good (flushRefs5_good h)).1,
                   (hdrParaFlush5_good (flushRefs5_good h)).2⟩
          · rw [if_neg h8]
            by_cases h9 : (startsWith "[/APPENDIX]".data (pyUpper t) ||
                t == "[/附录]".data) = true
            · rw [if_pos h9]
              dsimp only
              by_cases h10 : (!st.currentParagraph.isEmpty &&
                  st.currentSection == some Sec.appendix) = true
              · rw [if_pos h10]
                exact ⟨h.1, h.2⟩
              · rw [if_neg h10]
                exact ⟨h.1, h.2⟩
            · rw [if_neg h9]
              exact ⟨by rw [(step5c_refs st t rest).1]; exact h.1,
                     by rw [(step5c_refs st t rest).2]; exact h.2⟩

theorem step5_good {st : State5} (l : Line) (rest : List Line)
    (h : goodRefs st) : goodRefs (step5 st l rest).1 := by
  unfold step5
  dsimp only
  by_cases h1 : (Py.strip l).isEmpty = true
  · rw [if_pos h1]
    exact blankStep5_good ⟨h.1, h.2⟩
  · rw [if_neg h1]
    have ht : ∃ c ∈ Py.strip l, Py.isSpace c = false := by
      cases hs : Py.strip l with
      | nil => rw [hs] at h1; simp at h1
      | cons a tt =>
        have hh := Sanitize.strip_head l
        rw [hs] at hh
        simp only [List.head?_cons, Option.all_some, Bool.not_eq_true'] at hh
        exact ⟨a, by simp, hh⟩
    by_cases h2 : (st.atLineZero && !headIs (fun c => c == '#') (Py.strip l)) = true
    · rw [if_pos h2]
      exact ⟨h.1, h.2⟩
    · rw [if_neg h2]
      by_cases h3 : (startsWith "[ABSTRACT]".data (Py.strip l) ||
          Py.strip l == "摘要".data) = true
      · rw [if_pos h3]
        exact ⟨h.1, h.2⟩
      · rw [if_neg h3]
        by_cases h4 : (startsWith "关键词：".data (Py.strip l) ||
            startsWith "关键词:".data (Py.strip l)) = true
        · rw [if_pos h4]
          exact ⟨h.1, h.2⟩
        · rw [if_neg h4]
          by_cases h5 : (startsWith "[ABSTRACT_EN]".data (pyUpper (Py.strip l)) ||
              pyUpper (Py.strip l) == "ABSTRACT".data) = true
          · rw [if_pos h5]
            exact ⟨h.1, h.2⟩
          · rw [if_neg h5]
            by_cases h6 : (startsWith "key words:".data (pyLower (Py.strip l)) ||
                startsWith "keywords:".data (pyLower (Py.strip l))) = true
            · rw [if_pos h6]
              exact ⟨h.1, h.2⟩
            · rw [if_neg h6]
              by_cases h7 : startsWith "[BODY]".data (Py.strip l) = true
              · rw [if_pos h7]
                exact ⟨h.1, h.2⟩
              · rw [if_neg h7]
                by_cases h8 : h1Test (Py.strip l) = true
                · rw [if_pos h8]
                  exact step5b_good (Py.strip l) rest ⟨h.1, h.2⟩ ht
                · rw [if_neg h8]
                  exact step5b_good (Py.strip l) rest ⟨h.1, h.2⟩ ht

theorem parse5Aux_good :
    ∀ (fuel : Nat) (st : State5) (ls : List Line) (st' : State5),
      goodRefs st → parse5Aux fuel st ls = some st' → goodRefs st' := by
  intro fuel
  induction fuel with
  | zero =>
    intro st ls st' hg h
    cases ls with
    | nil =>
      simp only [parse5Aux, Option.some.injEq] at h
      rw [← h]
      exact hg
    | cons l rest => simp [parse5Aux] at h
  | succ f ih =>
    intro st ls st' hg h
    cases ls with
    | nil =>
      simp only [parse5Aux, Option.some.injEq] at h
      rw [← h]
      exact hg
    | cons l rest =>
      exact ih (step5 st l rest).1 (step5 st l rest).2 st'
        (step5_good l rest hg) h

theorem buildRefsGo_indices :
    ∀ (buf : List Line) (k : Nat), (∀ e ∈ buf, Py.strip e ≠ []) →
      (buildRefsGo k buf).map (fun r => r.index) = List.range' k buf.length := by
  intro buf
  induction buf with
  | nil =>
    intro k _
    rfl
  | cons e rest ih =>
    intro k h
    have he : (Py.strip e).isEmpty = false := by
      cases hs : Py.strip e with
      | nil => exact absurd hs (h e (by simp))
      | cons a t => rfl
    rw [buildRefsGo]
    simp only [he, Bool.false_eq_true, if_false]
    rw [List.map_cons]
    rw [ih (k + 1) (fun x hx => h x (by simp [hx]))]
    have : (match refCapture (Py.strip e) with
        | some (n, cap) =>
          (⟨k, some (Py.digitsToNat n), Py.strip cap, Py.strip e⟩ : RefEntry)
        | none => ⟨k, none, Py.strip e, Py.strip e⟩).index = k := by
      cases refCapture (Py.strip e) with
      | none => rfl
      | some p => cases p with | _ a b => rfl
    rw [this, List.length_cons, List.range'_succ]

theorem goodBuf_strip_ne {l : List Line} (h : goodBuf l) :
    ∀ e ∈ l, Py.strip e ≠ [] := by
  intro e he hnil
  obtain ⟨c, hc, hw⟩ := h e he
  rw [strip_nil_all_space hnil c hc] at hw
  exact absurd hw (by simp)

theorem finalize5_refs_contig {st : State5} (h : goodRefs st) :
    (finalize5 st).references.map (fun r => r.index) =
      List.range' 1 (finalize5 st).references.length := by
  unfold finalize5
  dsimp only
  have hf : goodRefs (flushRefs5 (finalPara5 st)) := by
    apply flushRefs5_good
    unfold finalPara5
    split_ifs
    · constructor
      · show goodBuf (sinkPara5 st (paraText st)).refsBuffer
        rw [(sinkPara5_refs st (paraText st)).1]
        exact h.1
      · show goodBuf (sinkPara5 st (paraText st)).curRefLines
        rw [(sinkPara5_refs st (paraText st)).2]
        exact h.2
    · exact h
  have hne := goodBuf_strip_ne hf.1
  unfold buildReferencesList
  rw [buildRefsGo_indices _ 1 hne]
  have hlen : (buildRefsGo 1 (flushRefs5 (finalPara5 st)).refsBuffer).length =
      (flushRefs5 (finalPara5 st)).refsBuffer.length := by
    have hm := buildRefsGo_indices (flushRefs5 (finalPara5 st)).refsBuffer 1 hne
    have := congrArg List.length hm
    simpa using this
  rw [hlen]

end P5

/-- C3: for every input, the e5 reference list's `index` values
(displayIndex) form the contiguous run 1..N in collection order,
independent of the bracket numbers in the source; and for the raw entry
lines `"[5] A"`, `"B continued"`, `"[2] C"` the builder produces exactly
two entries with displayIndex 1 and 2 and originalIndex 5 and 2. -/
theorem c3_references_contiguous :
    (∀ text : Parse.Line,
        ((P5.parse_text text).references).map (fun r => r.index) =
          List.range' 1 ((P5.parse_text text).references).length) ∧
    (P5.parse_text "T\n[REFERENCES]\n[5] A\nB continued\n[2] C".data).references =
      [⟨1, some 5, "A B continued".data, "[5] A B continued".data⟩,
       ⟨2, some 2, "C".data, "[2] C".data⟩] := by
  constructor
  · intro text
    unfold P5.parse_text
    dsimp only
    have hfl := P5.parse5Aux_fuel (Py.splitChar '\n' text).length P5.init5
      (Py.splitChar '\n' text) le_rfl
    obtain ⟨st', hst'⟩ := Option.isSome_iff_exists.mp hfl.2
    rw [hst']
    simp only [Option.getD_some]
    exact P5.finalize5_refs_contig
      (P5.parse5Aux_good (Py.splitChar '\n' text).length P5.init5
        (Py.splitChar '\n' text) st' ⟨P5.goodBuf_nil, P5.goodBuf_nil⟩ hst')
  · rfl

/-!
Shallow embedding of the e5 formatter (`src/projects/e5/custom/formatter.py`):
the parts of `generate` that determine caption numbering (SEQ fields),
bookmark (anchor) names, and citation rendering.  Styling, fonts, page
layout and the produced XML carry no information relevant to the claims
below and are not modelled; a paragraph's produced runs are modelled as a
list of pieces (plain runs and internal-hyperlink runs).
-/

namespace Py

/-- One decimal digit character, as produced by `str` on the digits 0-9. -/
def digitChar : Nat → Char
  | 0 => '0' | 1 => '1' | 2 => '2' | 3 => '3' | 4 => '4'
  | 5 => '5' | 6 => '6' | 7 => '7' | 8 => '8' | _ => '9'

/-- Fueled core of decimal rendering (the fuel `n + 1` always suffices). -/
def natStrCore : Nat → Nat → List Char → List Char
  | 0, _, acc => acc
  | fuel + 1, n, acc =>
    let d := digitChar (n % 10)
    if n / 10 = 0 then d :: acc else natStrCore fuel (n / 10) (d :: acc)

/-- Python `str(n)` for a non-negative integer. -/
def natStr (n : Nat) : List Char :=
  natStrCore (n + 1) n []

theorem digitChar_toNat {d : Nat} (h : d < 10) : (digitChar d).toNat = 48 + d := by
  interval_cases d <;> rfl

theorem digitsToNat_shift (s : List Char) :
    ∀ a : Nat,
      List.foldl (fun acc c => acc * 10 + (c.toNat - '0'.toNat)) a s =
        a * 10 ^ s.length + Py.digitsToNat s := by
  induction s with
  | nil => intro a; simp [Py.digitsToNat]
  | cons c rest ih =>
    intro a
    have hrest : Py.digitsToNat (c :: rest) =
        (c.toNat - '0'.toNat) * 10 ^ rest.length + Py.digitsToNat rest := by
      unfold Py.digitsToNat
      rw [List.foldl_cons, ih (0 * 10 + (c.toNat - '0'.toNat))]
      ring_nf
      rfl
    rw [List.foldl_cons, ih (a * 10 + (c.toNat - '0'.toNat)), hrest]
    simp [List.length_cons, pow_succ]
    ring

theorem natStrCore_toNat :
    ∀ (fuel n : Nat) (acc : List Char), n < 10 ^ fuel →
      Py.digitsToNat (natStrCore fuel n acc) =
        n * 10 ^ acc.length + Py.digitsToNat acc := by
  intro fuel
  induction fuel with
  | zero => intro n acc h; simp at h; simp [natStrCore, h]
  | succ fuel ih =>
    intro n acc h
    unfold natStrCore
    dsimp only
    have hd : Py.digitsToNat (digitChar (n % 10) :: acc) =
        (n % 10) * 10 ^ acc.length + Py.digitsToNat acc := by
      have hm : n % 10 < 10 := Nat.mod_lt _ (by norm_num)
      have hdig : (digitChar (n % 10)).toNat - '0'.toNat = n % 10 := by
        rw [digitChar_toNat hm]
        have h0 : '0'.toNat = 48 := rfl
        omega
      have h1 : Py.digitsToNat (digitChar (n % 10) :: acc) =
          List.foldl (fun acc c => acc * 10 + (c.toNat - '0'.toNat))
            (0 * 10 + ((digitChar (n % 10)).toNat - '0'.toNat)) acc := rfl
      rw [h1, digitsToNat_shift, hdig]
      simp
    by_cases h0 : n / 10 = 0
    · rw [if_pos h0]
      have hn : n < 10 := by omega
      have : n % 10 = n := Nat.mod_eq_of_lt hn
      rw [hd, this]
    · rw [if_neg h0]
      have hlt : n / 10 < 10 ^ fuel := by
        have h10 : n < 10 ^ fuel * 10 := by
          rw [← pow_succ]; exact h
        exact (Nat.div_lt_iff_lt_mul (show 0 < 10 by norm_num)).mpr h10
      rw [ih (n / 10) (digitChar (n % 10) :: acc) hlt, hd]
      have hlen : (digitChar (n % 10) :: acc).length = acc.length + 1 := rfl
      rw [hlen]
      have : n / 10 * 10 ^ (acc.length + 1) + ((n % 10) * 10 ^ acc.length +
          Py.digitsToNat acc) =
          (n / 10 * 10 + n % 10) * 10 ^ acc.length + Py.digitsToNat acc := by
        rw [pow_succ]; ring
      rw [this]
      have hdm : n / 10 * 10 + n % 10 = n := by omega
      rw [hdm]

theorem natStr_toNat (n : Nat) : Py.digitsToNat (natStr n) = n := by
  unfold natStr
  rw [natStrCore_toNat (n + 1) n [] (Nat.lt_pow_self (by norm_num) n |>.trans
    (Nat.pow_lt_pow_succ (by norm_num)))]
  simp [Py.digitsToNat]

theorem natStr_inj {m n : Nat} (h : natStr m = natStr n) : m = n := by
  have := congrArg Py.digitsToNat h
  rwa [natStr_toNat, natStr_toNat] at this

end Py

namespace F5

open Parse P5

/-- `_resolve_chapter_number(raw_number, default='1')` (formatter.py lines
1444-1457): strip; a pure digit string is returned whole; otherwise the
string is split on `.` and `-` and the first all-digit part is returned;
otherwise the default `'1'`. -/
def resolveChapterNumber (raw : Option Line) : Line :=
  match raw with
  | none => ['1']
  | some r =>
    let text := Py.strip r
    if text.isEmpty then ['1']
    else if Py.isDigitString text then text
    else
      match (List.splitOnP (fun c => c == '.' || c == '-') text).find?
          Py.isDigitString with
      | some part => part
      | none => ['1']

/-!
Caption numbering (claim C1).  `_add_figure` computes
`chapter_num = _resolve_chapter_number(figure_data['number'])` and renders
the caption number through `_render_seq_template`: the `{chapter}` token
becomes the literal run `str(chapter_num)` and the `{seq}` token becomes a
Word `SEQ Figure_{chapter_num} \* ARABIC` field
(`_insert_seq_field` with `chapter_based=True`).  Word SEQ semantics
(outside the repository, modelled from its documented behaviour): each
sequence name has one document-global counter, and the k-th SEQ field of a
given name displays k.  A figure caption's numeric content is therefore the
pair (chapter token, displayed SEQ value), collected in document order. -/

/-- Number of prior occurrences of `name`, and the counts after one more. -/
def seqBump (counts : List (Line × Nat)) (name : Line) :
    Nat × List (Line × Nat) :=
  let k := ((counts.lookup name).getD 0) + 1
  (k, (name, k) :: counts)

/-- Walk a chapter's content nodes, emitting for each figure the rendered
`{chapter}` token and the displayed SEQ value of `SEQ Figure_{chapter}`. -/
def figSeqGo (counts : List (Line × Nat)) :
    List Node5 → List (Line × Nat) × List (Line × Nat)
  | [] => ([], counts)
  | Node5.figure num _ _ _ :: rest =>
    let ch := resolveChapterNumber (some num)
    let nm := "Figure_".data ++ ch
    let (k, counts') := seqBump counts nm
    let (ps, counts'') := figSeqGo counts' rest
    ((ch, k) :: ps, counts'')
  | _ :: rest => figSeqGo counts rest

def figSeqChapters (counts : List (Line × Nat)) :
    List Chapter5 → List (Line × Nat) × List (Line × Nat)
  | [] => ([], counts)
  | ch :: rest =>
    let (ps, counts') := figSeqGo counts ch.content
    let (qs, counts'') := figSeqChapters counts' rest
    (ps ++ qs, counts'')

/-- The (chapter token, displayed value) pairs of all figure captions of a
document, in generation order. -/
def figureNumberPairs (doc : Doc5) : List (Line × Nat) :=
  (figSeqChapters [] doc.chapters).1

/-- The raw `number` strings of the figure nodes of a content list. -/
def figNums (nodes : List Node5) : List Line :=
  nodes.filterMap (fun nd =>
    match nd with
    | Node5.figure num _ _ _ => some num
    | _ => none)

/-- The figure numbering that claim C1 describes (spec wording, for the
refinement comparison): walk chapters in order with a per-chapter counter
starting at 1, and pair each figure with its own chapter's declared number. -/
def claimedFigureNumberPairs (doc : Doc5) : List (Line × Nat) :=
  doc.chapters.bind (fun ch =>
    (List.range (figNums ch.content).length).map
      (fun i => (Py.natStr ch.number, i + 1)))

/-- Caption number in the claim's `"{chapter}-{counter}"` presentation. -/
def figLabel (p : Line × Nat) : Line :=
  p.1 ++ '-' :: Py.natStr p.2

/-!
Citation rendering (claims C4, C5 and the citation anchors of C2).
`_add_text_with_citations` scans the paragraph text with
`CITATION_PATTERN = \[(\d+)\]` (finditer: leftmost, non-overlapping),
emitting each non-empty inter-match gap as one plain run and each match
through `_append_citation_run`.  The scan is modelled as a character
machine: outside a match attempt, `[` opens an attempt; inside an attempt
the collected digits grow, `]` after at least one digit completes a match,
and any other character aborts the attempt (its characters rejoin the
plain gap, and the aborting character may itself open a new attempt --
exactly the positions `finditer` retries). -/

/-- One produced run: a plain text run, or an internal hyperlink run
(citation number, run text, target bookmark, whether a new backlink
bookmark `_Citation_{n}` was created around it). -/
inductive Piece where
  | plain (text : Line)
  | link (n : Nat) (text target : Line) (isNewBacklink : Bool)
deriving DecidableEq

/-- `_append_citation_run` for the number `n`, given the number of
reference entries (the targets dict holds exactly the keys 1..numRefs)
and the allocated-backlink numbers: produces the run and the updated
allocation state. -/
def citePiece (numRefs : Nat) (alloc : List Nat) (n : Nat) :
    Piece × List Nat :=
  let txt := '[' :: Py.natStr n ++ [']']
  if 1 ≤ n ∧ n ≤ numRefs then
    if alloc.contains n then
      (Piece.link n txt ("_Reference_".data ++ Py.natStr n) false, alloc)
    else
      (Piece.link n txt ("_Reference_".data ++ Py.natStr n) true, n :: alloc)
  else
    (Piece.plain txt, alloc)

/-- The citation scan.  `gap` holds the pending plain characters, `pend`
the digits of an open match attempt. -/
def renderGo (numRefs : Nat) (alloc : List Nat) (gap : Line) :
    Option Line → Line → List Piece × List Nat
  | none, [] => ((if gap.isEmpty then [] else [Piece.plain gap]), alloc)
  | some ds, [] =>
    ([Piece.plain (gap ++ '[' :: ds)], alloc)
  | none, c :: rest =>
    if c == '[' then renderGo numRefs alloc gap (some []) rest
    else renderGo numRefs alloc (gap ++ [c]) none rest
  | some ds, c :: rest =>
    if Py.isDigit c then renderGo numRefs alloc gap (some (ds ++ [c])) rest
    else if c == ']' && !ds.isEmpty then
      let (piece, alloc') := citePiece numRefs alloc (Py.digitsToNat ds)
      let pre := if gap.isEmpty then [] else [Piece.plain gap]
      let (ps, alloc'') := renderGo numRefs alloc' [] none rest
      (pre ++ piece :: ps, alloc'')
    else if c == '[' then
      renderGo numRefs alloc (gap ++ '[' :: ds) (some []) rest
    else
      renderGo numRefs alloc (gap ++ '[' :: ds ++ [c]) none rest

/-- `_add_text_with_citations`: the runs of one body paragraph, and the
backlink allocation state after it. -/
def renderTextWithCitations (numRefs : Nat) (alloc : List Nat)
    (text : Line) : List Piece × List Nat :=
  renderGo numRefs alloc [] none text

/-- The citation events of a run list: number, forward-link target,
whether a backlink anchor was created here. -/
def citeEvents (ps : List Piece) : List (Nat × Line × Bool) :=
  ps.filterMap (fun p =>
    match p with
    | Piece.link n _ tgt b => some (n, tgt, b)
    | _ => none)

/-- The numbers whose backlink anchor is created in this run list. -/
def newCits (ps : List Piece) : List Nat :=
  ps.filterMap (fun p =>
    match p with
    | Piece.link n _ _ true => some n
    | _ => none)

end F5

namespace F5

open Parse P5

/-!
Anchor (bookmark) creation (claim C2).  In one `generate` run, bookmarks
are created only by `_add_bookmark_to_paragraph` and by
`_add_internal_reference_link`'s `bookmark_name_for_location`:
`_Chapter_{chapter['number']}` per chapter (`_generate_chapter`),
`_Heading_{number.replace('.', '_')}` per heading-2/3 node,
`_Citation_{n}` at the first linked occurrence of citation number n
(`_append_citation_run`), then -- after the body -- `_Section_References`
and `_Reference_{idx}` for idx = 1..len(references)
(`_generate_references`, guarded by `has_references`),
`_Section_Acknowledgements` and `_Section_Appendix` for non-empty
sections (`_render_custom_section`).  The abstract, TOC, header/footer and
table/figure/formula helpers create no bookmarks. -/

inductive Anchor where
  | chapter (n : Nat)
  | heading (s : Line)
  | citation (n : Nat)
  | reference (n : Nat)
  | secRefs
  | secAck
  | secApp
deriving DecidableEq

/-- `number.replace('.', '_')`. -/
def dotToUscore (s : Line) : Line :=
  s.map (fun c => if c == '.' then '_' else c)

/-- The bookmark name string of each created anchor. -/
def anchorName : Anchor → Line
  | Anchor.chapter n => "_Chapter_".data ++ Py.natStr n
  | Anchor.heading s => "_Heading_".data ++ s
  | Anchor.citation n => "_Citation_".data ++ Py.natStr n
  | Anchor.reference n => "_Reference_".data ++ Py.natStr n
  | Anchor.secRefs => "_Section_References".data
  | Anchor.secAck => "_Section_Acknowledgements".data
  | Anchor.secApp => "_Section_Appendix".data

/-- Anchors created while rendering one content node
(`_generate_chapter`'s per-item dispatch). -/
def nodeAnchors (numRefs : Nat) (alloc : List Nat) :
    Node5 → List Anchor × List Nat
  | Node5.paragraph t =>
    let (ps, alloc') := renderTextWithCitations numRefs alloc t
    ((newCits ps).map Anchor.citation, alloc')
  | Node5.heading2 num _ => ([Anchor.heading (dotToUscore num)], alloc)
  | Node5.heading3 num _ => ([Anchor.heading (dotToUscore num)], alloc)
  | _ => ([], alloc)

def contentAnchors (numRefs : Nat) (alloc : List Nat) :
    List Node5 → List Anchor × List Nat
  | [] => ([], alloc)
  | nd :: rest =>
    let (a1, alloc1) := nodeAnchors numRefs alloc nd
    let (a2, alloc2) := contentAnchors numRefs alloc1 rest
    (a1 ++ a2, alloc2)

def chaptersAnchors (numRefs : Nat) (alloc : List Nat) :
    List Chapter5 → List Anchor × List Nat
  | [] => ([], alloc)
  | ch :: rest =>
    let (a1, alloc1) := contentAnchors numRefs alloc ch.content
    let (a2, alloc2) := chaptersAnchors numRefs alloc1 rest
    (Anchor.chapter ch.number :: (a1 ++ a2), alloc2)

/-- All anchors created by one `generate` run over a parsed document, in
creation order: the body walk, then the references section, then the
acknowledgements and appendix section titles. -/
def anchorList (doc : Doc5) : List Anchor :=
  let numRefs := doc.references.length
  (chaptersAnchors numRefs [] doc.chapters).1
    ++ (if numRefs = 0 then []
        else Anchor.secRefs :: (List.range' 1 numRefs).map Anchor.reference)
    ++ (if doc.acknowledgements.isEmpty then [] else [Anchor.secAck])
    ++ (if doc.appendix.isEmpty then [] else [Anchor.secApp])

/-- The bookmark names created by one run, in creation order. -/
def bookmarkNames (doc : Doc5) : List Line :=
  (anchorList doc).map anchorName

/-- The heading bookmark payload of a content node, if any. -/
def headMark : Node5 → Option Line
  | Node5.heading2 num _ => some (dotToUscore num)
  | Node5.heading3 num _ => some (dotToUscore num)
  | _ => none

/-- The heading bookmark payloads of a document, in order. -/
def headingMarks (doc : Doc5) : List Line :=
  doc.chapters.bind (fun ch => ch.content.filterMap headMark)

end F5

namespace F5

open Parse P5

@[simp] theorem figNums_nil : figNums [] = [] := rfl

@[simp] theorem figNums_fig {num cap : Line} {src hint : Option Line}
    {rest : List Node5} :
    figNums (Node5.figure num cap src hint :: rest) = num :: figNums rest := rfl

@[simp] theorem figNums_para {t : Line} {rest : List Node5} :
    figNums (Node5.paragraph t :: rest) = figNums rest := rfl

@[simp] theorem figNums_h2 {num t : Line} {rest : List Node5} :
    figNums (Node5.heading2 num t :: rest) = figNums rest := rfl

@[simp] theorem figNums_h3 {num t : Line} {rest : List Node5} :
    figNums (Node5.heading3 num t :: rest) = figNums rest := rfl

@[simp] theorem figNums_table {num cap : Line} {src : Option Line}
    {rows : List (List Line)} {rest : List Node5} :
    figNums (Node5.table num cap src rows :: rest) = figNums rest := rfl

@[simp] theorem figNums_formula {num c : Line} {rest : List Node5} :
    figNums (Node5.formula num c :: rest) = figNums rest := rfl

@[simp] theorem figSeqGo_para {counts : List (Line × Nat)} {t : Line}
    {rest : List Node5} :
    figSeqGo counts (Node5.paragraph t :: rest) = figSeqGo counts rest := rfl

@[simp] theorem figSeqGo_h2 {counts : List (Line × Nat)} {num t : Line}
    {rest : List Node5} :
    figSeqGo counts (Node5.heading2 num t :: rest) = figSeqGo counts rest := rfl

@[simp] theorem figSeqGo_h3 {counts : List (Line × Nat)} {num t : Line}
    {rest : List Node5} :
    figSeqGo counts (Node5.heading3 num t :: rest) = figSeqGo counts rest := rfl

@[simp] theorem figSeqGo_table {counts : List (Line × Nat)} {num cap : Line}
    {src : Option Line} {rows : List (List Line)} {rest : List Node5} :
    figSeqGo counts (Node5.table num cap src rows :: rest) =
      figSeqGo counts rest := rfl

@[simp] theorem figSeqGo_formula {counts : List (Line × Nat)} {num c : Line}
    {rest : List Node5} :
    figSeqGo counts (Node5.formula num c :: rest) = figSeqGo counts rest := rfl

theorem figSeqGo_fig {counts : List (Line × Nat)} {num cap : Line}
    {src hint : Option Line} {rest : List Node5} :
    figSeqGo counts (Node5.figure num cap src hint :: rest) =
      ((resolveChapterNumber (some num),
        ((counts.lookup
            ("Figure_".data ++ resolveChapterNumber (some num))).getD 0) + 1)
        :: (figSeqGo
            (("Figure_".data ++ resolveChapterNumber (some num),
              ((counts.lookup
                  ("Figure_".data ++ resolveChapterNumber (some num))).getD 0)
                + 1) :: counts) rest).1,
      (figSeqGo
          (("Figure_".data ++ resolveChapterNumber (some num),
            ((counts.lookup
                ("Figure_".data ++ resolveChapterNumber (some num))).getD 0)
              + 1) :: counts) rest).2) := rfl

theorem figSeqGo_const (key : Line) :
    ∀ (nodes : List Node5) (counts : List (Line × Nat)),
      (∀ num ∈ figNums nodes, resolveChapterNumber (some num) = key) →
      (figSeqGo counts nodes).1 =
        (List.range (figNums nodes).length).map
          (fun i => (key, (counts.lookup ("Figure_".data ++ key)).getD 0 + i + 1))
      ∧ (∀ nm' : Line,
          (((figSeqGo counts nodes).2.lookup nm').getD 0) =
            if nm' = "Figure_".data ++ key
            then (counts.lookup nm').getD 0 + (figNums nodes).length
            else (counts.lookup nm').getD 0) := by
  intro nodes
  induction nodes with
  | nil =>
    intro counts _
    refine ⟨by simp [figSeqGo], ?_⟩
    intro nm'
    by_cases h : nm' = "Figure_".data ++ key <;> simp [figSeqGo, h]
  | cons nd rest ih =>
    intro counts hkey
    cases nd with
    | figure num cap src hint =>
      have hk : resolveChapterNumber (some num) = key := by
        apply hkey; simp
      have hrest : ∀ num' ∈ figNums rest, resolveChapterNumber (some num') = key :=
        fun num' hm => hkey num' (by simp [hm])
      rw [figSeqGo_fig, hk]
      obtain ⟨ih1, ih2⟩ := ih
        (("Figure_".data ++ key,
          ((counts.lookup ("Figure_".data ++ key)).getD 0) + 1) :: counts) hrest
      have hlk :
          ((((("Figure_".data ++ key,
              ((counts.lookup ("Figure_".data ++ key)).getD 0) + 1) :: counts)).lookup
            ("Figure_".data ++ key)).getD 0) =
          ((counts.lookup ("Figure_".data ++ key)).getD 0) + 1 := by
        simp [List.lookup]
      constructor
      · rw [ih1, hlk]
        rw [figNums_fig, List.length_cons, List.range_succ_eq_map,
          List.map_cons, List.map_map]
        congr 1
        simp
        intro a _
        omega
      · intro nm'
        rw [ih2 nm']
        by_cases h : nm' = "Figure_".data ++ key
        · rw [if_pos h, if_pos h, h]
          simp [List.lookup]
          omega
        · rw [if_neg h, if_neg h]
          have hbe : (nm' == "Figure_".data ++ key) = false := by
            simpa using h
          have hlk2 : List.lookup nm'
              (("Figure_".data ++ key,
                ((counts.lookup ("Figure_".data ++ key)).getD 0) + 1) :: counts) =
              List.lookup nm' counts := by
            simp only [List.lookup, hbe]
          rw [hlk2]
    | paragraph t => exact ih counts (fun n hm => hkey n (by simp [hm]))
    | heading2 num t => exact ih counts (fun n hm => hkey n (by simp [hm]))
    | heading3 num t => exact ih counts (fun n hm => hkey n (by simp [hm]))
    | table num cap src rows => exact ih counts (fun n hm => hkey n (by simp [hm]))
    | formula num c => exact ih counts (fun n hm => hkey n (by simp [hm]))

end F5

namespace F5

open Parse P5

theorem figSeqChapters_cons {counts : List (Line × Nat)} {ch : Chapter5}
    {rest : List Chapter5} :
    figSeqChapters counts (ch :: rest) =
      ((figSeqGo counts ch.content).1
        ++ (figSeqChapters (figSeqGo counts ch.content).2 rest).1,
       (figSeqChapters (figSeqGo counts ch.content).2 rest).2) := rfl

theorem figName_ne {a b : Nat} (h : a ≠ b) :
    ("Figure_".data ++ Py.natStr a) ≠ ("Figure_".data ++ Py.natStr b) :=
  fun hc => h (Py.natStr_inj (List.append_cancel_left hc))

theorem figSeqChapters_spec :
    ∀ (chs : List Chapter5) (counts : List (Line × Nat)),
      (∀ ch ∈ chs, ∀ num ∈ figNums ch.content,
        resolveChapterNumber (some num) = Py.natStr ch.number) →
      ((chs.map Chapter5.number).Nodup) →
      (∀ ch ∈ chs,
        (counts.lookup ("Figure_".data ++ Py.natStr ch.number)).getD 0 = 0) →
      (figSeqChapters counts chs).1 =
        chs.bind (fun ch =>
          (List.range (figNums ch.content).length).map
            (fun i => (Py.natStr ch.number, i + 1)))
      ∧ ∀ m : Nat, m ∉ chs.map Chapter5.number →
          ((figSeqChapters counts chs).2.lookup
              ("Figure_".data ++ Py.natStr m)).getD 0 =
            (counts.lookup ("Figure_".data ++ Py.natStr m)).getD 0 := by
  intro chs
  induction chs with
  | nil =>
    intro counts _ _ _
    exact ⟨by simp [figSeqChapters], fun m _ => rfl⟩
  | cons ch rest ih =>
    intro counts hkey hnodup hcounts
    have hkch : ∀ num ∈ figNums ch.content,
        resolveChapterNumber (some num) = Py.natStr ch.number :=
      hkey ch (by simp)
    obtain ⟨hgo1, hgo2⟩ := figSeqGo_const (Py.natStr ch.number) ch.content counts hkch
    have hc0 : (counts.lookup ("Figure_".data ++ Py.natStr ch.number)).getD 0 = 0 :=
      hcounts ch (by simp)
    have hhead : ch.number ∉ rest.map Chapter5.number := by
      have := hnodup
      rw [List.map_cons, List.nodup_cons] at this
      exact this.1
    have hcounts' : ∀ ch2 ∈ rest,
        (((figSeqGo counts ch.content).2.lookup
            ("Figure_".data ++ Py.natStr ch2.number)).getD 0) = 0 := by
      intro ch2 hm
      rw [hgo2]
      have hne : ch2.number ≠ ch.number := by
        intro hc
        exact hhead (hc ▸ List.mem_map_of_mem Chapter5.number hm)
      rw [if_neg (figName_ne hne)]
      exact hcounts ch2 (by simp [hm])
    obtain ⟨ih1, ih2⟩ := ih (figSeqGo counts ch.content).2
      (fun c hm => hkey c (by simp [hm]))
      (by rw [List.map_cons, List.nodup_cons] at hnodup; exact hnodup.2)
      hcounts'
    constructor
    · rw [figSeqChapters_cons]
      dsimp only
      rw [hgo1, ih1, hc0]
      have hbc : (ch :: rest).bind
          (fun c => (List.range (figNums c.content).length).map
            (fun i => (Py.natStr c.number, i + 1))) =
          ((List.range (figNums ch.content).length).map
            (fun i => (Py.natStr ch.number, i + 1)))
          ++ rest.bind (fun c => (List.range (figNums c.content).length).map
            (fun i => (Py.natStr c.number, i + 1))) := rfl
      rw [hbc]
      congr 1
      apply List.map_congr_left
      intro i _
      simp
    · intro m hm
      rw [List.map_cons] at hm
      have hm1 : m ≠ ch.number := fun hc => hm (by simp [hc])
      have hm2 : m ∉ rest.map Chapter5.number := fun hc => hm (by simp [hc])
      rw [figSeqChapters_cons]
      dsimp only
      rw [ih2 m hm2, hgo2, if_neg (figName_ne hm1)]

end F5

/-- **C1 counterexample.**  The claim says figure numbers are
chapter-scoped: the chapter part is the enclosing chapter's declared
number and the counter restarts at 1 per chapter.  In the code the
chapter part is `_resolve_chapter_number` of the figure's own raw id and
the SEQ counter is per sequence *name*, document-global: a figure with
raw id "2-5" sitting in chapter 1 gets chapter token "2", and a later
figure with raw id "2-1" in chapter 2 continues that same `Figure_2`
sequence at 2 instead of restarting at 1. -/
theorem c1_counterexample :
    (F5.figureNumberPairs
        ⟨"T".data, [], [], [], [],
         [⟨1, "A".data, [P5.Node5.figure "2-5".data "c".data none none]⟩,
          ⟨2, "B".data, [P5.Node5.figure "2-1".data "d".data none none]⟩],
         [], [], []⟩ =
      [("2".data, 1), ("2".data, 2)]) ∧
    (F5.claimedFigureNumberPairs
        ⟨"T".data, [], [], [], [],
         [⟨1, "A".data, [P5.Node5.figure "2-5".data "c".data none none]⟩,
          ⟨2, "B".data, [P5.Node5.figure "2-1".data "d".data none none]⟩],
         [], [], []⟩ =
      [("1".data, 1), ("2".data, 1)]) ∧
    F5.figureNumberPairs
        ⟨"T".data, [], [], [], [],
         [⟨1, "A".data, [P5.Node5.figure "2-5".data "c".data none none]⟩,
          ⟨2, "B".data, [P5.Node5.figure "2-1".data "d".data none none]⟩],
         [], [], []⟩ ≠
      F5.claimedFigureNumberPairs
        ⟨"T".data, [], [], [], [],
         [⟨1, "A".data, [P5.Node5.figure "2-5".data "c".data none none]⟩,
          ⟨2, "B".data, [P5.Node5.figure "2-1".data "d".data none none]⟩],
         [], [], []⟩ := by
  refine ⟨by decide, by decide, by decide⟩

/-- **C1 (amended).**  If every figure's raw id resolves
(`_resolve_chapter_number`) to its enclosing chapter's declared number,
and the declared chapter numbers are pairwise distinct, then the
caption numbering is exactly the claimed chapter-scoped numbering:
the k-th figure of a chapter displays (chapter number, k). -/
theorem c1_amended_chapter_scoped (doc : P5.Doc5)
    (hids : ∀ ch ∈ doc.chapters, ∀ num ∈ F5.figNums ch.content,
      F5.resolveChapterNumber (some num) = Py.natStr ch.number)
    (hnodup : (doc.chapters.map P5.Chapter5.number).Nodup) :
    F5.figureNumberPairs doc = F5.claimedFigureNumberPairs doc := by
  unfold F5.figureNumberPairs F5.claimedFigureNumberPairs
  exact (F5.figSeqChapters_spec doc.chapters [] hids hnodup (by simp)).1

/-- Witness for the C1 amended theorem: the spec's own example (chapter 1
with three figures, chapter 2 with two) in the claimed
"{chapter}-{counter}" presentation. -/
theorem c1_amended_chapter_scoped_witness :
    F5.figureNumberPairs
        ⟨"T".data, [], [], [], [],
         [⟨1, "A".data,
           [P5.Node5.figure "1-1".data "c1".data none none,
            P5.Node5.figure "1-2".data "c2".data none none,
            P5.Node5.figure "1-3".data "c3".data none none]⟩,
          ⟨2, "B".data,
           [P5.Node5.figure "2-1".data "d1".data none none,
            P5.Node5.figure "2-2".data "d2".data none none]⟩],
         [], [], []⟩ =
      F5.claimedFigureNumberPairs
        ⟨"T".data, [], [], [], [],
         [⟨1, "A".data,
           [P5.Node5.figure "1-1".data "c1".data none none,
            P5.Node5.figure "1-2".data "c2".data none none,
            P5.Node5.figure "1-3".data "c3".data none none]⟩,
          ⟨2, "B".data,
           [P5.Node5.figure "2-1".data "d1".data none none,
            P5.Node5.figure "2-2".data "d2".data none none]⟩],
         [], [], []⟩ ∧
    (F5.figureNumberPairs
        ⟨"T".data, [], [], [], [],
         [⟨1, "A".data,
           [P5.Node5.figure "1-1".data "c1".data none none,
            P5.Node5.figure "1-2".data "c2".data none none,
            P5.Node5.figure "1-3".data "c3".data none none]⟩,
          ⟨2, "B".data,
           [P5.Node5.figure "2-1".data "d1".data none none,
            P5.Node5.figure "2-2".data "d2".data none none]⟩],
         [], [], []⟩).map F5.figLabel =
      ["1-1".data, "1-2".data, "1-3".data, "2-1".data, "2-2".data] :=
  ⟨c1_amended_chapter_scoped
      ⟨"T".data, [], [], [], [],
       [⟨1, "A".data,
         [P5.Node5.figure "1-1".data "c1".data none none,
          P5.Node5.figure "1-2".data "c2".data none none,
          P5.Node5.figure "1-3".data "c3".data none none]⟩,
        ⟨2, "B".data,
         [P5.Node5.figure "2-1".data "d1".data none none,
          P5.Node5.figure "2-2".data "d2".data none none]⟩],
       [], [], []⟩ (by decide) (by decide),
   by decide⟩

namespace F5

open Parse P5

theorem renderGo_nil_none {numRefs : Nat} {alloc : List Nat} {gap : Line} :
    renderGo numRefs alloc gap none [] =
      ((if gap.isEmpty then [] else [Piece.plain gap]), alloc) := rfl

theorem renderGo_nil_some {numRefs : Nat} {alloc : List Nat} {gap ds : Line} :
    renderGo numRefs alloc gap (some ds) [] =
      ([Piece.plain (gap ++ '[' :: ds)], alloc) := rfl

theorem renderGo_cons_none {numRefs : Nat} {alloc : List Nat} {gap : Line}
    {c : Char} {rest : Line} :
    renderGo numRefs alloc gap none (c :: rest) =
      if c == '[' then renderGo numRefs alloc gap (some []) rest
      else renderGo numRefs alloc (gap ++ [c]) none rest := rfl

theorem renderGo_cons_some {numRefs : Nat} {alloc : List Nat} {gap ds : Line}
    {c : Char} {rest : Line} :
    renderGo numRefs alloc gap (some ds) (c :: rest) =
      if Py.isDigit c then renderGo numRefs alloc gap (some (ds ++ [c])) rest
      else if c == ']' && !ds.isEmpty then
        ((if gap.isEmpty then [] else [Piece.plain gap])
          ++ (citePiece numRefs alloc (Py.digitsToNat ds)).1
            :: (renderGo numRefs
                (citePiece numRefs alloc (Py.digitsToNat ds)).2 [] none rest).1,
         (renderGo numRefs
            (citePiece numRefs alloc (Py.digitsToNat ds)).2 [] none rest).2)
      else if c == '[' then
        renderGo numRefs alloc (gap ++ '[' :: ds) (some []) rest
      else renderGo numRefs alloc (gap ++ '[' :: ds ++ [c]) none rest := rfl

/-- With no reference entries every run is plain and no backlink is
allocated, whatever the text. -/
theorem renderGo_noRefs :
    ∀ (s : Line) (alloc : List Nat) (gap : Line) (pend : Option Line),
      (renderGo 0 alloc gap pend s).2 = alloc ∧
      ∀ p ∈ (renderGo 0 alloc gap pend s).1, ∃ t, p = Piece.plain t := by
  intro s
  induction s with
  | nil =>
    intro alloc gap pend
    cases pend with
    | none =>
      refine ⟨rfl, ?_⟩
      by_cases hg : gap.isEmpty <;> simp [renderGo_nil_none, hg]
    | some ds =>
      refine ⟨rfl, ?_⟩
      simp [renderGo_nil_some]
  | cons c rest ih =>
    intro alloc gap pend
    cases pend with
    | none =>
      rw [renderGo_cons_none]
      by_cases h : (c == '[') = true
      · rw [if_pos h]; exact ih alloc gap (some [])
      · rw [if_neg h]; exact ih alloc (gap ++ [c]) none
    | some ds =>
      rw [renderGo_cons_some]
      by_cases h1 : Py.isDigit c = true
      · rw [if_pos h1]; exact ih alloc gap (some (ds ++ [c]))
      · rw [if_neg h1]
        by_cases h2 : (c == ']' && !ds.isEmpty) = true
        · rw [if_pos h2]
          have hcp : citePiece 0 alloc (Py.digitsToNat ds) =
              (Piece.plain ('[' :: Py.natStr (Py.digitsToNat ds) ++ [']']),
               alloc) := by
            unfold citePiece
            rw [if_neg (by omega)]
          rw [hcp]
          dsimp only
          obtain ⟨ihA, ihB⟩ := ih alloc [] none
          refine ⟨ihA, ?_⟩
          intro p hp
          rw [List.mem_append] at hp
          cases hp with
          | inl hp =>
            by_cases hg : gap.isEmpty
            · rw [if_pos hg] at hp; cases hp
            · rw [if_neg hg] at hp
              rw [List.mem_singleton] at hp
              exact ⟨gap, hp⟩
          | inr hp =>
            rw [List.mem_cons] at hp
            cases hp with
            | inl hp => exact ⟨_, hp⟩
            | inr hp => exact ihB p hp
        · rw [if_neg h2]
          by_cases h3 : (c == '[') = true
          · rw [if_pos h3]; exact ih alloc (gap ++ '[' :: ds) (some [])
          · rw [if_neg h3]; exact ih alloc (gap ++ '[' :: ds ++ [c]) none

end F5

/-- **C5 counterexample.**  The claim says a dangling citation is
rendered with the same literal characters as the source token.
`_append_citation_run` rebuilds the text as `f'[{int(match.group(1))}]'`,
so the dangling token "[03]" is rendered as the plain run "[3]": plain
and unlinked indeed, but not the same literal characters. -/
theorem c5_counterexample :
    F5.renderTextWithCitations 0 [] "x [03] y".data =
      ([F5.Piece.plain "x ".data, F5.Piece.plain "[3]".data,
        F5.Piece.plain " y".data], []) ∧
    "[3]".data ≠ "[03]".data :=
  ⟨by decide, by decide⟩

/-- **C5 (amended).**  A citation number with no matching reference entry
is rendered as a plain, unlinked run spelled `'[' + str(n) + ']'` (the
canonical decimal form, which drops leading zeros of the source token),
no backlink is allocated, and no error is raised; in particular with an
empty reference list every produced run of every body text is plain and
the allocation state stays empty. -/
theorem c5_amended_dangling :
    (∀ (numRefs : Nat) (alloc : List Nat) (n : Nat),
      ¬ (1 ≤ n ∧ n ≤ numRefs) →
      F5.citePiece numRefs alloc n =
        (F5.Piece.plain ('[' :: Py.natStr n ++ [']']), alloc)) ∧
    (∀ text : Parse.Line,
      (F5.renderTextWithCitations 0 [] text).2 = [] ∧
      ∀ p ∈ (F5.renderTextWithCitations 0 [] text).1,
        ∃ s, p = F5.Piece.plain s) := by
  constructor
  · intro numRefs alloc n h
    unfold F5.citePiece
    rw [if_neg h]
  · intro text
    exact F5.renderGo_noRefs text [] [] none

/-- Witness for the C5 amended theorem at concrete inputs. -/
theorem c5_amended_dangling_witness :
    F5.citePiece 0 [] 3 = (F5.Piece.plain "[3]".data, []) ∧
    (F5.renderTextWithCitations 0 [] "x [03] z".data).2 = [] ∧
    (∃ s, F5.Piece.plain "x ".data = F5.Piece.plain s) :=
  ⟨c5_amended_dangling.1 0 [] 3 (by decide),
   (c5_amended_dangling.2 "x [03] z".data).1,
   (c5_amended_dangling.2 "x [03] z".data).2 (F5.Piece.plain "x ".data)
     (by decide)⟩

namespace F5

open Parse P5

@[simp] theorem citeEvents_nil : citeEvents [] = [] := rfl

@[simp] theorem citeEvents_plain {t : Line} {ps : List Piece} :
    citeEvents (Piece.plain t :: ps) = citeEvents ps := rfl

@[simp] theorem citeEvents_link {m : Nat} {t tgt : Line} {b : Bool}
    {ps : List Piece} :
    citeEvents (Piece.link m t tgt b :: ps) =
      (m, tgt, b) :: citeEvents ps := rfl

theorem citeEvents_append {ps qs : List Piece} :
    citeEvents (ps ++ qs) = citeEvents ps ++ citeEvents qs :=
  List.filterMap_append ps qs _

/-- Allocation discipline of the citation scan, for one targeted number
`n`: while `n` is not yet allocated the scan produces at most one
backlink-creating event for `n`, as the first event for `n`; once `n` is
allocated no event for `n` creates a backlink.  All events for `n`
forward-link to `_Reference_{n}`. -/
theorem renderGo_events {numRefs n : Nat} (h1 : 1 ≤ n) (h2 : n ≤ numRefs) :
    ∀ (s : Line) (alloc : List Nat) (gap : Line) (pend : Option Line),
      (alloc.contains n = true →
        ∃ k, (citeEvents (renderGo numRefs alloc gap pend s).1).filter
            (fun e => e.1 == n) =
          List.replicate k (n, "_Reference_".data ++ Py.natStr n, false)) ∧
      (alloc.contains n = false →
        ((citeEvents (renderGo numRefs alloc gap pend s).1).filter
            (fun e => e.1 == n) = [] ∨
         ∃ k, (citeEvents (renderGo numRefs alloc gap pend s).1).filter
            (fun e => e.1 == n) =
          (n, "_Reference_".data ++ Py.natStr n, true) ::
            List.replicate k (n, "_Reference_".data ++ Py.natStr n, false))) := by
  intro s
  induction s with
  | nil =>
    intro alloc gap pend
    cases pend with
    | none =>
      constructor
      · intro _
        refine ⟨0, ?_⟩
        by_cases hg : gap.isEmpty <;> simp [renderGo_nil_none, hg]
      · intro _
        left
        by_cases hg : gap.isEmpty <;> simp [renderGo_nil_none, hg]
    | some ds =>
      exact ⟨fun _ => ⟨0, by simp [renderGo_nil_some]⟩,
             fun _ => Or.inl (by simp [renderGo_nil_some])⟩
  | cons c rest ih =>
    intro alloc gap pend
    cases pend with
    | none =>
      rw [renderGo_cons_none]
      by_cases h : (c == '[') = true
      · rw [if_pos h]; exact ih alloc gap (some [])
      · rw [if_neg h]; exact ih alloc (gap ++ [c]) none
    | some ds =>
      rw [renderGo_cons_some]
      by_cases hd : Py.isDigit c = true
      · rw [if_pos hd]; exact ih alloc gap (some (ds ++ [c]))
      · rw [if_neg hd]
        by_cases hm : (c == ']' && !ds.isEmpty) = true
        · rw [if_pos hm]
          by_cases hT : 1 ≤ Py.digitsToNat ds ∧ Py.digitsToNat ds ≤ numRefs
          · by_cases hA : alloc.contains (Py.digitsToNat ds) = true
            · -- already-allocated target: non-creating link event
              have hcp : citePiece numRefs alloc (Py.digitsToNat ds) =
                  (Piece.link (Py.digitsToNat ds)
                    ('[' :: Py.natStr (Py.digitsToNat ds) ++ [']'])
                    ("_Reference_".data ++ Py.natStr (Py.digitsToNat ds))
                    false, alloc) := by
                unfold citePiece
                rw [if_pos hT, if_pos hA]
              rw [hcp]
              dsimp only
              have hpre : ∀ ps : List Piece,
                  citeEvents ((if gap.isEmpty then [] else [Piece.plain gap])
                    ++ ps) = citeEvents ps := by
                intro ps
                by_cases hg : gap.isEmpty <;> simp [hg, citeEvents_append]
              by_cases he : Py.digitsToNat ds = n
              · subst he
                constructor
                · intro hc
                  obtain ⟨k, hk⟩ := (ih alloc [] none).1 hc
                  refine ⟨k + 1, ?_⟩
                  rw [hpre, citeEvents_link, List.filter_cons, hk]
                  simp [List.replicate_succ]
                · intro hc
                  exact absurd hA (by rw [hc]; simp)
              · have hne : ((Py.digitsToNat ds, "_Reference_".data ++
                    Py.natStr (Py.digitsToNat ds), false).1 == n) = false := by
                  simp [he]
                constructor
                · intro hc
                  obtain ⟨k, hk⟩ := (ih alloc [] none).1 hc
                  refine ⟨k, ?_⟩
                  rw [hpre, citeEvents_link, List.filter_cons, hne]
                  exact hk
                · intro hc
                  have := (ih alloc [] none).2 hc
                  rw [hpre, citeEvents_link, List.filter_cons, hne]
                  exact this
            · -- first linked occurrence: creates the backlink
              have hcp : citePiece numRefs alloc (Py.digitsToNat ds) =
                  (Piece.link (Py.digitsToNat ds)
                    ('[' :: Py.natStr (Py.digitsToNat ds) ++ [']'])
                    ("_Reference_".data ++ Py.natStr (Py.digitsToNat ds))
                    true, Py.digitsToNat ds :: alloc) := by
                unfold citePiece
                rw [if_pos hT, if_neg hA]
              rw [hcp]
              dsimp only
              have hpre : ∀ ps : List Piece,
                  citeEvents ((if gap.isEmpty then [] else [Piece.plain gap])
                    ++ ps) = citeEvents ps := by
                intro ps
                by_cases hg : gap.isEmpty <;> simp [hg, citeEvents_append]
              by_cases he : Py.digitsToNat ds = n
              · subst he
                constructor
                · intro hc
                  exact absurd hc hA
                · intro _
                  have hc' : (Py.digitsToNat ds :: alloc).contains
                      (Py.digitsToNat ds) = true := by simp
                  obtain ⟨k, hk⟩ := (ih (Py.digitsToNat ds :: alloc) [] none).1 hc'
                  right
                  refine ⟨k, ?_⟩
                  rw [hpre, citeEvents_link, List.filter_cons, hk]
                  simp
              · have hne : ((Py.digitsToNat ds, "_Reference_".data ++
                    Py.natStr (Py.digitsToNat ds), true).1 == n) = false := by
                  simp [he]
                have hcont : (Py.digitsToNat ds :: alloc).contains n =
                    alloc.contains n := by
                  simp [List.contains_cons]
                  intro hcc
                  exact absurd hcc.symm he
                constructor
                · intro hc
                  obtain ⟨k, hk⟩ := (ih (Py.digitsToNat ds :: alloc) [] none).1
                    (by rw [hcont]; exact hc)
                  refine ⟨k, ?_⟩
                  rw [hpre, citeEvents_link, List.filter_cons, hne]
                  exact hk
                · intro hc
                  have := (ih (Py.digitsToNat ds :: alloc) [] none).2
                    (by rw [hcont]; exact hc)
                  rw [hpre, citeEvents_link, List.filter_cons, hne]
                  exact this
          · -- dangling: a plain run, no event, no allocation
            have hcp : citePiece numRefs alloc (Py.digitsToNat ds) =
                (Piece.plain ('[' :: Py.natStr (Py.digitsToNat ds) ++ [']']),
                 alloc) := by
              unfold citePiece
              rw [if_neg hT]
            rw [hcp]
            dsimp only
            have hpre : ∀ ps : List Piece,
                citeEvents ((if gap.isEmpty then [] else [Piece.plain gap])
                  ++ ps) = citeEvents ps := by
              intro ps
              by_cases hg : gap.isEmpty <;> simp [hg, citeEvents_append]
            constructor
            · intro hc
              obtain ⟨k, hk⟩ := (ih alloc [] none).1 hc
              refine ⟨k, ?_⟩
              rw [hpre, citeEvents_plain]
              exact hk
            · intro hc
              have := (ih alloc [] none).2 hc
              rw [hpre, citeEvents_plain]
              exact this
        · rw [if_neg hm]
          by_cases hb : (c == '[') = true
          · rw [if_pos hb]; exact ih alloc (gap ++ '[' :: ds) (some [])
          · rw [if_neg hb]; exact ih alloc (gap ++ '[' :: ds ++ [c]) none

end F5

namespace F5

open Parse P5

theorem range_map_first {n : Nat} {t : Line} {k : Nat} :
    (List.range (k + 1)).map (fun i => (n, t, i == 0)) =
      (n, t, true) :: List.replicate k (n, t, false) := by
  rw [List.range_succ_eq_map, List.map_cons, List.map_map]
  congr 1
  have hf : ((fun i => ((n : Nat), t, i == 0)) ∘ Nat.succ) =
      fun i : Nat => (n, t, false) := by
    funext i
    simp
  rw [hf]
  have hmap : ∀ m : Nat,
      (List.range m).map (fun i : Nat => ((n : Nat), t, false)) =
        List.replicate m (n, t, false) := by
    intro m
    induction m with
    | zero => rfl
    | succ m ihm => rw [List.range_succ, List.map_append, ihm]; simp [List.replicate_succ']
  exact hmap k

end F5

/-- **C4.**  For every body text and every citation number n with a
matching reference entry, the events for n (in scan order) are: the
first occurrence creates the backlink anchor, every later occurrence
does not, and all occurrences forward-link to the same
`_Reference_{n}` bookmark.  The spec's example text
"see [3] and later [3] again" produces exactly one backlink-creating
event and two forward links to reference 3's anchor. -/
theorem c4_citation_backlink_once :
    (∀ (text : Parse.Line) (numRefs n : Nat), 1 ≤ n → n ≤ numRefs →
      (F5.citeEvents ((F5.renderTextWithCitations numRefs [] text).1)).filter
          (fun e => e.1 == n) =
        (List.range ((F5.citeEvents
            ((F5.renderTextWithCitations numRefs [] text).1)).filter
            (fun e => e.1 == n)).length).map
          (fun i => (n, "_Reference_".data ++ Py.natStr n, i == 0))) ∧
    F5.citeEvents
        ((F5.renderTextWithCitations 3 [] "see [3] and later [3] again".data).1) =
      [(3, "_Reference_3".data, true), (3, "_Reference_3".data, false)] := by
  constructor
  · intro text numRefs n h1 h2
    unfold F5.renderTextWithCitations
    have h := (F5.renderGo_events h1 h2 text [] [] none).2 rfl
    cases h with
    | inl h => rw [h]; rfl
    | inr h =>
      obtain ⟨k, hk⟩ := h
      rw [hk]
      have hlen : ((n, "_Reference_".data ++ Py.natStr n, true) ::
          List.replicate k (n, "_Reference_".data ++ Py.natStr n, false)).length =
          k + 1 := by simp
      rw [hlen, F5.range_map_first]
  · decide

/-- Witness for C4 at a concrete input: three occurrences of "[2]" with
two reference entries. -/
theorem c4_citation_backlink_once_witness :
    (F5.citeEvents ((F5.renderTextWithCitations 2 []
        "a [2][2][2] b".data).1)).filter (fun e => e.1 == 2) =
      (List.range ((F5.citeEvents ((F5.renderTextWithCitations 2 []
          "a [2][2][2] b".data).1)).filter (fun e => e.1 == 2)).length).map
        (fun i => (2, "_Reference_".data ++ Py.natStr 2, i == 0)) :=
  c4_citation_backlink_once.1 "a [2][2][2] b".data 2 2 (by decide) (by decide)

namespace F5

open Parse P5

/-! Per-constructor payload projections of `Anchor`, used to reduce
no-duplicate reasoning about the interleaved anchor list to the payload
sequences of each bookmark family. -/

def chapP : Anchor → Option Nat
  | Anchor.chapter n => some n
  | _ => none

def headP : Anchor → Option Line
  | Anchor.heading s => some s
  | _ => none

def citP : Anchor → Option Nat
  | Anchor.citation n => some n
  | _ => none

def refP : Anchor → Option Nat
  | Anchor.reference n => some n
  | _ => none

def secRP : Anchor → Option Unit
  | Anchor.secRefs => some ()
  | _ => none

def secAP : Anchor → Option Unit
  | Anchor.secAck => some ()
  | _ => none

def secApP : Anchor → Option Unit
  | Anchor.secApp => some ()
  | _ => none

theorem filterMap_nodup_tail {β : Type} {f : Anchor → Option β} {a : Anchor}
    {rest : List Anchor} (h : ((a :: rest).filterMap f).Nodup) :
    (rest.filterMap f).Nodup := by
  cases hfa : f a with
  | none => simpa [List.filterMap_cons, hfa] using h
  | some b =>
    have h' : (b :: rest.filterMap f).Nodup := by
      simpa [List.filterMap_cons, hfa] using h
    exact h'.of_cons

theorem filterMap_nodup_head {β : Type} {f : Anchor → Option β} {a : Anchor}
    {rest : List Anchor} {b : β} (h : ((a :: rest).filterMap f).Nodup)
    (hfa : f a = some b) : b ∉ rest.filterMap f := by
  have h' : (b :: rest.filterMap f).Nodup := by
    simpa [List.filterMap_cons, hfa] using h
  exact (List.nodup_cons.mp h').1

theorem mem_proj {β : Type} {f : Anchor → Option β} {a : Anchor}
    {rest : List Anchor} (hmem : a ∈ rest) {b : β} (hfa : f a = some b) :
    b ∈ rest.filterMap f :=
  List.mem_filterMap.mpr ⟨a, hmem, hfa⟩

/-- An anchor list is duplicate-free as soon as each family's payload
sequence is: anchors of different constructors are distinct values. -/
theorem anchors_nodup_of_projs :
    ∀ l : List Anchor,
      (l.filterMap chapP).Nodup → (l.filterMap headP).Nodup →
      (l.filterMap citP).Nodup → (l.filterMap refP).Nodup →
      (l.filterMap secRP).Nodup → (l.filterMap secAP).Nodup →
      (l.filterMap secApP).Nodup → l.Nodup := by
  intro l
  induction l with
  | nil => intro _ _ _ _ _ _ _; exact List.nodup_nil
  | cons a rest ih =>
    intro h1 h2 h3 h4 h5 h6 h7
    rw [List.nodup_cons]
    refine ⟨?_, ih (filterMap_nodup_tail h1) (filterMap_nodup_tail h2)
      (filterMap_nodup_tail h3) (filterMap_nodup_tail h4)
      (filterMap_nodup_tail h5) (filterMap_nodup_tail h6)
      (filterMap_nodup_tail h7)⟩
    intro hmem
    cases a with
    | chapter n => exact filterMap_nodup_head h1 rfl (mem_proj hmem rfl)
    | heading s => exact filterMap_nodup_head h2 rfl (mem_proj hmem rfl)
    | citation n => exact filterMap_nodup_head h3 rfl (mem_proj hmem rfl)
    | reference n => exact filterMap_nodup_head h4 rfl (mem_proj hmem rfl)
    | secRefs => exact filterMap_nodup_head h5 rfl (mem_proj hmem rfl)
    | secAck => exact filterMap_nodup_head h6 rfl (mem_proj hmem rfl)
    | secApp => exact filterMap_nodup_head h7 rfl (mem_proj hmem rfl)

/-- Three-character discriminator of the bookmark families. -/
def tag3 : Anchor → Line
  | Anchor.chapter _ => "_Ch".data
  | Anchor.heading _ => "_He".data
  | Anchor.citation _ => "_Ci".data
  | Anchor.reference _ => "_Re".data
  | Anchor.secRefs => "_Se".data
  | Anchor.secAck => "_Se".data
  | Anchor.secApp => "_Se".data

theorem anchorName_take3 (a : Anchor) : (anchorName a).take 3 = tag3 a := by
  cases a <;> rfl

theorem anchorName_inj : ∀ a b : Anchor, anchorName a = anchorName b → a = b := by
  intro a b h
  cases a <;> cases b
  all_goals first
    | rfl
    | (exact absurd h (by decide))
    | (simp only [anchorName] at h
       rw [Py.natStr_inj (List.append_cancel_left h)])
    | (simp only [anchorName] at h
       rw [List.append_cancel_left h])
    | (have h3 := congrArg (List.take 3) h
       rw [anchorName_take3, anchorName_take3] at h3
       simp [tag3] at h3)

end F5

namespace F5

open Parse P5

@[simp] theorem newCits_nil : newCits [] = [] := rfl

@[simp] theorem newCits_plain {t : Line} {ps : List Piece} :
    newCits (Piece.plain t :: ps) = newCits ps := rfl

@[simp] theorem newCits_link_true {m : Nat} {t tgt : Line} {ps : List Piece} :
    newCits (Piece.link m t tgt true :: ps) = m :: newCits ps := rfl

@[simp] theorem newCits_link_false {m : Nat} {t tgt : Line} {ps : List Piece} :
    newCits (Piece.link m t tgt false :: ps) = newCits ps := rfl

theorem newCits_append {ps qs : List Piece} :
    newCits (ps ++ qs) = newCits ps ++ newCits qs :=
  List.filterMap_append ps qs _

/-- The backlink numbers created by one text scan are pairwise distinct,
none was allocated before, and the final allocation state is exactly the
old one extended by them. -/
theorem renderGo_alloc (numRefs : Nat) :
    ∀ (s : Line) (alloc : List Nat) (gap : Line) (pend : Option Line),
      (newCits (renderGo numRefs alloc gap pend s).1).Nodup ∧
      (∀ m ∈ newCits (renderGo numRefs alloc gap pend s).1, m ∉ alloc) ∧
      (∀ m : Nat, m ∈ (renderGo numRefs alloc gap pend s).2 ↔
        (m ∈ newCits (renderGo numRefs alloc gap pend s).1 ∨ m ∈ alloc)) := by
  intro s
  induction s with
  | nil =>
    intro alloc gap pend
    cases pend with
    | none =>
      by_cases hg : gap.isEmpty <;>
        simp [renderGo_nil_none, hg]
    | some ds =>
      simp [renderGo_nil_some]
  | cons c rest ih =>
    intro alloc gap pend
    cases pend with
    | none =>
      rw [renderGo_cons_none]
      by_cases h : (c == '[') = true
      · rw [if_pos h]; exact ih alloc gap (some [])
      · rw [if_neg h]; exact ih alloc (gap ++ [c]) none
    | some ds =>
      rw [renderGo_cons_some]
      by_cases hd : Py.isDigit c = true
      · rw [if_pos hd]; exact ih alloc gap (some (ds ++ [c]))
      · rw [if_neg hd]
        by_cases hm : (c == ']' && !ds.isEmpty) = true
        · rw [if_pos hm]
          have hpre : ∀ ps : List Piece,
              newCits ((if gap.isEmpty then [] else [Piece.plain gap])
                ++ ps) = newCits ps := by
            intro ps
            by_cases hg : gap.isEmpty <;> simp [hg, newCits_append]
          by_cases hT : 1 ≤ Py.digitsToNat ds ∧ Py.digitsToNat ds ≤ numRefs
          · cases hA : alloc.contains (Py.digitsToNat ds) with
            | true =>
              have hcp : citePiece numRefs alloc (Py.digitsToNat ds) =
                  (Piece.link (Py.digitsToNat ds)
                    ('[' :: Py.natStr (Py.digitsToNat ds) ++ [']'])
                    ("_Reference_".data ++ Py.natStr (Py.digitsToNat ds))
                    false, alloc) := by
                unfold citePiece
                rw [if_pos hT, if_pos hA]
              rw [hcp]
              dsimp only
              obtain ⟨ih1, ih2, ih3⟩ := ih alloc [] none
              refine ⟨?_, ?_, ?_⟩
              · rw [hpre, newCits_link_false]; exact ih1
              · rw [hpre, newCits_link_false]; exact ih2
              · intro m; rw [hpre, newCits_link_false]; exact ih3 m
            | false =>
              have hA' : ¬ (alloc.contains (Py.digitsToNat ds) = true) := by
                rw [hA]; simp
              have hAm : Py.digitsToNat ds ∉ alloc := by
                intro hx
                exact hA' (List.elem_iff.mpr hx)
              have hcp : citePiece numRefs alloc (Py.digitsToNat ds) =
                  (Piece.link (Py.digitsToNat ds)
                    ('[' :: Py.natStr (Py.digitsToNat ds) ++ [']'])
                    ("_Reference_".data ++ Py.natStr (Py.digitsToNat ds))
                    true, Py.digitsToNat ds :: alloc) := by
                unfold citePiece
                rw [if_pos hT, if_neg hA']
              rw [hcp]
              dsimp only
              obtain ⟨ih1, ih2, ih3⟩ :=
                ih (Py.digitsToNat ds :: alloc) [] none
              refine ⟨?_, ?_, ?_⟩
              · rw [hpre, newCits_link_true, List.nodup_cons]
                refine ⟨?_, ih1⟩
                intro hx
                exact (ih2 _ hx) (by simp)
              · rw [hpre, newCits_link_true]
                intro m hx
                rw [List.mem_cons] at hx
                cases hx with
                | inl hx => rw [hx]; exact hAm
                | inr hx =>
                  intro hal
                  exact (ih2 m hx) (by simp [hal])
              · intro m
                rw [hpre, newCits_link_true]
                have h3 := ih3 m
                simp only [List.mem_cons] at h3 ⊢
                tauto
          · have hcp : citePiece numRefs alloc (Py.digitsToNat ds) =
                (Piece.plain ('[' :: Py.natStr (Py.digitsToNat ds) ++ [']']),
                 alloc) := by
              unfold citePiece
              rw [if_neg hT]
            rw [hcp]
            dsimp only
            obtain ⟨ih1, ih2, ih3⟩ := ih alloc [] none
            refine ⟨?_, ?_, ?_⟩
            · rw [hpre, newCits_plain]; exact ih1
            · rw [hpre, newCits_plain]; exact ih2
            · intro m; rw [hpre, newCits_plain]; exact ih3 m
        · rw [if_neg hm]
          by_cases hb : (c == '[') = true
          · rw [if_pos hb]; exact ih alloc (gap ++ '[' :: ds) (some [])
          · rw [if_neg hb]; exact ih alloc (gap ++ '[' :: ds ++ [c]) none

end F5

namespace F5

open Parse P5

theorem contentAnchors_cons {numRefs : Nat} {alloc : List Nat} {nd : Node5}
    {rest : List Node5} :
    contentAnchors numRefs alloc (nd :: rest) =
      ((nodeAnchors numRefs alloc nd).1
        ++ (contentAnchors numRefs (nodeAnchors numRefs alloc nd).2 rest).1,
       (contentAnchors numRefs (nodeAnchors numRefs alloc nd).2 rest).2) := rfl

theorem chaptersAnchors_cons {numRefs : Nat} {alloc : List Nat}
    {ch : Chapter5} {rest : List Chapter5} :
    chaptersAnchors numRefs alloc (ch :: rest) =
      (Anchor.chapter ch.number ::
        ((contentAnchors numRefs alloc ch.content).1
          ++ (chaptersAnchors numRefs
              (contentAnchors numRefs alloc ch.content).2 rest).1),
       (chaptersAnchors numRefs
          (contentAnchors numRefs alloc ch.content).2 rest).2) := rfl

/-- Every anchor created inside a content node is a citation or heading
anchor. -/
theorem nodeAnchors_shape {numRefs : Nat} {alloc : List Nat} {nd : Node5} :
    ∀ a ∈ (nodeAnchors numRefs alloc nd).1,
      (∃ n, a = Anchor.citation n) ∨ (∃ s, a = Anchor.heading s) := by
  intro a ha
  cases nd with
  | paragraph t =>
    simp only [nodeAnchors] at ha
    rw [List.mem_map] at ha
    obtain ⟨n, _, hn⟩ := ha
    exact Or.inl ⟨n, hn.symm⟩
  | heading2 num txt =>
    simp only [nodeAnchors, List.mem_singleton] at ha
    exact Or.inr ⟨dotToUscore num, ha⟩
  | heading3 num txt =>
    simp only [nodeAnchors, List.mem_singleton] at ha
    exact Or.inr ⟨dotToUscore num, ha⟩
  | figure num cap src hint => cases ha
  | table num cap src rows => cases ha
  | formula num c => cases ha

theorem contentAnchors_shape {numRefs : Nat} :
    ∀ (nodes : List Node5) (alloc : List Nat),
      ∀ a ∈ (contentAnchors numRefs alloc nodes).1,
        (∃ n, a = Anchor.citation n) ∨ (∃ s, a = Anchor.heading s) := by
  intro nodes
  induction nodes with
  | nil => intro alloc a ha; cases ha
  | cons nd rest ih =>
    intro alloc a ha
    rw [contentAnchors_cons] at ha
    dsimp only at ha
    rw [List.mem_append] at ha
    cases ha with
    | inl ha => exact nodeAnchors_shape a ha
    | inr ha => exact ih _ a ha

theorem chaptersAnchors_shape {numRefs : Nat} :
    ∀ (chs : List Chapter5) (alloc : List Nat),
      ∀ a ∈ (chaptersAnchors numRefs alloc chs).1,
        (∃ n, a = Anchor.chapter n) ∨ (∃ n, a = Anchor.citation n) ∨
          (∃ s, a = Anchor.heading s) := by
  intro chs
  induction chs with
  | nil => intro alloc a ha; cases ha
  | cons ch rest ih =>
    intro alloc a ha
    rw [chaptersAnchors_cons] at ha
    dsimp only at ha
    rw [List.mem_cons] at ha
    cases ha with
    | inl ha => exact Or.inl ⟨ch.number, ha⟩
    | inr ha =>
      rw [List.mem_append] at ha
      cases ha with
      | inl ha =>
        cases contentAnchors_shape ch.content alloc a ha with
        | inl h => exact Or.inr (Or.inl h)
        | inr h => exact Or.inr (Or.inr h)
      | inr ha => exact ih _ a ha

theorem contentAnchors_chapP {numRefs : Nat} {nodes : List Node5}
    {alloc : List Nat} :
    ((contentAnchors numRefs alloc nodes).1.filterMap chapP) = [] := by
  rw [List.filterMap_eq_nil_iff]
  intro a ha
  cases contentAnchors_shape nodes alloc a ha with
  | inl h => obtain ⟨n, hn⟩ := h; rw [hn]; rfl
  | inr h => obtain ⟨s, hs⟩ := h; rw [hs]; rfl

theorem chaptersAnchors_chapP {numRefs : Nat} :
    ∀ (chs : List Chapter5) (alloc : List Nat),
      ((chaptersAnchors numRefs alloc chs).1.filterMap chapP) =
        chs.map Chapter5.number := by
  intro chs
  induction chs with
  | nil => intro alloc; rfl
  | cons ch rest ih =>
    intro alloc
    rw [chaptersAnchors_cons]
    dsimp only
    rw [List.filterMap_cons]
    simp only [chapP]
    rw [List.filterMap_append, contentAnchors_chapP, ih]
    rfl

theorem contentAnchors_headP {numRefs : Nat} :
    ∀ (nodes : List Node5) (alloc : List Nat),
      ((contentAnchors numRefs alloc nodes).1.filterMap headP) =
        nodes.filterMap headMark := by
  intro nodes
  induction nodes with
  | nil => intro alloc; rfl
  | cons nd rest ih =>
    intro alloc
    rw [contentAnchors_cons]
    dsimp only
    rw [List.filterMap_append, ih]
    cases nd with
    | paragraph t =>
      have h1 : ((nodeAnchors numRefs alloc (Node5.paragraph t)).1.filterMap
          headP) = [] := by
        rw [List.filterMap_eq_nil_iff]
        intro a ha
        cases nodeAnchors_shape a ha with
        | inl h => obtain ⟨n, hn⟩ := h; rw [hn]; rfl
        | inr h =>
          obtain ⟨s, hs⟩ := h
          exfalso
          simp only [nodeAnchors] at ha
          rw [List.mem_map] at ha
          obtain ⟨n, _, hn⟩ := ha
          rw [hs] at hn
          cases hn
      rw [h1]
      rfl
    | heading2 num txt => rfl
    | heading3 num txt => rfl
    | figure num cap src hint => rfl
    | table num cap src rows => rfl
    | formula num c => rfl

theorem chaptersAnchors_headP {numRefs : Nat} :
    ∀ (chs : List Chapter5) (alloc : List Nat),
      ((chaptersAnchors numRefs alloc chs).1.filterMap headP) =
        chs.bind (fun ch => ch.content.filterMap headMark) := by
  intro chs
  induction chs with
  | nil => intro alloc; rfl
  | cons ch rest ih =>
    intro alloc
    rw [chaptersAnchors_cons]
    dsimp only
    rw [List.filterMap_cons]
    simp only [headP]
    rw [List.filterMap_append, contentAnchors_headP, ih]
    rfl

end F5

namespace F5

open Parse P5

theorem nodeAnchors_para {numRefs : Nat} {alloc : List Nat} {t : Line} :
    nodeAnchors numRefs alloc (Node5.paragraph t) =
      ((newCits (renderTextWithCitations numRefs alloc t).1).map
          Anchor.citation,
       (renderTextWithCitations numRefs alloc t).2) := rfl

theorem nodeAnchors_fig {numRefs : Nat} {alloc : List Nat} {num cap : Line}
    {src hint : Option Line} :
    nodeAnchors numRefs alloc (Node5.figure num cap src hint) =
      ([], alloc) := rfl

theorem nodeAnchors_tbl {numRefs : Nat} {alloc : List Nat} {num cap : Line}
    {src : Option Line} {rows : List (List Line)} :
    nodeAnchors numRefs alloc (Node5.table num cap src rows) =
      ([], alloc) := rfl

theorem nodeAnchors_fml {numRefs : Nat} {alloc : List Nat} {num c : Line} :
    nodeAnchors numRefs alloc (Node5.formula num c) = ([], alloc) := rfl

theorem filterMap_citP_map (l : List Nat) :
    (l.map Anchor.citation).filterMap citP = l := by
  induction l with
  | nil => rfl
  | cons a t iht => simp [List.filterMap_cons, citP, iht]

theorem contentAnchors_alloc {numRefs : Nat} :
    ∀ (nodes : List Node5) (alloc : List Nat),
      ((contentAnchors numRefs alloc nodes).1.filterMap citP).Nodup ∧
      (∀ m ∈ (contentAnchors numRefs alloc nodes).1.filterMap citP,
        m ∉ alloc) ∧
      (∀ m : Nat, m ∈ (contentAnchors numRefs alloc nodes).2 ↔
        (m ∈ (contentAnchors numRefs alloc nodes).1.filterMap citP ∨
          m ∈ alloc)) := by
  intro nodes
  induction nodes with
  | nil =>
    intro alloc
    exact ⟨List.nodup_nil, fun m hm => absurd hm (List.not_mem_nil m),
      fun m => by simp [contentAnchors]⟩
  | cons nd rest ih =>
    intro alloc
    rw [contentAnchors_cons]
    dsimp only
    rw [List.filterMap_append]
    cases nd with
    | paragraph t =>
      rw [nodeAnchors_para]
      dsimp only
      rw [filterMap_citP_map]
      obtain ⟨hr1, hr2, hr3⟩ :=
        renderGo_alloc numRefs t alloc [] none
      obtain ⟨ih1, ih2, ih3⟩ := ih (renderTextWithCitations numRefs alloc t).2
      have hRT : (renderTextWithCitations numRefs alloc t) =
          renderGo numRefs alloc [] none t := rfl
      rw [hRT] at ih1 ih2 ih3 ⊢
      refine ⟨?_, ?_, ?_⟩
      · rw [List.nodup_append]
        refine ⟨hr1, ih1, ?_⟩
        intro m hm hm2
        exact (ih2 m hm2) ((hr3 m).mpr (Or.inl hm))
      · intro m hm
        rw [List.mem_append] at hm
        cases hm with
        | inl hm => exact hr2 m hm
        | inr hm =>
          intro hal
          exact (ih2 m hm) ((hr3 m).mpr (Or.inr hal))
      · intro m
        have h3 := ih3 m
        have hr3m := hr3 m
        rw [List.mem_append]
        tauto
    | heading2 num txt =>
      have h0 : (nodeAnchors numRefs alloc (Node5.heading2 num txt)).1.filterMap
          citP = [] := rfl
      rw [h0]
      simpa using ih alloc
    | heading3 num txt =>
      have h0 : (nodeAnchors numRefs alloc (Node5.heading3 num txt)).1.filterMap
          citP = [] := rfl
      rw [h0]
      simpa using ih alloc
    | figure num cap src hint =>
      rw [nodeAnchors_fig]
      simpa using ih alloc
    | table num cap src rows =>
      rw [nodeAnchors_tbl]
      simpa using ih alloc
    | formula num c =>
      rw [nodeAnchors_fml]
      simpa using ih alloc

theorem chaptersAnchors_alloc {numRefs : Nat} :
    ∀ (chs : List Chapter5) (alloc : List Nat),
      ((chaptersAnchors numRefs alloc chs).1.filterMap citP).Nodup ∧
      (∀ m ∈ (chaptersAnchors numRefs alloc chs).1.filterMap citP,
        m ∉ alloc) := by
  intro chs
  induction chs with
  | nil =>
    intro alloc
    exact ⟨List.nodup_nil, fun m hm => absurd hm (List.not_mem_nil m)⟩
  | cons ch rest ih =>
    intro alloc
    rw [chaptersAnchors_cons]
    dsimp only
    rw [List.filterMap_cons]
    simp only [citP]
    rw [List.filterMap_append]
    obtain ⟨hc1, hc2, hc3⟩ := contentAnchors_alloc ch.content alloc
    obtain ⟨ih1, ih2⟩ := ih (contentAnchors numRefs alloc ch.content).2
    refine ⟨?_, ?_⟩
    · rw [List.nodup_append]
      refine ⟨hc1, ih1, ?_⟩
      intro m hm hm2
      exact (ih2 m hm2) ((hc3 m).mpr (Or.inl hm))
    · intro m hm
      rw [List.mem_append] at hm
      cases hm with
      | inl hm => exact hc2 m hm
      | inr hm =>
        intro hal
        exact (ih2 m hm) ((hc3 m).mpr (Or.inr hal))

end F5

namespace F5

open Parse P5

theorem tail1_proj_nil {β : Type} {f : Anchor → Option β} {numRefs : Nat}
    (hs : f Anchor.secRefs = none) (hr : ∀ n, f (Anchor.reference n) = none) :
    (if numRefs = 0 then ([] : List Anchor)
      else Anchor.secRefs ::
        (List.range' 1 numRefs).map Anchor.reference).filterMap f = [] := by
  by_cases h : numRefs = 0
  · rw [if_pos h]; rfl
  · rw [if_neg h, List.filterMap_cons, hs, List.filterMap_map]
    exact List.filterMap_eq_nil_iff.mpr (fun a _ => hr a)

theorem if_single_proj_nil {β : Type} {f : Anchor → Option β} (a : Anchor)
    (hfa : f a = none) (c : Prop) [Decidable c] :
    (if c then ([] : List Anchor) else [a]).filterMap f = [] := by
  by_cases h : c
  · rw [if_pos h]; rfl
  · rw [if_neg h]; simp [List.filterMap_cons, hfa]

theorem chaptersAnchors_proj_nil {β : Type} {f : Anchor → Option β}
    {numRefs : Nat} {chs : List Chapter5} {alloc : List Nat}
    (h1 : ∀ n, f (Anchor.chapter n) = none)
    (h2 : ∀ n, f (Anchor.citation n) = none)
    (h3 : ∀ s, f (Anchor.heading s) = none) :
    ((chaptersAnchors numRefs alloc chs).1.filterMap f) = [] := by
  apply List.filterMap_eq_nil_iff.mpr
  intro a ha
  rcases chaptersAnchors_shape chs alloc a ha with ⟨n, rfl⟩ | ⟨n, rfl⟩ | ⟨s, rfl⟩
  · exact h1 n
  · exact h2 n
  · exact h3 s

theorem anchorList_eq (doc : Doc5) :
    anchorList doc =
      (chaptersAnchors doc.references.length [] doc.chapters).1
        ++ (if doc.references.length = 0 then []
            else Anchor.secRefs ::
              (List.range' 1 doc.references.length).map Anchor.reference)
        ++ (if doc.acknowledgements.isEmpty then [] else [Anchor.secAck])
        ++ (if doc.appendix.isEmpty then [] else [Anchor.secApp]) := rfl

theorem anchorList_chapP (doc : Doc5) :
    (anchorList doc).filterMap chapP = doc.chapters.map Chapter5.number := by
  rw [anchorList_eq, List.filterMap_append, List.filterMap_append,
    List.filterMap_append, chaptersAnchors_chapP,
    tail1_proj_nil rfl (fun n => rfl),
    if_single_proj_nil Anchor.secAck rfl _,
    if_single_proj_nil Anchor.secApp rfl _]
  simp

theorem anchorList_headP (doc : Doc5) :
    (anchorList doc).filterMap headP = headingMarks doc := by
  rw [anchorList_eq, List.filterMap_append, List.filterMap_append,
    List.filterMap_append, chaptersAnchors_headP,
    tail1_proj_nil rfl (fun n => rfl),
    if_single_proj_nil Anchor.secAck rfl _,
    if_single_proj_nil Anchor.secApp rfl _]
  simp [headingMarks]

theorem anchorList_citP_nodup (doc : Doc5) :
    ((anchorList doc).filterMap citP).Nodup := by
  rw [anchorList_eq, List.filterMap_append, List.filterMap_append,
    List.filterMap_append,
    tail1_proj_nil rfl (fun n => rfl),
    if_single_proj_nil Anchor.secAck rfl _,
    if_single_proj_nil Anchor.secApp rfl _]
  simpa using (chaptersAnchors_alloc doc.chapters []).1

theorem filterMap_refP_map (l : List Nat) :
    (l.map Anchor.reference).filterMap refP = l := by
  induction l with
  | nil => rfl
  | cons a t iht => simp [List.filterMap_cons, refP, iht]

theorem anchorList_refP_nodup (doc : Doc5) :
    ((anchorList doc).filterMap refP).Nodup := by
  rw [anchorList_eq, List.filterMap_append, List.filterMap_append,
    List.filterMap_append,
    chaptersAnchors_proj_nil (fun n => rfl) (fun n => rfl) (fun s => rfl),
    if_single_proj_nil Anchor.secAck rfl _,
    if_single_proj_nil Anchor.secApp rfl _]
  by_cases h : doc.references.length = 0
  · rw [if_pos h]; simp
  · rw [if_neg h, List.filterMap_cons]
    have hsec : refP Anchor.secRefs = none := rfl
    rw [hsec, List.filterMap_map]
    have hmap : List.filterMap refP
        ((List.range' 1 doc.references.length).map Anchor.reference) =
        List.range' 1 doc.references.length :=
      filterMap_refP_map _
    rw [List.filterMap_map] at hmap
    rw [hmap]
    simpa using List.nodup_range' 1 doc.references.length

theorem anchorList_secRP_nodup (doc : Doc5) :
    ((anchorList doc).filterMap secRP).Nodup := by
  rw [anchorList_eq, List.filterMap_append, List.filterMap_append,
    List.filterMap_append,
    chaptersAnchors_proj_nil (fun n => rfl) (fun n => rfl) (fun s => rfl),
    if_single_proj_nil Anchor.secAck rfl _,
    if_single_proj_nil Anchor.secApp rfl _]
  by_cases h : doc.references.length = 0
  · rw [if_pos h]; simp
  · rw [if_neg h, List.filterMap_cons]
    have hsec : secRP Anchor.secRefs = some () := rfl
    rw [hsec, List.filterMap_map]
    have hnil : (List.range' 1 doc.references.length).filterMap
        (secRP ∘ Anchor.reference) = [] :=
      List.filterMap_eq_nil_iff.mpr (fun a _ => rfl)
    rw [hnil]
    simp

theorem anchorList_secAP_nodup (doc : Doc5) :
    ((anchorList doc).filterMap secAP).Nodup := by
  rw [anchorList_eq, List.filterMap_append, List.filterMap_append,
    List.filterMap_append,
    chaptersAnchors_proj_nil (fun n => rfl) (fun n => rfl) (fun s => rfl),
    tail1_proj_nil rfl (fun n => rfl),
    if_single_proj_nil Anchor.secApp rfl _]
  by_cases h : doc.acknowledgements.isEmpty
  · rw [if_pos h]; simp
  · rw [if_neg h]; decide

theorem anchorList_secApP_nodup (doc : Doc5) :
    ((anchorList doc).filterMap secApP).Nodup := by
  rw [anchorList_eq, List.filterMap_append, List.filterMap_append,
    List.filterMap_append,
    chaptersAnchors_proj_nil (fun n => rfl) (fun n => rfl) (fun s => rfl),
    tail1_proj_nil rfl (fun n => rfl),
    if_single_proj_nil Anchor.secAck rfl _]
  by_cases h : doc.appendix.isEmpty
  · rw [if_pos h]; simp
  · rw [if_neg h]; decide

theorem anchorList_nodup (doc : Doc5)
    (hch : (doc.chapters.map Chapter5.number).Nodup)
    (hhd : (headingMarks doc).Nodup) : (anchorList doc).Nodup :=
  anchors_nodup_of_projs (anchorList doc)
    (by rw [anchorList_chapP]; exact hch)
    (by rw [anchorList_headP]; exact hhd)
    (anchorList_citP_nodup doc)
    (anchorList_refP_nodup doc)
    (anchorList_secRP_nodup doc)
    (anchorList_secAP_nodup doc)
    (anchorList_secApP_nodup doc)

end F5

/-- **C2 counterexample.**  The claim asserts anchor-name uniqueness for
every input tree, explicitly including duplicate source-declared chapter
numbers.  `_generate_chapter` names the chapter bookmark
`_Chapter_{chapter['number']}`, so two chapters both declared as number 1
create the bookmark name "_Chapter_1" twice in one run. -/
theorem c2_counterexample :
    F5.bookmarkNames
        ⟨"T".data, [], [], [], [],
         [⟨1, "A".data, []⟩, ⟨1, "B".data, []⟩], [], [], []⟩ =
      ["_Chapter_1".data, "_Chapter_1".data] ∧
    ¬ (F5.bookmarkNames
        ⟨"T".data, [], [], [], [],
         [⟨1, "A".data, []⟩, ⟨1, "B".data, []⟩], [], [], []⟩).Nodup :=
  ⟨by decide, by decide⟩

/-- **C2 (amended).**  In one `generate` run the created bookmark names
are pairwise distinct provided (i) the declared chapter numbers are
pairwise distinct and (ii) the heading bookmark payloads
(`number.replace('.', '_')` of the heading-2/3 nodes) are pairwise
distinct.  Citation backlinks, reference entries and the three special
sections never collide, with each other or with the other families, for
any input. -/
theorem c2_amended_anchor_unique (doc : P5.Doc5)
    (hch : (doc.chapters.map P5.Chapter5.number).Nodup)
    (hhd : (F5.headingMarks doc).Nodup) :
    (F5.bookmarkNames doc).Nodup :=
  List.Nodup.map (fun a b h => F5.anchorName_inj a b h)
    (F5.anchorList_nodup doc hch hhd)

/-- Witness for the C2 amended theorem: a document exercising every
anchor family. -/
theorem c2_amended_anchor_unique_witness :
    (F5.bookmarkNames
        ⟨"T".data, [], [], [], [],
         [⟨1, "A".data,
           [P5.Node5.heading2 "1.1".data "x".data,
            P5.Node5.paragraph "see [1] and [1]".data]⟩,
          ⟨2, "B".data, [P5.Node5.heading3 "2.1.1".data "y".data]⟩],
         [⟨1, some 1, "R".data, "[1] R".data⟩],
         ["thanks".data], ["app".data]⟩).Nodup :=
  c2_amended_anchor_unique
    ⟨"T".data, [], [], [], [],
     [⟨1, "A".data,
       [P5.Node5.heading2 "1.1".data "x".data,
        P5.Node5.paragraph "see [1] and [1]".data]⟩,
      ⟨2, "B".data, [P5.Node5.heading3 "2.1.1".data "y".data]⟩],
     [⟨1, some 1, "R".data, "[1] R".data⟩],
     ["thanks".data], ["app".data]⟩ (by decide) (by decide)
